import Mathlib

/-!
Verification of the lox bytecode compiler and virtual machine.

This file shallowly embeds the data model and operations of the Rust
sources (`src/chunk.rs`, `src/compiler.rs`, `src/vm.rs`,
`src/heap/mod.rs`, `src/heap/hash_table.rs`, `src/value.rs`) in Lean and
proves properties about them.

Modelling conventions:
* Rust `f64` numbers are modelled as exact rationals (`ℚ`).  All
  properties proved here concern grouping, control flow and table
  bookkeeping, none of which depends on rounding; the spec itself notes
  NaN corner cases only in passing and no claim exercises them.
* Heap pointers (`NonNull<ObjString>`, `VMHeap<ObjString>`) are modelled
  as natural-number addresses handed out by an arena inside
  `HeapManager`; `deref` maps an address to the string contents stored
  there.  Pointer equality is equality of addresses.
* String contents are modelled as Lean `String`s; the FNV-1a hash walks
  the characters' code points, which agrees with the byte-level Rust
  hash on ASCII contents (every concrete string appearing in a proof
  below is ASCII).
* Rust panics (`unreachable!`, vector-index panics, the `usize`
  mod-by-zero) are modelled by `Option`/explicit `panic` outcomes.
  `VM::peek` subtracts on `usize`; we model the release-mode behaviour
  (an out-of-range index simply misses and yields `StackUnderflow`).
* The grow check `(count + 1) as f64 > capacity as f64 * 0.75` is exact
  for every reachable size, so it is rendered as
  `4 * (count + 1) > 3 * capacity`.
-/

namespace Lox

/-- FNV-1a step: xor the byte in, multiply by the 32-bit FNV prime, keep 32 bits.
Mirrors `ObjString::make_hash` in `src/heap/mod.rs`. -/
def fnvStep (h b : Nat) : Nat :=
  ((h ^^^ b) * 16777619) % 2 ^ 32

/-- FNV-1a hash of a list of byte values (offset basis 2166136261). -/
def fnvList (bs : List Nat) : Nat :=
  bs.foldl fnvStep 2166136261

/-- FNV-1a hash of a string, hashing the characters' code points
(identical to the Rust byte-level hash on ASCII contents). -/
def fnv (s : String) : Nat :=
  fnvList (s.data.map Char.toNat)

/-- Runtime values, mirroring `Value` in `src/value.rs`.  `obj` holds the
address of a heap `ObjString`. -/
inductive Value where
  | number (q : ℚ)
  | boolean (b : Bool)
  | nil
  | obj (addr : Nat)
deriving DecidableEq, Repr

/-- Value equality as implemented by `impl PartialEq for Value`:
variantwise structural, except that `Obj` values are compared by the
contents of the strings they point to. -/
def valueEq (deref : Nat → String) : Value → Value → Bool
  | .number a, .number b => a == b
  | .boolean a, .boolean b => a == b
  | .nil, .nil => true
  | .obj a, .obj b => deref a == deref b
  | _, _ => false

/-- Truthiness: exactly `Boolean(false)` and `Nil` are falsey
(`Value::is_falsey`). -/
def Value.isFalsey : Value → Bool
  | .boolean false => true
  | .nil => true
  | _ => false

/-! ## The open-addressed hash table (`src/heap/hash_table.rs`) -/

/-- One table slot: `key` is the (nullable) pointer to the interned key
string, `value` the payload.  Mirrors `Entry`. -/
structure Entry where
  key : Option Nat
  value : Value
deriving DecidableEq, Repr

/-- The empty (never-used) slot: null key, `Nil` value. -/
def emptyEntry : Entry := ⟨none, Value.nil⟩

/-- The hash table, mirroring `HashTable`: `entries` always has length
`capacity` (a dangling allocation of size 0 when fresh). -/
structure HashTable where
  count : Nat
  capacity : Nat
  entries : List Entry
deriving DecidableEq, Repr

/-- A fresh table (`HashTable::new`). -/
def HashTable.fresh : HashTable := ⟨0, 0, []⟩

/-- Is this value the `Nil` marker?  `find_entry` compares
`(*entry).value == Value::Nil`; for the two variants the table ever
stores in a null-key slot this is a plain variant test. -/
def isNilV : Value → Bool
  | .nil => true
  | _ => false

/-- The probe loop of `HashTable::find_entry`: `r` probes remain, the
next displacement is `i`, `tomb` remembers the first tombstone seen.
Returns the index of the chosen slot, `none` when the loop falls through
to the `unreachable!` panic. -/
def findEntryAux (es : List Entry) (cap h k : Nat) :
    Nat → Nat → Option Nat → Option Nat
  | 0, _, _ => none
  | r + 1, i, tomb =>
    let j := (h + i) % cap
    let e := es.getD j emptyEntry
    match e.key with
    | some k' =>
      if k' = k then some j
      else findEntryAux es cap h k r (i + 1) tomb
    | none =>
      if isNilV e.value then some (tomb.getD j)
      else findEntryAux es cap h k r (i + 1) (some (tomb.getD j))

/-- `HashTable::find_entry`: probe linearly from `hash % capacity`,
returning the matching slot, or (for an absent key) the first tombstone
if one was passed, else the first truly-empty slot.  `none` models the
`unreachable!` panic (including the `usize` mod-by-zero when
`capacity = 0`). -/
def findEntry (deref : Nat → String) (es : List Entry) (cap : Nat) (k : Nat) :
    Option Nat :=
  if cap = 0 then none
  else findEntryAux es cap (fnv (deref k) % cap) k cap 0 none

/-- `HashTable::get`: `None` when the capacity is zero or the found slot
has a null key.  The outer `Option` is the panic of `find_entry`. -/
def HashTable.get (deref : Nat → String) (t : HashTable) (k : Nat) :
    Option (Option Value) :=
  if t.capacity = 0 then some none
  else
    match findEntry deref t.entries t.capacity k with
    | none => none
    | some j =>
      let e := t.entries.getD j emptyEntry
      match e.key with
      | some _ => some (some e.value)
      | none => some none

/-- `HashTable::delete`: write a tombstone (`key = null`,
`value = Boolean(true)`); `count` is left unchanged.  Returns whether a
key was actually removed; outer `Option` is the panic of `find_entry`. -/
def HashTable.delete (deref : Nat → String) (t : HashTable) (k : Nat) :
    Option (HashTable × Bool) :=
  if t.count = 0 then some (t, false)
  else
    match findEntry deref t.entries t.capacity k with
    | none => none
    | some j =>
      let e := t.entries.getD j emptyEntry
      match e.key with
      | none => some (t, false)
      | some _ =>
        some ({ t with entries := t.entries.set j ⟨none, Value.boolean true⟩ },
              true)

/-- `HashTable::grow_capacity`: 8, or double. -/
def HashTable.growCapacity (t : HashTable) : Nat :=
  if t.capacity < 8 then 8 else t.capacity * 2

/-- `HashTable::adjust_capacity`: allocate `newCap` empty slots, re-insert
every live entry (walking the old slots in order), and recount.  `none`
models a probe panic during the rebuild. -/
def HashTable.adjustCapacity (deref : Nat → String) (t : HashTable)
    (newCap : Nat) : Option HashTable :=
  let rebuilt := t.entries.foldl
    (fun acc e =>
      match acc, e.key with
      | none, _ => none
      | some (es, cnt), none => some (es, cnt)
      | some (es, cnt), some k =>
        match findEntry deref es newCap k with
        | none => none
        | some j => some (es.set j e, cnt + 1))
    (some (List.replicate newCap emptyEntry, 0))
  match rebuilt with
  | none => none
  | some (es, cnt) => some ⟨cnt, newCap, es⟩

/-- `HashTable::insert`: grow when `(count+1)/capacity` would pass the
0.75 load factor, then write the key/value at the probed slot.  The
boolean is `is_new_key` (the probed slot had a null key); `count` is
incremented exactly in that case — note that this includes reuse of a
tombstone slot.  Outer `Option` is a probe panic. -/
def HashTable.insert (deref : Nat → String) (t : HashTable) (k : Nat)
    (v : Value) : Option (HashTable × Bool) := do
  let t ←
    if 4 * (t.count + 1) > 3 * t.capacity then
      t.adjustCapacity deref t.growCapacity
    else some t
  let j ← findEntry deref t.entries t.capacity k
  let e := t.entries.getD j emptyEntry
  let isNew := e.key.isNone
  some ({ t with
          count := if isNew then t.count + 1 else t.count,
          entries := t.entries.set j ⟨some k, v⟩ },
        isNew)

/-- The probe loop of `HashTable::get_string`: compare *contents* at live
slots, stop at a truly-empty slot, ignore tombstones.  `none` is the
`unreachable!` panic. -/
def getStringAux (deref : Nat → String) (es : List Entry) (cap h : Nat)
    (s : String) : Nat → Nat → Option (Option Nat)
  | 0, _ => none
  | r + 1, i =>
    let j := (h + i) % cap
    let e := es.getD j emptyEntry
    match e.key with
    | some k' =>
      if deref k' = s then some (some k')
      else getStringAux deref es cap h s r (i + 1)
    | none =>
      if isNilV e.value then some none
      else getStringAux deref es cap h s r (i + 1)

/-- `HashTable::get_string`: the intern-table lookup by contents.  The
hash is the contents' hash (equal to the probe key's stored hash in the
source).  Returns the canonical stored key pointer. -/
def HashTable.getString (deref : Nat → String) (t : HashTable) (s : String) :
    Option (Option Nat) :=
  if t.count = 0 then some none
  else if t.capacity = 0 then none
  else getStringAux deref t.entries t.capacity (fnv s % t.capacity) s
    t.capacity 0

/-! ## Heap manager and string interning (`src/heap/mod.rs`) -/

/-- The heap manager: an arena of string objects (address → contents)
standing in for the intrusive known-objects list, plus the intern
table.  `nextAddr` is the next fresh address. -/
structure HeapManager where
  nextAddr : Nat
  arena : List (Nat × String)
  strings : HashTable
deriving DecidableEq, Repr

/-- A fresh heap manager over an empty intern table. -/
def HeapManager.fresh : HeapManager := ⟨0, [], HashTable.fresh⟩

/-- Dereference an address to the contents of the `ObjString` stored
there (the model of following a `NonNull<ObjString>`). -/
def HeapManager.deref (m : HeapManager) (a : Nat) : String :=
  match m.arena.lookup a with
  | some s => s
  | none => ""

/-- `HeapManager::new_str_copied`: build the candidate contents, consult
the intern table by contents, return the canonical existing address or
register a fresh one (interning it with a `Nil` marker value). -/
def HeapManager.newStrCopied (m : HeapManager) (s : String) :
    Option (HeapManager × Nat) := do
  match ← m.strings.getString m.deref s with
  | some r => some (m, r)
  | none =>
    let addr := m.nextAddr
    let m' : HeapManager := ⟨addr + 1, (addr, s) :: m.arena, m.strings⟩
    let (tbl, _) ← m'.strings.insert m'.deref addr Value.nil
    some ({ m' with strings := tbl }, addr)

/-- `HeapManager::new_str_concat`: same shape as `new_str_copied`, the
candidate contents being the concatenation of the two strings'
contents. -/
def HeapManager.newStrConcat (m : HeapManager) (a b : Nat) :
    Option (HeapManager × Nat) := do
  let s := m.deref a ++ m.deref b
  match ← m.strings.getString m.deref s with
  | some r => some (m, r)
  | none =>
    let addr := m.nextAddr
    let m' : HeapManager := ⟨addr + 1, (addr, s) :: m.arena, m.strings⟩
    let (tbl, _) ← m'.strings.insert m'.deref addr Value.nil
    some ({ m' with strings := tbl }, addr)

/-! ## Chunks and opcodes (`src/chunk.rs`) -/

/-- The opcode set, in the declaration order of `enum Opcode` (the
`repr(u8)` discriminants are the positions in this list). -/
inductive Opcode where
  | constant | add | subtract | multiply | divide | negate | ret
  | tru | fls | nil | not | equal | greater | less | print | pop
  | defineGlobal | getGlobal | setGlobal | getLocal | setLocal
  | jumpIfFalse | jump | loop
deriving DecidableEq, Repr

/-- `Opcode::as_byte`: the `repr(u8)` discriminant. -/
def Opcode.asByte : Opcode → Nat
  | .constant => 0 | .add => 1 | .subtract => 2 | .multiply => 3
  | .divide => 4 | .negate => 5 | .ret => 6 | .tru => 7 | .fls => 8
  | .nil => 9 | .not => 10 | .equal => 11 | .greater => 12 | .less => 13
  | .print => 14 | .pop => 15 | .defineGlobal => 16 | .getGlobal => 17
  | .setGlobal => 18 | .getLocal => 19 | .setLocal => 20
  | .jumpIfFalse => 21 | .jump => 22 | .loop => 23

/-- `Opcode::try_from` on a byte (the `TryFromPrimitive` instance):
`none` for a byte with no opcode. -/
def decodeOpcode : Nat → Option Opcode
  | 0 => some .constant | 1 => some .add | 2 => some .subtract
  | 3 => some .multiply | 4 => some .divide | 5 => some .negate
  | 6 => some .ret | 7 => some .tru | 8 => some .fls | 9 => some .nil
  | 10 => some .not | 11 => some .equal | 12 => some .greater
  | 13 => some .less | 14 => some .print | 15 => some .pop
  | 16 => some .defineGlobal | 17 => some .getGlobal | 18 => some .setGlobal
  | 19 => some .getLocal | 20 => some .setLocal | 21 => some .jumpIfFalse
  | 22 => some .jump | 23 => some .loop
  | _ => none

/-- A bytecode chunk: code bytes, constant pool, per-byte line table
(`struct Chunk`; the name field is irrelevant to behaviour and kept for
fidelity). -/
structure Chunk where
  code : List Nat
  constants : List Value
  name : String
  lines : List Nat
deriving DecidableEq, Repr

/-- `Chunk::new`. -/
def Chunk.new (name : String) : Chunk := ⟨[], [], name, []⟩

/-- `Chunk::line_for` (a panicking `Vec` index in the source; `none`
models the panic). -/
def Chunk.lineFor (c : Chunk) (ip : Nat) : Option Nat :=
  c.lines.get? ip

/-- `Chunk::add_byte`. -/
def Chunk.addByte (c : Chunk) (b line : Nat) : Chunk :=
  { c with code := c.code ++ [b], lines := c.lines ++ [line] }

/-- `Chunk::add_opcode`. -/
def Chunk.addOpcode (c : Chunk) (op : Opcode) (line : Nat) : Chunk :=
  c.addByte op.asByte line

/-- `Chunk::add_opcode_and_operand`. -/
def Chunk.addOpcodeAndOperand (c : Chunk) (op : Opcode) (operand line : Nat) :
    Chunk :=
  (c.addOpcode op line).addByte operand line

/-- `Chunk::add_dummy_jump`: opcode plus two `0xFF` placeholders; returns
the index of the first placeholder. -/
def Chunk.addDummyJump (c : Chunk) (op : Opcode) (line : Nat) :
    Chunk × Nat :=
  let c := c.addOpcode op line
  let target := c.code.length
  ((c.addByte 255 line).addByte 255 line, target)

/-- `Chunk::patch_jump`: store `code.len() - target - 2` big-endian at
`target`, `target + 1`; error when the subtraction underflows or the
offset exceeds `u16::MAX`. -/
def Chunk.patchJump (c : Chunk) (target : Nat) : Except String Chunk :=
  if c.code.length < target + 2 then .error "Too much code to jump over."
  else
    let jump := c.code.length - target - 2
    if jump > 65535 then .error "Too much code to jump over."
    else .ok { c with
      code := (c.code.set target (jump / 256 % 256)).set (target + 1)
        (jump % 256) }

/-- `Chunk::get_loop_start`. -/
def Chunk.getLoopStart (c : Chunk) : Nat := c.code.length

/-- `Chunk::emit_loop`: emit `Loop` then the big-endian backward offset
`code.len() - loop_start + 2` (length measured after the opcode byte);
error when the subtraction underflows or the offset exceeds
`u16::MAX`. -/
def Chunk.emitLoop (c : Chunk) (loopStart line : Nat) : Except String Chunk :=
  let c := c.addOpcode .loop line
  if c.code.length < loopStart then .error "Loop body too large."
  else
    let offset := c.code.length - loopStart + 2
    if offset > 65535 then .error "Loop body too large."
    else .ok ((c.addByte (offset / 256 % 256) line).addByte (offset % 256) line)

/-- The `iter().enumerate().find_map(..)` scan inside
`Chunk::add_constant`: the index (counting from `i`) of the first pool
entry `==`-equal to `v`. -/
def findConstant (deref : Nat → String) (v : Value) :
    List Value → Nat → Option Nat
  | [], _ => Option.none
  | w :: ws, i =>
    if valueEq deref w v then some i else findConstant deref v ws (i + 1)

/-- `Chunk::add_constant`: if the pool is not yet full, return the index
of an existing `==`-equal constant or push a new one; a full pool (256
entries) yields `None` unconditionally. -/
def Chunk.addConstant (deref : Nat → String) (c : Chunk) (v : Value) :
    Option (Chunk × Nat) :=
  if c.constants.length < 256 then
    match findConstant deref v c.constants 0 with
    | some idx => some (c, idx)
    | none =>
      some ({ c with constants := c.constants ++ [v] }, c.constants.length)
  else none

/-- `Chunk::get_constant`. -/
def Chunk.getConstant (c : Chunk) (idx : Nat) : Option Value :=
  c.constants.get? idx

/-! ## The virtual machine (`src/vm.rs`) -/

/-- Internal-invariant errors (`IncorrectInvariantError`). -/
inductive IncorrectInvariantError where
  | invalidOpcode (byte : Nat)
  | invalidConstant (index : Nat)
  | stackUnderflow
  | invalidTypes
deriving DecidableEq, Repr

/-- Runtime errors (`RuntimeError`); the strings are carried structurally
(`undefinedVariable` holds the variable name's contents). -/
inductive RuntimeError where
  | invalidInstructionPointer (pointer chunkLength : Nat)
  | stackOverflow
  | invalidTypes (line : Nat) (what : String)
  | invalidType (what : String)
  | undefinedVariable (name : String)
deriving DecidableEq, Repr

/-- A VM error is one of the two tiers (`VMError`). -/
inductive VMError where
  | incorrectInvariant (e : IncorrectInvariantError)
  | runtime (e : RuntimeError)
deriving DecidableEq, Repr

/-- One printed line: `Print` renders the value (strings by their
contents).  Modelling the output sink as the list of printed values
keeps the observable behaviour while avoiding `f64` formatting. -/
inductive Printed where
  | num (q : ℚ)
  | bool (b : Bool)
  | nil
  | str (s : String)
deriving DecidableEq, Repr

/-- The VM state (`struct VM`): instruction pointer, operand stack (head
of the list = top of stack, capacity 256), heap manager, globals table,
and the written output, oldest first. -/
structure VMState where
  ip : Nat
  stack : List Value
  heap : HeapManager
  globals : HashTable
  output : List Printed
deriving DecidableEq, Repr

/-- The VM's stack capacity (`STACK_SIZE`). -/
def stackSize : Nat := 256

/-- `VM::peek`: the value `distance` slots below the top;
`StackUnderflow` (as `none`) when out of range. -/
def peekStack (stack : List Value) (distance : Nat) : Option Value :=
  stack.get? distance

/-- Result of one fetch-decode-execute round: continue, halt at
`Return`, halt with an error, or hit a Rust panic
(slot-index/`unreachable!`). -/
inductive StepRes where
  | next (s : VMState)
  | done (s : VMState)
  | err (e : VMError) (s : VMState)
  | panic
deriving Repr

/-- `VM::read_byte` at `s.ip`: the byte and the advanced ip, or the
`InvalidInstructionPointer` error. -/
def readByte (c : Chunk) (ip : Nat) : Except VMError (Nat × Nat) :=
  match c.code.get? ip with
  | some b => .ok (b, ip + 1)
  | none => .error (.runtime (.invalidInstructionPointer ip c.code.length))

/-- `VM::read_short`: two bytes, big-endian. -/
def readShort (c : Chunk) (ip : Nat) : Except VMError (Nat × Nat) :=
  match readByte c ip with
  | .error e => .error e
  | .ok (h, ip) =>
    match readByte c ip with
    | .error e => .error e
    | .ok (l, ip) => .ok (h * 256 + l, ip)

/-- `VM::read_constant`: a byte operand indexing the constant pool;
a bad index is the `InvalidConstant` invariant error. -/
def readConstant (c : Chunk) (ip : Nat) : Except VMError (Value × Nat) :=
  match readByte c ip with
  | .error e => .error e
  | .ok (b, ip) =>
    match c.getConstant b with
    | some v => .ok (v, ip)
    | none => .error (.incorrectInvariant (.invalidConstant b))

/-- `VM::push` with the 256-entry capacity check. -/
def pushStack (stack : List Value) (v : Value) :
    Except VMError (List Value) :=
  if stack.length < stackSize then .ok (v :: stack)
  else .error (.runtime .stackOverflow)

/-- `VM::pop`. -/
def popStack (stack : List Value) : Except VMError (Value × List Value) :=
  match stack with
  | [] => .error (.incorrectInvariant .stackUnderflow)
  | v :: rest => .ok (v, rest)

/-- `VM::binary_op`: pop `b` then `a`, require numbers, push the
result. -/
def binaryOpNum (stack : List Value) (f : ℚ → ℚ → Value) (line : Nat) :
    Except VMError (List Value) :=
  match popStack stack with
  | .error e => .error e
  | .ok (b, stack) =>
    match popStack stack with
    | .error e => .error e
    | .ok (a, stack) =>
      match a, b with
      | .number a, .number b => pushStack stack (f a b)
      | _, _ => .error (.runtime (.invalidTypes line "numbers"))

/-- Render a value for `Print` (`Display for Value`; string objects print
their contents). -/
def renderValue (m : HeapManager) : Value → Printed
  | .number q => .num q
  | .boolean b => .bool b
  | .nil => .nil
  | .obj a => .str (m.deref a)

/-- One iteration of `VM::run`'s loop on chunk `c`: fetch the byte at
`s.ip`, decode, execute.  Each arm mirrors the corresponding `match`
arm in the source; `.panic` stands for the Rust panics (out-of-range
`stack[slot]`, probe `unreachable!`s). -/
def step (c : Chunk) (s : VMState) : StepRes :=
  match readByte c s.ip with
  | .error e => .err e s
  | .ok (b, ip) =>
    match decodeOpcode b with
    | none => .err (.incorrectInvariant (.invalidOpcode b)) s
    | some op =>
      match op with
      | .constant =>
        match readConstant c ip with
        | .error e => .err e { s with ip := ip }
        | .ok (v, ip) =>
          match pushStack s.stack v with
          | .error e => .err e { s with ip := ip }
          | .ok stack => .next { s with ip := ip, stack := stack }
      | .ret => .done { s with ip := ip }
      | .negate =>
        match popStack s.stack with
        | .error e => .err e { s with ip := ip }
        | .ok (v, stack) =>
          match v with
          | .number n =>
            match pushStack stack (.number (-n)) with
            | .error e => .err e { s with ip := ip, stack := stack }
            | .ok stack => .next { s with ip := ip, stack := stack }
          | _ => .err (.runtime (.invalidType "number")) { s with ip := ip }
      | .add =>
        match peekStack s.stack 0, peekStack s.stack 1 with
        | some b', some a' =>
          match a', b' with
          | .number _, .number _ =>
            match c.lineFor ip with
            | none => .panic
            | some line =>
              match binaryOpNum s.stack (fun a b => .number (a + b)) line with
              | .error e => .err e { s with ip := ip }
              | .ok stack => .next { s with ip := ip, stack := stack }
          | .obj a, .obj b =>
            match popStack s.stack with
            | .error _ => .panic
            | .ok (_, st1) =>
              match popStack st1 with
              | .error _ => .panic
              | .ok (_, st2) =>
                match s.heap.newStrConcat a b with
                | none => .panic
                | some (heap, r) =>
                  match pushStack st2 (.obj r) with
                  | .error e =>
                    .err e { s with ip := ip, stack := st2, heap := heap }
                  | .ok stack =>
                    .next { s with ip := ip, stack := stack, heap := heap }
          | _, _ =>
            match c.lineFor ip with
            | none => .panic
            | some line =>
              .err (.runtime (.invalidTypes line "two numbers or two strings"))
                { s with ip := ip }
        | _, _ =>
          .err (.incorrectInvariant .stackUnderflow) { s with ip := ip }
      | .subtract =>
        match c.lineFor ip with
        | none => .panic
        | some line =>
          match binaryOpNum s.stack (fun a b => .number (a - b)) line with
          | .error e => .err e { s with ip := ip }
          | .ok stack => .next { s with ip := ip, stack := stack }
      | .multiply =>
        match c.lineFor ip with
        | none => .panic
        | some line =>
          match binaryOpNum s.stack (fun a b => .number (a * b)) line with
          | .error e => .err e { s with ip := ip }
          | .ok stack => .next { s with ip := ip, stack := stack }
      | .divide =>
        match c.lineFor ip with
        | none => .panic
        | some line =>
          match binaryOpNum s.stack (fun a b => .number (a / b)) line with
          | .error e => .err e { s with ip := ip }
          | .ok stack => .next { s with ip := ip, stack := stack }
      | .tru =>
        match pushStack s.stack (.boolean true) with
        | .error e => .err e { s with ip := ip }
        | .ok stack => .next { s with ip := ip, stack := stack }
      | .fls =>
        match pushStack s.stack (.boolean false) with
        | .error e => .err e { s with ip := ip }
        | .ok stack => .next { s with ip := ip, stack := stack }
      | .nil =>
        match pushStack s.stack .nil with
        | .error e => .err e { s with ip := ip }
        | .ok stack => .next { s with ip := ip, stack := stack }
      | .not =>
        match popStack s.stack with
        | .error e => .err e { s with ip := ip }
        | .ok (v, stack) =>
          match pushStack stack (.boolean v.isFalsey) with
          | .error e => .err e { s with ip := ip, stack := stack }
          | .ok stack => .next { s with ip := ip, stack := stack }
      | .equal =>
        match popStack s.stack with
        | .error e => .err e { s with ip := ip }
        | .ok (b', stack) =>
          match popStack stack with
          | .error e => .err e { s with ip := ip, stack := stack }
          | .ok (a', stack) =>
            match pushStack stack (.boolean (valueEq s.heap.deref a' b')) with
            | .error e => .err e { s with ip := ip, stack := stack }
            | .ok stack => .next { s with ip := ip, stack := stack }
      | .greater =>
        match c.lineFor ip with
        | none => .panic
        | some line =>
          match binaryOpNum s.stack (fun a b => .boolean (b < a)) line with
          | .error e => .err e { s with ip := ip }
          | .ok stack => .next { s with ip := ip, stack := stack }
      | .less =>
        match c.lineFor ip with
        | none => .panic
        | some line =>
          match binaryOpNum s.stack (fun a b => .boolean (a < b)) line with
          | .error e => .err e { s with ip := ip }
          | .ok stack => .next { s with ip := ip, stack := stack }
      | .print =>
        match popStack s.stack with
        | .error e => .err e { s with ip := ip }
        | .ok (v, stack) =>
          .next { s with
                  ip := ip
                  stack := stack
                  output := s.output ++ [renderValue s.heap v] }
      | .pop =>
        match popStack s.stack with
        | .error e => .err e { s with ip := ip }
        | .ok (_, stack) => .next { s with ip := ip, stack := stack }
      | .defineGlobal =>
        match readConstant c ip with
        | .error e => .err e { s with ip := ip }
        | .ok (name, ip) =>
          match name with
          | .obj a =>
            match peekStack s.stack 0 with
            | none =>
              .err (.incorrectInvariant .stackUnderflow) { s with ip := ip }
            | some v =>
              match s.globals.insert s.heap.deref a v with
              | none => .panic
              | some (globals, _) =>
                .next { s with
                        ip := ip
                        stack := s.stack.tail
                        globals := globals }
          | _ =>
            .err (.incorrectInvariant .invalidTypes) { s with ip := ip }
      | .getGlobal =>
        match readConstant c ip with
        | .error e => .err e { s with ip := ip }
        | .ok (name, ip) =>
          match name with
          | .obj a =>
            match s.globals.get s.heap.deref a with
            | none => .panic
            | some none =>
              .err (.runtime (.undefinedVariable (s.heap.deref a)))
                { s with ip := ip }
            | some (some v) =>
              match pushStack s.stack v with
              | .error e => .err e { s with ip := ip }
              | .ok stack => .next { s with ip := ip, stack := stack }
          | _ =>
            .err (.incorrectInvariant .invalidTypes) { s with ip := ip }
      | .setGlobal =>
        match readConstant c ip with
        | .error e => .err e { s with ip := ip }
        | .ok (name, ip) =>
          match name with
          | .obj a =>
            match peekStack s.stack 0 with
            | none =>
              .err (.incorrectInvariant .stackUnderflow) { s with ip := ip }
            | some v =>
              match s.globals.insert s.heap.deref a v with
              | none => .panic
              | some (globals, isNew) =>
                if isNew then
                  match globals.delete s.heap.deref a with
                  | none => .panic
                  | some (globals, _) =>
                    .err (.runtime (.undefinedVariable (s.heap.deref a)))
                      { s with ip := ip, globals := globals }
                else .next { s with ip := ip, globals := globals }
          | _ =>
            .err (.incorrectInvariant .invalidTypes) { s with ip := ip }
      | .setLocal =>
        match readByte c ip with
        | .error e => .err e s
        | .ok (slot, ip) =>
          match peekStack s.stack 0 with
          | none =>
            .err (.incorrectInvariant .stackUnderflow) { s with ip := ip }
          | some v =>
            if slot < s.stack.length then
              .next { s with
                      ip := ip
                      stack := s.stack.set (s.stack.length - 1 - slot) v }
            else .panic
      | .getLocal =>
        match readByte c ip with
        | .error e => .err e s
        | .ok (slot, ip) =>
          match s.stack.get? (s.stack.length - 1 - slot) with
          | some v =>
            if slot < s.stack.length then
              match pushStack s.stack v with
              | .error e => .err e { s with ip := ip }
              | .ok stack => .next { s with ip := ip, stack := stack }
            else .panic
          | none => .panic
      | .jumpIfFalse =>
        match readShort c ip with
        | .error e => .err e s
        | .ok (offset, ip) =>
          match peekStack s.stack 0 with
          | none =>
            .err (.incorrectInvariant .stackUnderflow) { s with ip := ip }
          | some v =>
            if v.isFalsey then .next { s with ip := ip + offset }
            else .next { s with ip := ip }
      | .jump =>
        match readShort c ip with
        | .error e => .err e s
        | .ok (offset, ip) => .next { s with ip := ip + offset }
      | .loop =>
        match readShort c ip with
        | .error e => .err e s
        | .ok (offset, ip) => .next { s with ip := ip - offset }

/-- Outcome of running the VM with a fuel bound: halted (with
`VM::run`'s result and the final state), hit a panic, or still running
when the fuel ran out. -/
inductive RunRes where
  | halt (r : Except VMError Unit) (s : VMState)
  | panic
  | more (s : VMState)
deriving Repr

/-- `VM::run`'s loop, bounded by `fuel` iterations. -/
def run (c : Chunk) : Nat → VMState → RunRes
  | 0, s => .more s
  | fuel + 1, s =>
    match step c s with
    | .next s' => run c fuel s'
    | .done s' => .halt (.ok ()) s'
    | .err e s' => .halt (.error e) s'
    | .panic => .panic

/-- The initial VM state for a fresh `VM::new` over a given heap
manager. -/
def initState (heap : HeapManager) : VMState :=
  ⟨0, [], heap, HashTable.fresh, []⟩

/-! ## Tokens (`src/scanner.rs`) -/

/-- Token contents (`TokenContents`).  Number literals carry the exact
rational the source numeral denotes (the Rust token carries the numeral
slice and `parse_number` parses it; the parse cannot fail on
scanner-produced numerals). -/
inductive TokenContents where
  | leftParen | rightParen | leftBrace | rightBrace | comma | dot
  | minus | plus | semicolon | slash | asterisk
  | bang | bangEqual | equal | equalEqual
  | greater | greaterEqual | less | lessEqual
  | identifier (s : String)
  | stringLit (s : String)
  | number (q : ℚ)
  | kAnd | kClass | kElse | kFalse | kFor | kFun | kIf | kNil | kOr
  | kPrint | kReturn | kSuper | kThis | kTrue | kVar | kWhile
deriving DecidableEq, Repr

/-- A token with its source line (`Token`). -/
structure Token where
  contents : TokenContents
  line : Nat
deriving DecidableEq, Repr

/-- Scan errors (`ScanError`). -/
inductive ScanError where
  | unknownToken (lexeme : String) (line : Nat)
  | unterminatedString (lexeme : String) (line : Nat)
deriving DecidableEq, Repr

/-- Modelled from the spec: `Display for TokenContents` is not among the
sources under `src/` (only its callers, `token.contents.to_string()` in
`src/compiler.rs`, are).  The spec's error-format section shows the
offending lexeme as `'T'`, so each variant displays as its source
lexeme; literal variants display their payload. -/
def TokenContents.display : TokenContents → String
  | .leftParen => "(" | .rightParen => ")"
  | .leftBrace => "\x7b" | .rightBrace => "\x7d"
  | .comma => "," | .dot => "." | .minus => "-" | .plus => "+"
  | .semicolon => ";" | .slash => "/" | .asterisk => "*"
  | .bang => "!" | .bangEqual => "!=" | .equal => "="
  | .equalEqual => "==" | .greater => ">" | .greaterEqual => ">="
  | .less => "<" | .lessEqual => "<="
  | .identifier s => s
  | .stringLit s => s
  | .number q => toString q
  | .kAnd => "and" | .kClass => "class" | .kElse => "else"
  | .kFalse => "false" | .kFor => "for" | .kFun => "fun" | .kIf => "if"
  | .kNil => "nil" | .kOr => "or" | .kPrint => "print"
  | .kReturn => "return" | .kSuper => "super" | .kThis => "this"
  | .kTrue => "true" | .kVar => "var" | .kWhile => "while"

/-! ## The compiler (`src/compiler.rs`) -/

/-- Parse errors (`ParseError`); `noPrefixRule` is the source's
`NoPrefixParser` variant. -/
inductive ParseError where
  | tooManyConstants
  | invalidAssignmentTarget (line : Nat)
  | noPrefixRule (line : Nat) (lexeme : String)
  | noInfixRule (line : Nat) (lexeme : String)
  | localInOwnInitializer (line : Nat) (name : String)
  | notAVariableName (line : Nat) (lexeme : String)
  | duplicateLocal (line : Nat) (name : String)
  | missingSemicolon (line : Nat) (lexeme : String)
  | generalError (msg : String)
deriving DecidableEq, Repr

/-- A compile error is a scan error or a parse error (`CompileError`). -/
inductive CompileError where
  | scanErr (e : ScanError)
  | parseErr (e : ParseError)
deriving DecidableEq, Repr

/-- Render a `ParseError` exactly as its `thiserror` format string does
(`#[error(...)]` attributes in `src/compiler.rs`). -/
def renderParseError : ParseError → String
  | .tooManyConstants => "Too many constants in one chunk."
  | .invalidAssignmentTarget l =>
    "[line " ++ toString l ++ "] Error at '=': Invalid assignment target."
  | .noPrefixRule l t =>
    "[line " ++ toString l ++ "] Error at '" ++ t ++
      "': Expect expression. (prefix)"
  | .noInfixRule l t =>
    "[line " ++ toString l ++ "] Error at '" ++ t ++
      "': Expect expression. (infix)"
  | .localInOwnInitializer l t =>
    "[line " ++ toString l ++ "] Error at '" ++ t ++
      "': Can't read local variable in its own initializer."
  | .notAVariableName l t =>
    "[line " ++ toString l ++ "] Error at '" ++ t ++
      "': Expect variable name."
  | .duplicateLocal l t =>
    "[line " ++ toString l ++ "] Error at '" ++ t ++
      "': Already a variable with this name in this scope."
  | .missingSemicolon l t =>
    "[line " ++ toString l ++ "] Error at '" ++ t ++
      "': Expect ';' after expression."
  | .generalError m => "Compile error: " ++ m ++ "."

/-- Binding powers, lowest to highest (`BindingPower`). -/
inductive BindingPower where
  | none | assignment | or | and | equality | comparison
  | term | factor | unary | call | primary
deriving DecidableEq, Repr

/-- The `repr(u8)` discriminant, giving the derived `PartialOrd`
order. -/
def BindingPower.toNat : BindingPower → Nat
  | .none => 0 | .assignment => 1 | .or => 2 | .and => 3 | .equality => 4
  | .comparison => 5 | .term => 6 | .factor => 7 | .unary => 8
  | .call => 9 | .primary => 10

/-- Strict order on binding powers. -/
def bpLt (a b : BindingPower) : Bool := a.toNat < b.toNat

/-- Non-strict order on binding powers. -/
def bpLe (a b : BindingPower) : Bool := a.toNat ≤ b.toNat

/-- `OperatorType`. -/
inductive OperatorType where
  | prefixOp
  | infixOp
deriving DecidableEq, Repr

/-- The parselets of the Pratt table, standing in for the function
pointers returned by `get_parser`. -/
inductive Parselet where
  | unary | number | term | factor | grouping | literal
  | equality | comparison | stringLit | identifier | andOp | orOp
deriving DecidableEq, Repr

/-- The Pratt dispatch table (`get_parser`). -/
def getRule (t : TokenContents) (ot : OperatorType) :
    Option (Parselet × BindingPower) :=
  match t, ot with
  | .minus, .prefixOp => some (.unary, .unary)
  | .bang, .prefixOp => some (.unary, .unary)
  | .number _, .prefixOp => some (.number, .none)
  | .plus, .infixOp => some (.term, .term)
  | .minus, .infixOp => some (.term, .term)
  | .asterisk, .infixOp => some (.factor, .factor)
  | .slash, .infixOp => some (.factor, .factor)
  | .leftParen, .prefixOp => some (.grouping, .none)
  | .kTrue, .prefixOp => some (.literal, .none)
  | .kFalse, .prefixOp => some (.literal, .none)
  | .kNil, .prefixOp => some (.literal, .none)
  | .equalEqual, .infixOp => some (.equality, .equality)
  | .bangEqual, .infixOp => some (.equality, .equality)
  | .greater, .infixOp => some (.comparison, .comparison)
  | .greaterEqual, .infixOp => some (.comparison, .comparison)
  | .less, .infixOp => some (.comparison, .comparison)
  | .lessEqual, .infixOp => some (.comparison, .comparison)
  | .stringLit _, .prefixOp => some (.stringLit, .none)
  | .identifier _, .prefixOp => some (.identifier, .none)
  | .kAnd, .infixOp => some (.andOp, .and)
  | .kOr, .infixOp => some (.orOp, .or)
  | _, _ => Option.none

/-- A compiler local (`struct Local`); `depth = none` is "declared but
not yet defined". -/
structure Local where
  name : String
  depth : Option Nat
deriving DecidableEq, Repr

/-- The compiler state (`struct Compiler`): the remaining token stream
(the peekable iterator), the chunk being built, the heap manager, the
accumulated error list, the locals stack (bottom first, capacity 256)
and the scope depth. -/
structure CompSt where
  tokens : List (Except ScanError Token)
  chunk : Chunk
  heap : HeapManager
  errors : List CompileError
  locals : List Local
  scopeDepth : Nat
deriving Repr

/-- The compiler monad: state always survives (Rust mutates `&mut self`
before an `Err` propagates), errors short-circuit, and `Option.none`
models a Rust panic. -/
def CompM (A : Type) : Type :=
  CompSt → Option (Except (List CompileError) A × CompSt)

instance : Monad CompM where
  pure a := fun st => some (.ok a, st)
  bind x f := fun st =>
    match x st with
    | Option.none => Option.none
    | some (.error e, st') => some (.error e, st')
    | some (.ok a, st') => f a st'

/-- Read the compiler state. -/
def getSt : CompM CompSt := fun st => some (.ok st, st)

/-- Replace the compiler state. -/
def setSt (st : CompSt) : CompM Unit := fun _ => some (.ok (), st)

/-- Update the compiler state. -/
def modifySt (f : CompSt → CompSt) : CompM Unit :=
  fun st => some (.ok (), f st)

/-- Fail with a list of compile errors (`Err(errors)`). -/
def throwC {A : Type} (e : List CompileError) : CompM A :=
  fun st => some (.error e, st)

/-- A Rust panic (`unreachable!`, `unwrap` on `None`). -/
def panicC {A : Type} : CompM A := fun _ => Option.none

/-- Run a computation, reifying its error outcome (the model of
`if let Err(e) = ... ` / `match ...` on a `CompileResult`). -/
def tryC {A : Type} (x : CompM A) : CompM (Except (List CompileError) A) :=
  fun st =>
    match x st with
    | Option.none => Option.none
    | some (r, st') => some (.ok r, st')

/-- Make a single-element error list from a parse error (the
`From<ParseError> for CompileErrors` conversions). -/
def perr (e : ParseError) : List CompileError := [.parseErr e]

/-- `Compiler::next_token`. -/
def nextToken : CompM Token := do
  let st ← getSt
  match st.tokens with
  | [] => throwC (perr (.generalError ("Unexpected end of stream")))
  | t :: rest =>
    setSt { st with tokens := rest }
    match t with
    | .ok t => pure t
    | .error e => throwC [.scanErr e]

/-- `Compiler::peek_token` (does not consume; clones a scan error). -/
def peekToken : CompM Token := do
  let st ← getSt
  match st.tokens with
  | [] => throwC (perr (.generalError ("Unexpected end of stream")))
  | .ok t :: _ => pure t
  | .error e :: _ => throwC [.scanErr e]

/-- Does this token start a statement, for panic-mode synchronization? -/
def isStmtStart : TokenContents → Bool
  | .kClass | .kFun | .kVar | .kFor | .kIf | .kWhile | .kPrint
  | .kReturn => true
  | _ => false

/-- The token-skipping loop of `Compiler::synchronize`: consume until a
semicolon has been consumed or the next token starts a statement; a
scan error in the stream is consumed and stops the loop. -/
def syncLoop : List (Except ScanError Token) → List (Except ScanError Token)
  | [] => []
  | .error _ :: rest => rest
  | .ok t :: rest =>
    if t.contents = .semicolon then rest
    else
      match rest with
      | .ok t' :: _ =>
        if isStmtStart t'.contents then rest else syncLoop rest
      | _ => syncLoop rest

/-- `Compiler::resolve_local`: scan the locals stack from top to bottom;
a match with `depth = None` is the read-in-own-initializer error,
otherwise the local's (bottom-based) slot index. -/
def resolveLocal (name : String) (line : Nat) : CompM (Option Nat) := do
  let st ← getSt
  match st.locals.enum.reverse.find? (fun p => p.2.name = name) with
  | some (idx, l) =>
    if l.depth = Option.none then
      throwC (perr (.localInOwnInitializer line name))
    else pure (some idx)
  | Option.none => pure Option.none

/-- `Compiler::add_local` (the `ArrayVec::try_push` capacity check). -/
def addLocal (name : String) : CompM Unit := do
  let st ← getSt
  if st.locals.length < 256 then
    setSt { st with locals := st.locals ++ [⟨name, Option.none⟩] }
  else throwC (perr (.generalError ("Too many locals")))

/-- `Compiler::declare_variable`: at inner scope, reject a duplicate at
the same depth, then push the declared-but-undefined local. -/
def declareVariable (name : String) (line : Nat) : CompM Unit := do
  let st ← getSt
  if st.scopeDepth > 0 then
    if (st.locals.filter (fun l => l.depth = some st.scopeDepth)).any
        (fun l => l.name = name) then
      throwC (perr (.duplicateLocal line name))
    else addLocal name
  else pure ()

/-- `Compiler::identifier_constant`: intern the identifier and add the
resulting string value to the constant pool. -/
def identifierConstant (id : String) : CompM Nat := do
  let st ← getSt
  match st.heap.newStrCopied id with
  | Option.none => panicC
  | some (heap, addr) =>
    let st := { st with heap := heap }
    setSt st
    match st.chunk.addConstant st.heap.deref (.obj addr) with
    | Option.none => throwC (perr .tooManyConstants)
    | some (chunk, idx) =>
      setSt { st with chunk := chunk }
      pure idx

/-- `Compiler::define_variable`: a `Some` index emits `DefineGlobal`;
otherwise mark the just-declared local as defined at the current
depth.  The `unreachable!` arms are panics. -/
def defineVariable (idx : Option Nat) (line : Nat) : CompM Unit := do
  match idx with
  | some i =>
    modifySt (fun st =>
      { st with chunk := st.chunk.addOpcodeAndOperand .defineGlobal i line })
  | Option.none =>
    let st ← getSt
    if st.scopeDepth > 0 then
      match st.locals.getLast? with
      | some l =>
        setSt { st with
          locals := st.locals.dropLast ++ [⟨l.name, some st.scopeDepth⟩] }
      | Option.none => panicC
    else panicC

/-- `Compiler::emit_jump` (via `Chunk::add_dummy_jump`). -/
def emitJump (op : Opcode) (line : Nat) : CompM Nat := do
  let st ← getSt
  let (chunk, target) := st.chunk.addDummyJump op line
  setSt { st with chunk := chunk }
  pure target

/-- `Compiler::patch_jump` (wrapping the chunk error into a
`GeneralError`). -/
def patchJumpC (target : Nat) : CompM Unit := do
  let st ← getSt
  match st.chunk.patchJump target with
  | .ok chunk => setSt { st with chunk := chunk }
  | .error e => throwC (perr (.generalError e))

/-- `Compiler::emit_loop` (wrapping the chunk error into a
`GeneralError`). -/
def emitLoopC (loopStart line : Nat) : CompM Unit := do
  let st ← getSt
  match st.chunk.emitLoop loopStart line with
  | .ok chunk => setSt { st with chunk := chunk }
  | .error e => throwC (perr (.generalError e))

/-- The local-popping loop at the end of `Compiler::scoped`: pop every
local whose depth exceeds the restored scope depth, emitting one `Pop`
(at line 0) per local.  The fuel is an upper bound on the locals
stack. -/
def popLocalsLoop : Nat → CompSt → CompSt
  | 0, st => st
  | n + 1, st =>
    match st.locals.getLast? with
    | some l =>
      match l.depth with
      | some d =>
        if st.scopeDepth < d then
          popLocalsLoop n
            { st with
              chunk := st.chunk.addOpcode .pop 0
              locals := st.locals.dropLast }
        else st
      | Option.none => st
    | Option.none => st

mutual

/-- The declaration-scanning loop of `Compiler::compile`: peek; on a
token parse one declaration; on a scan error push it and stop. -/
def compileLoop : Nat → CompM Unit
  | 0 => panicC
  | fuel + 1 => do
    let st ← getSt
    match st.tokens with
    | [] => pure ()
    | .ok _ :: _ =>
      declaration fuel
      compileLoop fuel
    | .error e :: _ =>
      modifySt (fun st => { st with errors := st.errors ++ [.scanErr e] })

/-- `Compiler::declaration`: `var` declaration or statement; an error
triggers panic-mode synchronization (extend the accumulated errors,
skip tokens) and the declaration itself succeeds. -/
def declaration : Nat → CompM Unit
  | 0 => panicC
  | fuel + 1 => do
    let st ← getSt
    match st.tokens with
    | .ok t :: rest =>
      let r ←
        tryC
          (if t.contents = .kVar then do
            setSt { st with tokens := rest }
            varDeclaration fuel
          else statement fuel)
      match r with
      | .ok _ => pure ()
      | .error e =>
        modifySt (fun st =>
          { st with errors := st.errors ++ e, tokens := syncLoop st.tokens })
    | _ => panicC

/-- `Compiler::var_declaration`. -/
def varDeclaration : Nat → CompM Unit
  | 0 => panicC
  | fuel + 1 => do
    let idx ← parseVariable fuel
    let st ← getSt
    match st.tokens with
    | .ok token :: rest =>
      if token.contents = .equal then do
        setSt { st with tokens := rest }
        expression fuel
      else
        modifySt (fun st =>
          { st with chunk := st.chunk.addOpcode .nil token.line })
    | _ => pure ()
    let st ← getSt
    match st.tokens with
    | [] =>
      throwC (perr (.generalError
        ("Missing semicolon after variable declaration")))
    | t :: rest =>
      setSt { st with tokens := rest }
      match t with
      | .ok token =>
        match token.contents with
        | .semicolon => defineVariable idx token.line
        | _ =>
          throwC (perr (.missingSemicolon token.line
            token.contents.display))
      | .error _ =>
        throwC (perr (.generalError
          ("Missing semicolon after variable declaration")))

/-- `Compiler::parse_variable`: expect an identifier, declare it; at
global scope also intern it into the constant pool. -/
def parseVariable : Nat → CompM (Option Nat)
  | 0 => panicC
  | _fuel + 1 => do
    let st ← getSt
    match st.tokens with
    | [] =>
      throwC (perr (.generalError
        ("Unexpected end of stream after 'var' declaration")))
    | t :: rest =>
      setSt { st with tokens := rest }
      match t with
      | .error e => throwC [.scanErr e]
      | .ok token =>
        match token.contents with
        | .identifier id =>
          declareVariable id token.line
          let st ← getSt
          if st.scopeDepth > 0 then pure Option.none
          else do
            let idx ← identifierConstant id
            pure (some idx)
        | _ =>
          throwC (perr (.notAVariableName token.line
            token.contents.display))

/-- `Compiler::statement`: dispatch on the peeked token. -/
def statement : Nat → CompM Unit
  | 0 => panicC
  | fuel + 1 => do
    let token ← peekToken
    let line := token.line
    match token.contents with
    | .kPrint => do
      let _ ← tryC nextToken
      expression fuel
      let st ← getSt
      match st.tokens with
      | t :: rest =>
        setSt { st with tokens := rest }
        match t with
        | .ok token =>
          match token.contents with
          | .semicolon =>
            modifySt (fun st =>
              { st with chunk := st.chunk.addOpcode .print token.line })
          | _ =>
            throwC (perr (.missingSemicolon token.line
              token.contents.display))
        | .error _ =>
          throwC (perr (.generalError
            ("Missing semicolon around line " ++ toString line)))
      | [] =>
        throwC (perr (.generalError
          ("Missing semicolon around line " ++ toString line)))
    | .leftBrace => do
      let _ ← nextToken
      scopedC fuel (block fuel)
    | .kIf => do
      let _ ← nextToken
      ifStatement fuel
    | .kWhile => do
      let _ ← nextToken
      whileStatement fuel
    | .kFor => do
      let _ ← nextToken
      forStatement fuel
    | _ => expressionStatement fuel line

/-- `Compiler::scoped`: bump the scope depth, run the body, restore the
depth, then pop out-of-scope locals (emitting `Pop`s); the body's error,
if any, is re-raised after the cleanup. -/
def scopedC : Nat → CompM Unit → CompM Unit
  | 0, _ => panicC
  | _fuel + 1, body => do
    modifySt (fun st => { st with scopeDepth := st.scopeDepth + 1 })
    let r ← tryC body
    modifySt (fun st => { st with scopeDepth := st.scopeDepth - 1 })
    modifySt (fun st => popLocalsLoop st.locals.length st)
    match r with
    | .ok a => pure a
    | .error e => throwC e

/-- `Compiler::block`: declarations until the matching right brace. -/
def block : Nat → CompM Unit
  | 0 => panicC
  | fuel + 1 => do
    blockLoop fuel
    let r ← tryC nextToken
    match r with
    | .ok t =>
      if t.contents = .rightBrace then pure ()
      else
        throwC (perr (.generalError ("Didn't find matching closing brace")))
    | .error _ =>
      throwC (perr (.generalError ("Didn't find matching closing brace")))

/-- The `while let Ok(next) = self.peek_token()` loop inside
`Compiler::block`. -/
def blockLoop : Nat → CompM Unit
  | 0 => panicC
  | fuel + 1 => do
    let st ← getSt
    match st.tokens with
    | .ok t :: _ =>
      if t.contents = .rightBrace then pure ()
      else do
        declaration fuel
        blockLoop fuel
    | _ => pure ()

/-- `Compiler::if_statement`. -/
def ifStatement : Nat → CompM Unit
  | 0 => panicC
  | fuel + 1 => do
    let r ← tryC nextToken
    match r with
    | .ok t =>
      if t.contents = .leftParen then pure ()
      else throwC (perr (.generalError ("Expected '(' after 'if'")))
    | .error _ =>
      throwC (perr (.generalError ("Expected '(' after 'if'")))
    expression fuel
    let r ← tryC nextToken
    let token ←
      match r with
      | .ok t =>
        if t.contents = .rightParen then pure t
        else throwC (perr (.generalError ("Expected ')' after condition")))
      | .error _ =>
        throwC (perr (.generalError ("Expected ')' after condition")))
    let line := token.line
    let thenJump ← emitJump .jumpIfFalse line
    modifySt (fun st => { st with chunk := st.chunk.addOpcode .pop line })
    statement fuel
    let elseJump ← emitJump .jump line
    patchJumpC thenJump
    modifySt (fun st => { st with chunk := st.chunk.addOpcode .pop line })
    let st ← getSt
    match st.tokens with
    | .ok t :: _ =>
      if t.contents = .kElse then do
        let _ ← nextToken
        statement fuel
      else pure ()
    | _ => pure ()
    patchJumpC elseJump

/-- `Compiler::while_statement`. -/
def whileStatement : Nat → CompM Unit
  | 0 => panicC
  | fuel + 1 => do
    let st ← getSt
    let loopStart := st.chunk.getLoopStart
    let r ← tryC nextToken
    match r with
    | .ok t =>
      if t.contents = .leftParen then pure ()
      else throwC (perr (.generalError ("Expected '(' after 'while'")))
    | .error _ =>
      throwC (perr (.generalError ("Expected '(' after 'while'")))
    expression fuel
    let r ← tryC nextToken
    let token ←
      match r with
      | .ok t =>
        if t.contents = .rightParen then pure t
        else throwC (perr (.generalError ("Expected ')' after condition")))
      | .error _ =>
        throwC (perr (.generalError ("Expected ')' after condition")))
    let line := token.line
    let exitJump ← emitJump .jumpIfFalse line
    modifySt (fun st => { st with chunk := st.chunk.addOpcode .pop line })
    statement fuel
    emitLoopC loopStart line
    patchJumpC exitJump
    modifySt (fun st => { st with chunk := st.chunk.addOpcode .pop line })

/-- `Compiler::for_statement` (the desugaring described in the spec,
wrapped in its own scope). -/
def forStatement : Nat → CompM Unit
  | 0 => panicC
  | fuel + 1 =>
    scopedC fuel (do
      let r ← tryC nextToken
      match r with
      | .ok t =>
        if t.contents = .leftParen then pure ()
        else throwC (perr (.generalError ("Expected '(' after 'for'")))
      | .error _ =>
        throwC (perr (.generalError ("Expected '(' after 'for'")))
      let st ← getSt
      match st.tokens with
      | .ok t :: rest =>
        if t.contents = .semicolon then setSt { st with tokens := rest }
        else if t.contents = .kVar then do
          setSt { st with tokens := rest }
          varDeclaration fuel
        else expressionStatement fuel t.line
      | _ => throwC (perr (.generalError ("Expected ';'")))
      let st ← getSt
      let loopStart := st.chunk.getLoopStart
      let exitJump ←
        match st.tokens with
        | .ok t :: rest =>
          if t.contents = .semicolon then do
            setSt { st with tokens := rest }
            pure Option.none
          else do
            let line := t.line
            expression fuel
            let r ← tryC nextToken
            match r with
            | .ok t =>
              if t.contents = .semicolon then pure ()
              else throwC (perr (.generalError ("Expected ';'")))
            | .error _ => throwC (perr (.generalError ("Expected ';'")))
            let e ← emitJump .jumpIfFalse line
            modifySt (fun st =>
              { st with chunk := st.chunk.addOpcode .pop line })
            pure (some e)
        | _ => throwC (perr (.generalError ("Expected ';'")))
      let st ← getSt
      let (line, loopStart) ←
        match st.tokens with
        | .ok t :: rest =>
          if t.contents = .rightParen then do
            setSt { st with tokens := rest }
            pure (t.line, loopStart)
          else do
            let line := t.line
            let bodyJump ← emitJump .jump line
            let st ← getSt
            let incrementStart := st.chunk.getLoopStart
            expression fuel
            modifySt (fun st =>
              { st with chunk := st.chunk.addOpcode .pop line })
            let r ← tryC nextToken
            match r with
            | .ok t =>
              if t.contents = .rightParen then pure ()
              else
                throwC (perr (.generalError
                  ("Expected ')' after for clauses")))
            | .error _ =>
              throwC (perr (.generalError ("Expected ')' after for clauses")))
            emitLoopC loopStart line
            patchJumpC bodyJump
            pure (line, incrementStart)
        | _ =>
          throwC (perr (.generalError ("Expected ')' after condition")))
      statement fuel
      emitLoopC loopStart line
      match exitJump with
      | some e => do
        patchJumpC e
        modifySt (fun st => { st with chunk := st.chunk.addOpcode .pop line })
      | Option.none => pure ())

/-- `Compiler::expression_statement`. -/
def expressionStatement : Nat → Nat → CompM Unit
  | 0, _ => panicC
  | fuel + 1, estimatedLine => do
    expression fuel
    let st ← getSt
    match st.tokens with
    | t :: rest =>
      setSt { st with tokens := rest }
      match t with
      | .ok token =>
        match token.contents with
        | .semicolon =>
          modifySt (fun st =>
            { st with chunk := st.chunk.addOpcode .pop token.line })
        | _ =>
          throwC (perr (.missingSemicolon token.line
            token.contents.display))
      | .error _ =>
        throwC (perr (.generalError
          ("Missing semicolon around line " ++ toString estimatedLine)))
    | [] =>
      throwC (perr (.generalError
        ("Missing semicolon around line " ++ toString estimatedLine)))

/-- `Compiler::expression`. -/
def expression : Nat → CompM Unit
  | 0 => panicC
  | fuel + 1 => expressionBp fuel BindingPower.none

/-- `Compiler::expression_bp`: run the prefix parselet of the next token
(or record "Expect expression"), then the infix loop; errors are
accumulated locally and reported together. -/
def expressionBp : Nat → BindingPower → CompM Unit
  | 0, _ => panicC
  | fuel + 1, minBp => do
    let st ← getSt
    let acc ←
      match st.tokens with
      | [] => pure []
      | t :: rest => do
        setSt { st with tokens := rest }
        match t with
        | .error e => throwC [.scanErr e]
        | .ok token =>
          match getRule token.contents .prefixOp with
          | some (p, _) => do
            let canAssign := bpLe minBp .assignment
            let r ← tryC (runParselet fuel p token canAssign)
            match r with
            | .ok _ => pure ([] : List CompileError)
            | .error e => pure e
          | Option.none =>
            pure (perr (.noPrefixRule token.line token.contents.display))
    let acc ← infixLoop fuel minBp acc
    if acc.isEmpty then pure () else throwC acc

/-- The infix loop of `Compiler::expression_bp`: while the peeked token
has an infix rule whose binding power is not below `minBp`, consume it
and run the parselet; a rule-less token may flag an invalid assignment
target. -/
def infixLoop : Nat → BindingPower → List CompileError →
    CompM (List CompileError)
  | 0, _, _ => panicC
  | fuel + 1, minBp, acc => do
    let st ← getSt
    match st.tokens with
    | [] => pure acc
    | .error e :: _ => pure (acc ++ [.scanErr e])
    | .ok token :: rest =>
      let canAssign := bpLe minBp .assignment
      match getRule token.contents .infixOp with
      | some (rule, bp) =>
        if bpLt bp minBp then pure acc
        else do
          setSt { st with tokens := rest }
          let r ← tryC (runParselet fuel rule token canAssign)
          let acc :=
            match r with
            | .ok _ => acc
            | .error e => acc ++ e
          infixLoop fuel minBp acc
      | Option.none =>
        if canAssign ∧ token.contents = .equal then
          pure (acc ++ perr (.invalidAssignmentTarget token.line))
        else pure acc

/-- Dispatch a parselet (the function-pointer call through the Pratt
table). -/
def runParselet : Nat → Parselet → Token → Bool → CompM Unit
  | 0, _, _, _ => panicC
  | fuel + 1, p, token, canAssign =>
    match p with
    | .unary => parseUnary fuel token canAssign
    | .number => parseNumber fuel token canAssign
    | .term => parseTerm fuel token canAssign
    | .factor => parseFactor fuel token canAssign
    | .grouping => parseGrouping fuel token canAssign
    | .literal => parseLiteral fuel token canAssign
    | .equality => parseEquality fuel token canAssign
    | .comparison => parseComparison fuel token canAssign
    | .stringLit => parseString fuel token canAssign
    | .identifier => parseIdentifier fuel token canAssign
    | .andOp => parseAnd fuel token canAssign
    | .orOp => parseOr fuel token canAssign

/-- `Compiler::parse_unary`: operand at `Unary` power, then the
operator. -/
def parseUnary : Nat → Token → Bool → CompM Unit
  | 0, _, _ => panicC
  | fuel + 1, token, _canAssign => do
    expressionBp fuel .unary
    match token.contents with
    | .minus =>
      modifySt (fun st =>
        { st with chunk := st.chunk.addOpcode .negate token.line })
    | .bang =>
      modifySt (fun st =>
        { st with chunk := st.chunk.addOpcode .not token.line })
    | _ => panicC

/-- `Compiler::parse_number`: add the numeric constant and emit
`Constant`. -/
def parseNumber : Nat → Token → Bool → CompM Unit
  | 0, _, _ => panicC
  | _fuel + 1, token, _canAssign => do
    match token.contents with
    | .number q =>
      let st ← getSt
      match st.chunk.addConstant st.heap.deref (.number q) with
      | Option.none => throwC (perr .tooManyConstants)
      | some (chunk, idx) =>
        setSt { st with
          chunk := chunk.addOpcodeAndOperand .constant idx token.line }
    | _ => panicC

/-- `Compiler::parse_term`: right operand at `Term` power, then `Add` or
`Subtract`. -/
def parseTerm : Nat → Token → Bool → CompM Unit
  | 0, _, _ => panicC
  | fuel + 1, token, _canAssign => do
    expressionBp fuel .term
    match token.contents with
    | .plus =>
      modifySt (fun st =>
        { st with chunk := st.chunk.addOpcode .add token.line })
    | .minus =>
      modifySt (fun st =>
        { st with chunk := st.chunk.addOpcode .subtract token.line })
    | _ => panicC

/-- `Compiler::parse_factor`. -/
def parseFactor : Nat → Token → Bool → CompM Unit
  | 0, _, _ => panicC
  | fuel + 1, token, _canAssign => do
    expressionBp fuel .factor
    match token.contents with
    | .asterisk =>
      modifySt (fun st =>
        { st with chunk := st.chunk.addOpcode .multiply token.line })
    | .slash =>
      modifySt (fun st =>
        { st with chunk := st.chunk.addOpcode .divide token.line })
    | _ => panicC

/-- `Compiler::parse_grouping`. -/
def parseGrouping : Nat → Token → Bool → CompM Unit
  | 0, _, _ => panicC
  | fuel + 1, _token, _canAssign => do
    expressionBp fuel BindingPower.none
    let st ← getSt
    match st.tokens with
    | .ok token :: rest =>
      setSt { st with tokens := rest }
      match token.contents with
      | .rightParen => pure ()
      | _ =>
        throwC (perr (.generalError ("Unmatched opening parenthesis")))
    | .error _ :: rest =>
      setSt { st with tokens := rest }
      throwC (perr (.generalError ("Unmatched opening parenthesis")))
    | [] =>
      throwC (perr (.generalError ("Unmatched opening parenthesis")))

/-- `Compiler::parse_literal`. -/
def parseLiteral : Nat → Token → Bool → CompM Unit
  | 0, _, _ => panicC
  | _fuel + 1, token, _canAssign =>
    match token.contents with
    | .kTrue =>
      modifySt (fun st =>
        { st with chunk := st.chunk.addOpcode .tru token.line })
    | .kFalse =>
      modifySt (fun st =>
        { st with chunk := st.chunk.addOpcode .fls token.line })
    | .kNil =>
      modifySt (fun st =>
        { st with chunk := st.chunk.addOpcode .nil token.line })
    | _ => panicC

/-- `Compiler::parse_equality`: right operand at `Equality` power; `!=`
is `Equal; Not`. -/
def parseEquality : Nat → Token → Bool → CompM Unit
  | 0, _, _ => panicC
  | fuel + 1, token, _canAssign => do
    expressionBp fuel .equality
    match token.contents with
    | .equalEqual =>
      modifySt (fun st =>
        { st with chunk := st.chunk.addOpcode .equal token.line })
    | .bangEqual =>
      modifySt (fun st =>
        let c := (st.chunk.addOpcode .equal token.line).addOpcode .not token.line
        { st with chunk := c })
    | _ => panicC

/-- `Compiler::parse_comparison`: `>=` is `Less; Not`, `<=` is
`Greater; Not`. -/
def parseComparison : Nat → Token → Bool → CompM Unit
  | 0, _, _ => panicC
  | fuel + 1, token, _canAssign => do
    expressionBp fuel .comparison
    match token.contents with
    | .greater =>
      modifySt (fun st =>
        { st with chunk := st.chunk.addOpcode .greater token.line })
    | .greaterEqual =>
      modifySt (fun st =>
        let c := (st.chunk.addOpcode .less token.line).addOpcode .not token.line
        { st with chunk := c })
    | .less =>
      modifySt (fun st =>
        { st with chunk := st.chunk.addOpcode .less token.line })
    | .lessEqual =>
      modifySt (fun st =>
        let c := (st.chunk.addOpcode .greater token.line).addOpcode .not token.line
        { st with chunk := c })
    | _ => panicC

/-- `Compiler::parse_string`: intern the literal, add the constant, emit
`Constant`. -/
def parseString : Nat → Token → Bool → CompM Unit
  | 0, _, _ => panicC
  | _fuel + 1, token, _canAssign => do
    match token.contents with
    | .stringLit sVal =>
      let st ← getSt
      match st.heap.newStrCopied sVal with
      | Option.none => panicC
      | some (heap, addr) =>
        let st := { st with heap := heap }
        setSt st
        match st.chunk.addConstant st.heap.deref (.obj addr) with
        | Option.none => throwC (perr .tooManyConstants)
        | some (chunk, idx) =>
          setSt { st with
            chunk := chunk.addOpcodeAndOperand .constant idx token.line }
    | _ => panicC

/-- `Compiler::parse_identifier`: resolve to a local slot or an interned
global name, then compile a get, or (when allowed and followed by `=`)
an assignment. -/
def parseIdentifier : Nat → Token → Bool → CompM Unit
  | 0, _, _ => panicC
  | fuel + 1, token, canAssign => do
    match token.contents with
    | .identifier id =>
      let r ← resolveLocal id token.line
      let (getOp, setOp, idx) ←
        match r with
        | some idx => pure (Opcode.getLocal, Opcode.setLocal, idx)
        | Option.none => do
          let idx ← identifierConstant id
          pure (Opcode.getGlobal, Opcode.setGlobal, idx)
      let t ← peekToken
      if t.contents = .equal ∧ canAssign then do
        let _ ← nextToken
        expression fuel
        modifySt (fun st =>
          { st with
          chunk := st.chunk.addOpcodeAndOperand setOp idx token.line })
      else
        modifySt (fun st =>
          { st with
          chunk := st.chunk.addOpcodeAndOperand getOp idx token.line })
    | _ => panicC

/-- `Compiler::parse_and`: short-circuit via `JumpIfFalse` over the
right operand. -/
def parseAnd : Nat → Token → Bool → CompM Unit
  | 0, _, _ => panicC
  | fuel + 1, token, _canAssign => do
    match token.contents with
    | .kAnd =>
      let endJump ← emitJump .jumpIfFalse token.line
      modifySt (fun st =>
        { st with chunk := st.chunk.addOpcode .pop token.line })
      expressionBp fuel .and
      patchJumpC endJump
    | _ => panicC

/-- `Compiler::parse_or`: short-circuit via a `JumpIfFalse` into a
`Jump` over the right operand. -/
def parseOr : Nat → Token → Bool → CompM Unit
  | 0, _, _ => panicC
  | fuel + 1, token, _canAssign => do
    match token.contents with
    | .kOr =>
      let elseJump ← emitJump .jumpIfFalse token.line
      let endJump ← emitJump .jump token.line
      patchJumpC elseJump
      modifySt (fun st =>
        { st with chunk := st.chunk.addOpcode .pop token.line })
      expressionBp fuel .or
      patchJumpC endJump
    | _ => panicC

end

/-- The top-level `compile` function: run the compiler over the token
stream, then append the final `Return` (at line 0).  `Option.none` is a
panic or fuel exhaustion, the `Except` error is the accumulated compile
error list. -/
def compileProgram (fuel : Nat) (tokens : List (Except ScanError Token))
    (heap : HeapManager) :
    Option (Except (List CompileError) (Chunk × HeapManager)) :=
  let st0 : CompSt := ⟨tokens, Chunk.new ("main"), heap, [], [], 0⟩
  let body : CompM Unit := do
    compileLoop fuel
    let st ← getSt
    if st.errors.isEmpty then pure () else throwC st.errors
  match body st0 with
  | Option.none => Option.none
  | some (.error e, _) => some (.error e)
  | some (.ok _, st) =>
    some (.ok (st.chunk.addOpcode .ret 0, st.heap))

/-! ## Programs used in the theorems -/

/-- Compile a token stream and run the resulting chunk, returning the
printed output of a clean (`Return`-terminated) run. -/
def runOutput (fuelC fuelV : Nat) (toks : List (Except ScanError Token)) :
    Option (List Printed) :=
  match compileProgram fuelC toks HeapManager.fresh with
  | some (.ok (c, h)) =>
    match run c fuelV (initState h) with
    | .halt (.ok ()) s => some s.output
    | _ => none
  | _ => none

/-- The token stream of `print a - b - c;`. -/
def chainTokens (a b c : ℚ) : List (Except ScanError Token) :=
  [.ok ⟨.kPrint, 1⟩, .ok ⟨.number a, 1⟩, .ok ⟨.minus, 1⟩,
   .ok ⟨.number b, 1⟩, .ok ⟨.minus, 1⟩, .ok ⟨.number c, 1⟩,
   .ok ⟨.semicolon, 1⟩]

/-- Pool extension: every entry of `P` is still at its index in `Q`. -/
def poolExtends (P Q : List Value) : Prop :=
  ∀ j w, P.get? j = some w → Q.get? j = some w

/-- The token stream of the program `;` (a token with no prefix rule in
expression position). -/
def semicolonOnlyTokens : List (Except ScanError Token) :=
  [.ok ⟨.semicolon, 1⟩]

/-- The token stream of `{ var a = 1; { var a = a; } }`: a read of a
local in its own initializer at inner scope, with an outer variable of
the same name in scope. -/
def localsTokens : List (Except ScanError Token) :=
  [.ok ⟨.leftBrace, 1⟩, .ok ⟨.kVar, 1⟩, .ok ⟨.identifier ("a"), 1⟩,
   .ok ⟨.equal, 1⟩, .ok ⟨.number 1, 1⟩, .ok ⟨.semicolon, 1⟩,
   .ok ⟨.leftBrace, 2⟩, .ok ⟨.kVar, 2⟩, .ok ⟨.identifier ("a"), 2⟩,
   .ok ⟨.equal, 2⟩, .ok ⟨.identifier ("a"), 2⟩, .ok ⟨.semicolon, 2⟩,
   .ok ⟨.rightBrace, 3⟩, .ok ⟨.rightBrace, 3⟩]

/-- A constant pool holding the 255 distinct numbers `0 .. 254`. -/
def boundaryPool : List Value :=
  (List.range 255).map (fun (n : ℕ) => Value.number (n : ℚ))

/-- A chunk whose pool holds 255 distinct constants, one below the
capacity limit. -/
def boundaryChunk : Chunk := ⟨[], boundaryPool, ("c"), []⟩

/-- `boundaryChunk` after `add_constant(Number(255))`: the pool is now
full (256 entries). -/
def boundaryChunk' : Chunk := ⟨[], boundaryPool ++ [.number 255], ("c"), []⟩

/-- Pairwise `==`-distinctness of a constant pool. -/
def pairwiseDistinct (deref : Nat → String) (P : List Value) : Prop :=
  P.Pairwise (fun a b => valueEq deref a b = false)

/-- The token stream of `while (true) { }`. -/
def whileTrueTokens : List (Except ScanError Token) :=
  [.ok ⟨.kWhile, 1⟩, .ok ⟨.leftParen, 1⟩, .ok ⟨.kTrue, 1⟩,
   .ok ⟨.rightParen, 1⟩, .ok ⟨.leftBrace, 1⟩, .ok ⟨.rightBrace, 1⟩]

/-- The chunk the compiler produces for `while (true) { }`:
`True; JumpIfFalse +4; Pop; Loop -8; Pop; Return`. -/
def whileChunk : Chunk :=
  ⟨[7, 21, 0, 4, 15, 23, 0, 8, 15, 6], [], ("main"),
   [1, 1, 1, 1, 1, 1, 1, 1, 1, 0]⟩

/-- Well-formedness of a heap manager, as maintained by the program:
the intern table's slot array matches its capacity, every arena address
is below the bump allocator, and every interned key is a live arena
address whose contents the intern lookup finds. -/
def heapWF (m : HeapManager) : Prop :=
  m.strings.entries.length = m.strings.capacity ∧
  (∀ p ∈ m.arena, p.1 < m.nextAddr) ∧
  (∀ jx kx, (m.strings.entries.getD jx emptyEntry).key = some kx →
    kx < m.nextAddr ∧
    ∃ r, m.strings.getString m.deref (m.deref kx) = some (some r))

/-! ## Evaluation lemmas for the compiler monad -/

theorem compM_bind_def {A B : Type} (x : CompM A) (f : A → CompM B)
    (st : CompSt) :
    (x >>= f) st =
      match x st with
      | Option.none => Option.none
      | some (.error e, st') => some (.error e, st')
      | some (.ok a, st') => f a st' := rfl

theorem compM_pure_def {A : Type} (a : A) (st : CompSt) :
    (pure a : CompM A) st = some (.ok a, st) := rfl

theorem getSt_def (st : CompSt) : getSt st = some (.ok st, st) := rfl

theorem setSt_def (st st' : CompSt) : setSt st' st = some (.ok (), st') := rfl

theorem modifySt_def (f : CompSt → CompSt) (st : CompSt) :
    modifySt f st = some (.ok (), f st) := rfl

theorem throwC_def {A : Type} (e : List CompileError) (st : CompSt) :
    (throwC e : CompM A) st = some (.error e, st) := rfl

theorem tryC_run {A : Type} (x : CompM A) (st : CompSt) :
    tryC x st =
      match x st with
      | Option.none => Option.none
      | some (r, st') => some (.ok r, st') := rfl

/-! ## Constant-pool lemmas -/

theorem findConstant_some {deref : Nat → String} {v : Value}
    {ws : List Value} {i j : Nat}
    (h : findConstant deref v ws i = some j) :
    i ≤ j ∧ ∃ w, ws.get? (j - i) = some w ∧ valueEq deref w v = true := by
  induction ws generalizing i with
  | nil => simp [findConstant] at h
  | cons w ws ih =>
    by_cases hw : valueEq deref w v = true
    · rw [findConstant, if_pos hw] at h
      obtain rfl : i = j := by exact Option.some.inj h
      exact ⟨le_refl _, w, by simp, hw⟩
    · rw [findConstant, if_neg hw] at h
      obtain ⟨hij, w', hget, heq⟩ := ih h
      refine ⟨le_trans (Nat.le_succ i) hij, w', ?_, heq⟩
      have h1 : j - i = (j - (i + 1)) + 1 := by omega
      rw [h1]
      simpa using hget

theorem findConstant_none {deref : Nat → String} {v : Value}
    {ws : List Value} {i : Nat}
    (h : findConstant deref v ws i = Option.none) :
    ∀ w ∈ ws, valueEq deref w v = false := by
  induction ws generalizing i with
  | nil => simp
  | cons w ws ih =>
    by_cases hw : valueEq deref w v = true
    · rw [findConstant, if_pos hw] at h
      exact absurd h (by simp)
    · rw [findConstant, if_neg hw] at h
      intro w' hw'
      rcases List.mem_cons.mp hw' with rfl | hmem
      · simpa using hw
      · exact ih h w' hmem

theorem valueEq_number_right (deref : Nat → String) (w : Value) (q : ℚ) :
    valueEq deref w (.number q) = true ↔ w = .number q := by
  cases w <;> simp [valueEq]

/-- Adding a numeric constant to a non-full pool: the result is found at
the returned index, the code/lines are untouched, the pool grows by at
most one entry, and existing entries keep their indices. -/
theorem addConstant_number (deref : Nat → String) (ch : Chunk) (q : ℚ)
    (h : ch.constants.length < 256) :
    ∃ ch' i, ch.addConstant deref (.number q) = some (ch', i) ∧
      ch'.code = ch.code ∧ ch'.lines = ch.lines ∧ ch'.name = ch.name ∧
      ch'.constants.get? i = some (.number q) ∧
      ch.constants.length ≤ ch'.constants.length ∧
      ch'.constants.length ≤ ch.constants.length + 1 ∧
      (∀ j w, ch.constants.get? j = some w → ch'.constants.get? j = some w) := by
  unfold Chunk.addConstant
  rw [if_pos h]
  cases hf : findConstant deref (.number q) ch.constants 0 with
  | none =>
    refine ⟨_, _, rfl, rfl, rfl, rfl, ?_, ?_, ?_, ?_⟩
    · simp [List.get?_eq_getElem?, List.getElem?_concat_length]
    · simp
    · simp
    · intro j w hj
      have hlt : j < ch.constants.length := by
        rcases List.get?_eq_some.mp hj with ⟨hlt, _⟩
        exact hlt
      rw [List.get?_eq_getElem?] at hj ⊢
      rw [List.getElem?_append_left hlt]
      exact hj
  | some idx =>
    obtain ⟨-, w, hget, heq⟩ := findConstant_some hf
    rw [(valueEq_number_right deref w q).mp heq] at hget
    refine ⟨_, _, rfl, rfl, rfl, rfl, ?_, le_refl _, Nat.le_succ _,
      fun j w hj => hj⟩
    simpa using hget

/-! ## Symbolic execution of the Pratt pipeline on subtraction chains -/

theorem parseNumber_eval (f L : Nat) (q : ℚ) (ca : Bool) (σ : CompSt)
    (ch' : Chunk) (i : Nat)
    (hac : σ.chunk.addConstant σ.heap.deref (.number q) = some (ch', i)) :
    parseNumber (f + 1) ⟨.number q, L⟩ ca σ =
      some (.ok (),
        { σ with chunk := ch'.addOpcodeAndOperand .constant i L }) := by
  simp only [parseNumber, compM_bind_def, getSt_def, setSt_def, hac]

theorem runParselet_number (f : Nat) (t : Token) (ca : Bool) :
    runParselet (f + 1) .number t ca = parseNumber f t ca := rfl

theorem runParselet_term (f : Nat) (t : Token) (ca : Bool) :
    runParselet (f + 1) .term t ca = parseTerm f t ca := rfl

theorem parseTerm_minus (f L : Nat) (ca : Bool) (σ σ' : CompSt)
    (h : expressionBp f .term σ = some (.ok (), σ')) :
    parseTerm (f + 1) ⟨.minus, L⟩ ca σ =
      some (.ok (), { σ' with chunk := σ'.chunk.addOpcode .subtract L }) := by
  simp only [parseTerm, compM_bind_def, h, modifySt_def]

theorem infixLoop_stop (f : Nat) (minBp : BindingPower)
    (acc : List CompileError) (σ : CompSt) (t : Token)
    (rest : List (Except ScanError Token))
    (h1 : σ.tokens = .ok t :: rest)
    (h2 : getRule t.contents .infixOp = Option.none)
    (h3 : t.contents ≠ .equal) :
    infixLoop (f + 1) minBp acc σ = some (.ok acc, σ) := by
  simp only [infixLoop, compM_bind_def, getSt_def, h1, h2]
  simp [h3, compM_pure_def]

theorem infixLoop_minus (f : Nat) (minBp : BindingPower) (L : Nat)
    (acc accFin : List CompileError) (σ σ' σ'' : CompSt)
    (rest : List (Except ScanError Token))
    (h1 : σ.tokens = .ok ⟨.minus, L⟩ :: rest)
    (hbp : bpLt .term minBp = false)
    (h2 : runParselet f .term ⟨.minus, L⟩ (bpLe minBp .assignment)
        { σ with tokens := rest } = some (.ok (), σ'))
    (h3 : infixLoop f minBp acc σ' = some (.ok accFin, σ'')) :
    infixLoop (f + 1) minBp acc σ = some (.ok accFin, σ'') := by
  simp only [infixLoop, compM_bind_def, getSt_def, setSt_def, tryC_run, h1,
    getRule, hbp, h2, h3, Bool.false_eq_true, if_false]

theorem expressionBp_number (f : Nat) (minBp : BindingPower) (L : Nat)
    (q : ℚ) (rest : List (Except ScanError Token)) (σ σ₁ σ₂ : CompSt)
    (h1 : σ.tokens = .ok ⟨.number q, L⟩ :: rest)
    (h2 : runParselet f .number ⟨.number q, L⟩ (bpLe minBp .assignment)
        { σ with tokens := rest } = some (.ok (), σ₁))
    (h3 : infixLoop f minBp [] σ₁ = some (.ok [], σ₂)) :
    expressionBp (f + 1) minBp σ = some (.ok (), σ₂) := by
  simp only [expressionBp, compM_bind_def, getSt_def, setSt_def, tryC_run,
    h1, getRule, h2, h3, compM_pure_def, List.isEmpty_nil, if_true]

/-- Compiling a single number literal at any binding power: emit one
`Constant` and stop at a token with no infix rule. -/
theorem expressionBp_single (f : Nat) (minBp : BindingPower) (L : Nat)
    (q : ℚ) (t : Token) (rest : List (Except ScanError Token)) (σ : CompSt)
    (h1 : σ.tokens = .ok ⟨.number q, L⟩ :: .ok t :: rest)
    (h2 : getRule t.contents .infixOp = Option.none)
    (h3 : t.contents ≠ .equal)
    (h4 : σ.chunk.constants.length < 256) :
    ∃ i P, expressionBp (f + 3) minBp σ =
        some (.ok (),
          { σ with
            tokens := .ok t :: rest
            chunk := ⟨σ.chunk.code ++ [Opcode.constant.asByte, i], P,
              σ.chunk.name, σ.chunk.lines ++ [L, L]⟩ }) ∧
      P.get? i = some (.number q) ∧
      σ.chunk.constants.length ≤ P.length ∧
      P.length ≤ σ.chunk.constants.length + 1 ∧
      poolExtends σ.chunk.constants P := by
  obtain ⟨ch', i, hac, hcode, hlines, hname, hget, hlenl, hlenu, hpres⟩ :=
    addConstant_number σ.heap.deref σ.chunk q h4
  refine ⟨i, ch'.constants, ?_, hget, hlenl, hlenu, hpres⟩
  have hpn : parseNumber (f + 2) ⟨.number q, L⟩ (bpLe minBp .assignment)
      { σ with tokens := .ok t :: rest } =
      some (.ok (),
        { σ with
          tokens := .ok t :: rest
          chunk := ch'.addOpcodeAndOperand .constant i L }) :=
    parseNumber_eval (f + 1) L q _ _ ch' i hac
  have hstop : infixLoop (f + 2) minBp []
      { σ with
        tokens := .ok t :: rest
        chunk := ch'.addOpcodeAndOperand .constant i L } =
      some (.ok [],
        { σ with
          tokens := .ok t :: rest
          chunk := ch'.addOpcodeAndOperand .constant i L }) :=
    infixLoop_stop (f + 1) minBp [] _ t rest rfl h2 h3
  have hmain := expressionBp_number (f + 2) minBp L q (.ok t :: rest) σ _ _
    h1 (runParselet_number (f + 1) _ _ ▸ hpn) hstop
  rw [hmain]
  have hchunk : ch'.addOpcodeAndOperand .constant i L =
      ⟨σ.chunk.code ++ [Opcode.constant.asByte, i], ch'.constants,
        σ.chunk.name, σ.chunk.lines ++ [L, L]⟩ := by
    simp [Chunk.addOpcodeAndOperand, Chunk.addOpcode, Chunk.addByte,
      hcode, hlines, hname]
  rw [hchunk]

/-- Compiling `q1 - q2` at a binding power not above `Term`: two
constants, then `Subtract`, grouping the pair as one operand. -/
theorem expressionBp_pair (f : Nat) (minBp : BindingPower)
    (L1 Lm L2 : Nat) (q1 q2 : ℚ) (t : Token)
    (rest : List (Except ScanError Token)) (σ : CompSt)
    (h1 : σ.tokens = .ok ⟨.number q1, L1⟩ :: .ok ⟨.minus, Lm⟩ ::
      .ok ⟨.number q2, L2⟩ :: .ok t :: rest)
    (h2 : getRule t.contents .infixOp = Option.none)
    (h3 : t.contents ≠ .equal)
    (hbp : bpLt .term minBp = false)
    (h4 : σ.chunk.constants.length + 2 ≤ 256) :
    ∃ i1 i2 P, expressionBp (f + 7) minBp σ =
        some (.ok (),
          { σ with
            tokens := .ok t :: rest
            chunk := ⟨σ.chunk.code ++
                [Opcode.constant.asByte, i1, Opcode.constant.asByte, i2,
                 Opcode.subtract.asByte], P,
              σ.chunk.name, σ.chunk.lines ++ [L1, L1, L2, L2, Lm]⟩ }) ∧
      P.get? i1 = some (.number q1) ∧ P.get? i2 = some (.number q2) ∧
      σ.chunk.constants.length ≤ P.length ∧
      P.length ≤ σ.chunk.constants.length + 2 ∧
      poolExtends σ.chunk.constants P := by
  obtain ⟨ch1, i1, hac1, hcode1, hlines1, hname1, hget1, hlen1l, hlen1u,
    hpres1⟩ := addConstant_number σ.heap.deref σ.chunk q1 (by omega)
  -- the state right after `q1` has been compiled
  have hpn : parseNumber (f + 5) ⟨.number q1, L1⟩ (bpLe minBp .assignment)
      { σ with tokens := (.ok ⟨.minus, Lm⟩ :: .ok ⟨.number q2, L2⟩ ::
          .ok t :: rest) } =
      some (.ok (),
        { σ with
          tokens := (.ok ⟨.minus, Lm⟩ :: .ok ⟨.number q2, L2⟩ ::
            .ok t :: rest)
          chunk := ch1.addOpcodeAndOperand .constant i1 L1 }) :=
    parseNumber_eval (f + 4) L1 q1 _ _ ch1 i1 hac1
  -- the inner single-operand expression for `q2`, at `Term` power
  obtain ⟨i2, P, hsingle, hget2, hlen2l, hlen2u, hpres2⟩ :=
    expressionBp_single f .term L2 q2 t rest
      { σ with
        tokens := (.ok ⟨.number q2, L2⟩ :: .ok t :: rest)
        chunk := ch1.addOpcodeAndOperand .constant i1 L1 }
      rfl h2 h3
      (show ch1.constants.length < 256 by omega)
  have hlen2l' : ch1.constants.length ≤ P.length := hlen2l
  have hlen2u' : P.length ≤ ch1.constants.length + 1 := hlen2u
  -- the `- q2` infix step
  have hterm := parseTerm_minus (f + 3) Lm (bpLe minBp .assignment) _ _ hsingle
  have hstop := infixLoop_stop (f + 4) minBp []
      (let P' := P; { σ with
        tokens := .ok t :: rest
        chunk := Chunk.addOpcode ⟨(ch1.addOpcodeAndOperand .constant i1
            L1).code ++ [Opcode.constant.asByte, i2], P,
          (ch1.addOpcodeAndOperand .constant i1 L1).name,
          (ch1.addOpcodeAndOperand .constant i1 L1).lines ++ [L2, L2]⟩
          .subtract Lm })
      t rest rfl h2 h3
  have hminus := infixLoop_minus (f + 5) minBp Lm [] [] _ _ _ _
    (rfl :
      ({ σ with
        tokens := (.ok ⟨.minus, Lm⟩ :: .ok ⟨.number q2, L2⟩ ::
          .ok t :: rest)
        chunk := ch1.addOpcodeAndOperand .constant i1 L1 } : CompSt).tokens =
      .ok ⟨.minus, Lm⟩ :: (.ok ⟨.number q2, L2⟩ :: .ok t :: rest))
    hbp hterm hstop
  have hmain := expressionBp_number (f + 6) minBp L1 q1 _ σ _ _ h1 hpn hminus
  refine ⟨i1, i2, P, ?_, hpres2 _ _ hget1, hget2,
    le_trans hlen1l hlen2l', by omega,
    fun j w hj => hpres2 _ _ (hpres1 _ _ hj)⟩
  rw [hmain]
  simp only [Chunk.addOpcodeAndOperand, Chunk.addOpcode, Chunk.addByte,
    hcode1, hlines1, hname1, Opcode.asByte]
  simp [List.append_assoc]

/-- Compiling `q1 - q2 - q3` from the start of an expression: the chain
compiles as `q1 - (q2 - q3)` — three constants, then the two
`Subtract`s innermost-first. -/
theorem expressionBp_chain (f : Nat) (minBp : BindingPower)
    (q1 q2 q3 : ℚ) (t : Token)
    (rest : List (Except ScanError Token)) (σ : CompSt)
    (h1 : σ.tokens = .ok ⟨.number q1, 1⟩ :: .ok ⟨.minus, 1⟩ ::
      .ok ⟨.number q2, 1⟩ :: .ok ⟨.minus, 1⟩ :: .ok ⟨.number q3, 1⟩ ::
      .ok t :: rest)
    (h2 : getRule t.contents .infixOp = Option.none)
    (h3 : t.contents ≠ .equal)
    (hbp : bpLt .term minBp = false)
    (h4 : σ.chunk.constants.length + 3 ≤ 256) :
    ∃ i1 i2 i3 P, expressionBp (f + 11) minBp σ =
        some (.ok (),
          { σ with
            tokens := .ok t :: rest
            chunk := ⟨σ.chunk.code ++
                [Opcode.constant.asByte, i1, Opcode.constant.asByte, i2,
                 Opcode.constant.asByte, i3, Opcode.subtract.asByte,
                 Opcode.subtract.asByte], P,
              σ.chunk.name, σ.chunk.lines ++ [1, 1, 1, 1, 1, 1, 1, 1]⟩ }) ∧
      P.get? i1 = some (.number q1) ∧ P.get? i2 = some (.number q2) ∧
      P.get? i3 = some (.number q3) := by
  obtain ⟨ch1, i1, hac1, hcode1, hlines1, hname1, hget1, hlen1l, hlen1u,
    hpres1⟩ := addConstant_number σ.heap.deref σ.chunk q1 (by omega)
  have hpn : parseNumber (f + 9) ⟨.number q1, 1⟩ (bpLe minBp .assignment)
      { σ with tokens := (.ok ⟨.minus, 1⟩ :: .ok ⟨.number q2, 1⟩ ::
          .ok ⟨.minus, 1⟩ :: .ok ⟨.number q3, 1⟩ :: .ok t :: rest) } =
      some (.ok (),
        { σ with
          tokens := (.ok ⟨.minus, 1⟩ :: .ok ⟨.number q2, 1⟩ ::
            .ok ⟨.minus, 1⟩ :: .ok ⟨.number q3, 1⟩ :: .ok t :: rest)
          chunk := ch1.addOpcodeAndOperand .constant i1 1 }) :=
    parseNumber_eval (f + 8) 1 q1 _ _ ch1 i1 hac1
  -- the inner pair `q2 - q3`, at `Term` power
  obtain ⟨i2, i3, P, hpair, hget2, hget3, hlen2l, hlen2u, hpres2⟩ :=
    expressionBp_pair f .term 1 1 1 q2 q3 t rest
      { σ with
        tokens := (.ok ⟨.number q2, 1⟩ :: .ok ⟨.minus, 1⟩ ::
          .ok ⟨.number q3, 1⟩ :: .ok t :: rest)
        chunk := ch1.addOpcodeAndOperand .constant i1 1 }
      rfl h2 h3 rfl
      (show ch1.constants.length + 2 ≤ 256 by omega)
  have hterm := parseTerm_minus (f + 7) 1 (bpLe minBp .assignment) _ _ hpair
  have hstop := infixLoop_stop (f + 8) minBp []
      { σ with
        tokens := .ok t :: rest
        chunk := Chunk.addOpcode ⟨(ch1.addOpcodeAndOperand .constant i1
            1).code ++ [Opcode.constant.asByte, i2, Opcode.constant.asByte,
            i3, Opcode.subtract.asByte], P,
          (ch1.addOpcodeAndOperand .constant i1 1).name,
          (ch1.addOpcodeAndOperand .constant i1 1).lines ++ [1, 1, 1, 1, 1]⟩
          .subtract 1 }
      t rest rfl h2 h3
  have hminus := infixLoop_minus (f + 9) minBp 1 [] [] _ _ _ _
    (rfl :
      ({ σ with
        tokens := (.ok ⟨.minus, 1⟩ :: .ok ⟨.number q2, 1⟩ ::
          .ok ⟨.minus, 1⟩ :: .ok ⟨.number q3, 1⟩ :: .ok t :: rest)
        chunk := ch1.addOpcodeAndOperand .constant i1 1 } : CompSt).tokens =
      .ok ⟨.minus, 1⟩ :: (.ok ⟨.number q2, 1⟩ :: .ok ⟨.minus, 1⟩ ::
        .ok ⟨.number q3, 1⟩ :: .ok t :: rest))
    hbp hterm hstop
  have hmain := expressionBp_number (f + 10) minBp 1 q1 _ σ _ _ h1 hpn hminus
  refine ⟨i1, i2, i3, P, ?_, hpres2 _ _ hget1, hget2, hget3⟩
  rw [hmain]
  simp only [Chunk.addOpcodeAndOperand, Chunk.addOpcode, Chunk.addByte,
    hcode1, hlines1, hname1, Opcode.asByte]
  simp [List.append_assoc]

theorem statement_print (f : Nat) (Lp Ls : Nat)
    (rest rest₂ : List (Except ScanError Token)) (σ σ₁ : CompSt)
    (h1 : σ.tokens = .ok ⟨.kPrint, Lp⟩ :: rest)
    (h2 : expression f { σ with tokens := rest } = some (.ok (), σ₁))
    (h3 : σ₁.tokens = .ok ⟨.semicolon, Ls⟩ :: rest₂) :
    statement (f + 1) σ =
      some (.ok (), { σ₁ with
        tokens := rest₂
        chunk := σ₁.chunk.addOpcode .print Ls }) := by
  simp only [statement, peekToken, nextToken, tryC_run, compM_bind_def,
    getSt_def, setSt_def, modifySt_def, compM_pure_def, h1, h2, h3]

theorem declaration_stmt (f : Nat) (σ σ' : CompSt) (t : Token)
    (rest : List (Except ScanError Token))
    (h1 : σ.tokens = .ok t :: rest)
    (h2 : t.contents ≠ .kVar)
    (h3 : statement f σ = some (.ok (), σ')) :
    declaration (f + 1) σ = some (.ok (), σ') := by
  simp only [declaration, compM_bind_def, getSt_def, tryC_run, h1]
  simp [h2, h3, compM_pure_def]

theorem compileLoop_one (f : Nat) (σ σ' : CompSt) (t : Token)
    (rest : List (Except ScanError Token))
    (h1 : σ.tokens = .ok t :: rest)
    (h2 : declaration (f + 1) σ = some (.ok (), σ'))
    (h3 : σ'.tokens = []) :
    compileLoop (f + 2) σ = some (.ok (), σ') := by
  simp only [compileLoop, compM_bind_def, getSt_def, h1, h2, h3,
    compM_pure_def]

theorem compileProgram_eval (F : Nat) (toks : List (Except ScanError Token))
    (heap : HeapManager) (σ' : CompSt)
    (hcl : compileLoop F ⟨toks, Chunk.new ("main"), heap, [], [], 0⟩ =
      some (.ok (), σ'))
    (herr : σ'.errors = []) :
    compileProgram F toks heap =
      some (.ok (σ'.chunk.addOpcode .ret 0, σ'.heap)) := by
  simp only [compileProgram, compM_bind_def, getSt_def, hcl, herr,
    compM_pure_def, List.isEmpty_nil, if_true, throwC_def]

/-- Unfold one `run` iteration on a continuing step. -/
theorem run_next {c : Chunk} {s s' : VMState} (n : Nat)
    (h : step c s = .next s') : run c (n + 1) s = run c n s' := by
  simp only [run, h]

/-- Unfold one `run` iteration on a `Return`. -/
theorem run_done {c : Chunk} {s s' : VMState} (n : Nat)
    (h : step c s = .done s') : run c (n + 1) s = .halt (.ok ()) s' := by
  simp only [run, h]

/-- Unfold one `run` iteration on an error. -/
theorem run_err {c : Chunk} {s s' : VMState} {e : VMError} (n : Nat)
    (h : step c s = .err e s') : run c (n + 1) s = .halt (.error e) s' := by
  simp only [run, h]

/-- Executing a `Constant` instruction. -/
theorem step_constant {c : Chunk} {s : VMState} {i : Nat} {v : Value}
    (hb : c.code.get? s.ip = some Opcode.constant.asByte)
    (hi : c.code.get? (s.ip + 1) = some i)
    (hv : c.getConstant i = some v)
    (hpush : s.stack.length < 256) :
    step c s = .next { s with ip := s.ip + 1 + 1, stack := v :: s.stack } := by
  simp only [step, readByte, readConstant, hb, hi, hv, Opcode.asByte,
    decodeOpcode, pushStack, stackSize, if_pos hpush]

/-- Executing a `Subtract` instruction on two numbers. -/
theorem step_subtract {c : Chunk} {s : VMState} {x y : ℚ} {L : Nat}
    {rest : List Value}
    (hb : c.code.get? s.ip = some Opcode.subtract.asByte)
    (hline : c.lines.get? (s.ip + 1) = some L)
    (hst : s.stack = .number y :: .number x :: rest)
    (hlen : rest.length < 256) :
    step c s = .next { s with
      ip := s.ip + 1
      stack := .number (x - y) :: rest } := by
  simp only [step, readByte, hb, Opcode.asByte, decodeOpcode, hline,
    Chunk.lineFor, binaryOpNum, popStack, hst, pushStack, stackSize,
    if_pos hlen]

/-- Executing a `Print` instruction. -/
theorem step_print {c : Chunk} {s : VMState} {v : Value} {rest : List Value}
    (hb : c.code.get? s.ip = some Opcode.print.asByte)
    (hst : s.stack = v :: rest) :
    step c s = .next { s with
      ip := s.ip + 1
      stack := rest
      output := s.output ++ [renderValue s.heap v] } := by
  simp only [step, readByte, hb, Opcode.asByte, decodeOpcode, popStack, hst]

/-- Executing a `Return` instruction. -/
theorem step_ret {c : Chunk} {s : VMState}
    (hb : c.code.get? s.ip = some Opcode.ret.asByte) :
    step c s = .done { s with ip := s.ip + 1 } := by
  simp only [step, readByte, hb, Opcode.asByte, decodeOpcode]

/-- Running the compiled right-associated subtraction chain: the VM
pushes the three constants, subtracts innermost-first, and prints
`a - (b - c)`. -/
theorem run_chain_chunk (P : List Value) (i1 i2 i3 : Nat) (a b c : ℚ)
    (hp : HeapManager)
    (h1 : P.get? i1 = some (.number a))
    (h2 : P.get? i2 = some (.number b))
    (h3 : P.get? i3 = some (.number c)) :
    run ⟨[Opcode.constant.asByte, i1, Opcode.constant.asByte, i2,
          Opcode.constant.asByte, i3, Opcode.subtract.asByte,
          Opcode.subtract.asByte, Opcode.print.asByte, Opcode.ret.asByte],
         P, "main", [1, 1, 1, 1, 1, 1, 1, 1, 1, 0]⟩ 20 (initState hp) =
      .halt (.ok ()) ⟨10, [], hp, HashTable.fresh,
        [.num (a - (b - c))]⟩ := by
  have e0 : step ⟨[Opcode.constant.asByte, i1, Opcode.constant.asByte, i2,
      Opcode.constant.asByte, i3, Opcode.subtract.asByte,
      Opcode.subtract.asByte, Opcode.print.asByte, Opcode.ret.asByte],
      P, "main", [1, 1, 1, 1, 1, 1, 1, 1, 1, 0]⟩
      ⟨0, [], hp, HashTable.fresh, []⟩ =
      .next ⟨2, [.number a], hp, HashTable.fresh, []⟩ :=
    step_constant rfl rfl h1 (by norm_num)
  have e1 : step ⟨[Opcode.constant.asByte, i1, Opcode.constant.asByte, i2,
      Opcode.constant.asByte, i3, Opcode.subtract.asByte,
      Opcode.subtract.asByte, Opcode.print.asByte, Opcode.ret.asByte],
      P, "main", [1, 1, 1, 1, 1, 1, 1, 1, 1, 0]⟩
      ⟨2, [.number a], hp, HashTable.fresh, []⟩ =
      .next ⟨4, [.number b, .number a], hp, HashTable.fresh, []⟩ :=
    step_constant rfl rfl h2 (by norm_num)
  have e2 : step ⟨[Opcode.constant.asByte, i1, Opcode.constant.asByte, i2,
      Opcode.constant.asByte, i3, Opcode.subtract.asByte,
      Opcode.subtract.asByte, Opcode.print.asByte, Opcode.ret.asByte],
      P, "main", [1, 1, 1, 1, 1, 1, 1, 1, 1, 0]⟩
      ⟨4, [.number b, .number a], hp, HashTable.fresh, []⟩ =
      .next ⟨6, [.number c, .number b, .number a], hp, HashTable.fresh, []⟩ :=
    step_constant rfl rfl h3 (by norm_num)
  have e3 : step ⟨[Opcode.constant.asByte, i1, Opcode.constant.asByte, i2,
      Opcode.constant.asByte, i3, Opcode.subtract.asByte,
      Opcode.subtract.asByte, Opcode.print.asByte, Opcode.ret.asByte],
      P, "main", [1, 1, 1, 1, 1, 1, 1, 1, 1, 0]⟩
      ⟨6, [.number c, .number b, .number a], hp, HashTable.fresh, []⟩ =
      .next ⟨7, [.number (b - c), .number a], hp, HashTable.fresh, []⟩ :=
    step_subtract rfl rfl rfl (by norm_num)
  have e4 : step ⟨[Opcode.constant.asByte, i1, Opcode.constant.asByte, i2,
      Opcode.constant.asByte, i3, Opcode.subtract.asByte,
      Opcode.subtract.asByte, Opcode.print.asByte, Opcode.ret.asByte],
      P, "main", [1, 1, 1, 1, 1, 1, 1, 1, 1, 0]⟩
      ⟨7, [.number (b - c), .number a], hp, HashTable.fresh, []⟩ =
      .next ⟨8, [.number (a - (b - c))], hp, HashTable.fresh, []⟩ :=
    step_subtract rfl rfl rfl (by norm_num)
  have e5 : step ⟨[Opcode.constant.asByte, i1, Opcode.constant.asByte, i2,
      Opcode.constant.asByte, i3, Opcode.subtract.asByte,
      Opcode.subtract.asByte, Opcode.print.asByte, Opcode.ret.asByte],
      P, "main", [1, 1, 1, 1, 1, 1, 1, 1, 1, 0]⟩
      ⟨8, [.number (a - (b - c))], hp, HashTable.fresh, []⟩ =
      .next ⟨9, [], hp, HashTable.fresh, [.num (a - (b - c))]⟩ :=
    step_print (by rfl) (by rfl)
  have e6 : step ⟨[Opcode.constant.asByte, i1, Opcode.constant.asByte, i2,
      Opcode.constant.asByte, i3, Opcode.subtract.asByte,
      Opcode.subtract.asByte, Opcode.print.asByte, Opcode.ret.asByte],
      P, "main", [1, 1, 1, 1, 1, 1, 1, 1, 1, 0]⟩
      ⟨9, [], hp, HashTable.fresh, [.num (a - (b - c))]⟩ =
      .done ⟨10, [], hp, HashTable.fresh, [.num (a - (b - c))]⟩ :=
    step_ret (by rfl)
  show run _ 20 ⟨0, [], hp, HashTable.fresh, []⟩ = _
  rw [run_next 19 e0, run_next 18 e1, run_next 17 e2, run_next 16 e3,
    run_next 15 e4, run_next 14 e5, run_done 13 e6]

theorem runOutput_eval (fc fv : Nat)
    (toks : List (Except ScanError Token)) (c : Chunk) (h : HeapManager)
    (s : VMState)
    (hc : compileProgram fc toks HeapManager.fresh = some (.ok (c, h)))
    (hr : run c fv (initState h) = .halt (.ok ()) s) :
    runOutput fc fv toks = some s.output := by
  simp only [runOutput, hc, hr]

theorem chain_right_assoc (a b c : ℚ) :
    runOutput 20 20 (chainTokens a b c) = some [.num (a - (b - c))] := by
  obtain ⟨i1, i2, i3, P, hexp, hg1, hg2, hg3⟩ :=
    expressionBp_chain 5 .none a b c ⟨.semicolon, 1⟩ []
      ⟨[.ok ⟨.number a, 1⟩, .ok ⟨.minus, 1⟩, .ok ⟨.number b, 1⟩,
        .ok ⟨.minus, 1⟩, .ok ⟨.number c, 1⟩, .ok ⟨.semicolon, 1⟩],
        Chunk.new ("main"), HeapManager.fresh, [], [], 0⟩
      rfl rfl (by decide) rfl (show (0 : Nat) + 3 ≤ 256 by norm_num)
  have hexpr : expression 17
      ⟨[.ok ⟨.number a, 1⟩, .ok ⟨.minus, 1⟩, .ok ⟨.number b, 1⟩,
        .ok ⟨.minus, 1⟩, .ok ⟨.number c, 1⟩, .ok ⟨.semicolon, 1⟩],
        Chunk.new ("main"), HeapManager.fresh, [], [], 0⟩ =
      some (.ok (), ⟨[.ok ⟨.semicolon, 1⟩],
        ⟨[Opcode.constant.asByte, i1, Opcode.constant.asByte, i2,
          Opcode.constant.asByte, i3, Opcode.subtract.asByte,
          Opcode.subtract.asByte], P, "main", [1, 1, 1, 1, 1, 1, 1, 1]⟩,
        HeapManager.fresh, [], [], 0⟩) := hexp
  have hstmt : statement 18
      ⟨chainTokens a b c, Chunk.new ("main"), HeapManager.fresh, [], [],
        0⟩ =
      some (.ok (), ⟨[],
        ⟨[Opcode.constant.asByte, i1, Opcode.constant.asByte, i2,
          Opcode.constant.asByte, i3, Opcode.subtract.asByte,
          Opcode.subtract.asByte, Opcode.print.asByte], P, "main",
          [1, 1, 1, 1, 1, 1, 1, 1, 1]⟩,
        HeapManager.fresh, [], [], 0⟩) :=
    statement_print 17 1 1 _ []
      ⟨chainTokens a b c, Chunk.new ("main"), HeapManager.fresh, [], [], 0⟩
      _ rfl hexpr rfl
  have hloop : compileLoop 20
      ⟨chainTokens a b c, Chunk.new ("main"), HeapManager.fresh, [], [],
        0⟩ =
      some (.ok (), ⟨[],
        ⟨[Opcode.constant.asByte, i1, Opcode.constant.asByte, i2,
          Opcode.constant.asByte, i3, Opcode.subtract.asByte,
          Opcode.subtract.asByte, Opcode.print.asByte], P, "main",
          [1, 1, 1, 1, 1, 1, 1, 1, 1]⟩,
        HeapManager.fresh, [], [], 0⟩) :=
    compileLoop_one 18 _ _ ⟨.kPrint, 1⟩ _ rfl
      (declaration_stmt 18 _ _ ⟨.kPrint, 1⟩ _ rfl (by decide) hstmt) rfl
  have hprog : compileProgram 20 (chainTokens a b c) HeapManager.fresh =
      some (.ok
        (⟨[Opcode.constant.asByte, i1, Opcode.constant.asByte, i2,
          Opcode.constant.asByte, i3, Opcode.subtract.asByte,
          Opcode.subtract.asByte, Opcode.print.asByte, Opcode.ret.asByte],
          P, "main", [1, 1, 1, 1, 1, 1, 1, 1, 1, 0]⟩,
         HeapManager.fresh)) :=
    compileProgram_eval 20 (chainTokens a b c) HeapManager.fresh _ hloop rfl
  have hrun : run
      ⟨[Opcode.constant.asByte, i1, Opcode.constant.asByte, i2,
        Opcode.constant.asByte, i3, Opcode.subtract.asByte,
        Opcode.subtract.asByte, Opcode.print.asByte, Opcode.ret.asByte],
        P, "main", [1, 1, 1, 1, 1, 1, 1, 1, 1, 0]⟩ 20
      (initState HeapManager.fresh) =
      .halt (.ok ()) ⟨10, [], HeapManager.fresh, HashTable.fresh,
        [.num (a - (b - c))]⟩ :=
    run_chain_chunk P i1 i2 i3 a b c HeapManager.fresh hg1 hg2 hg3
  exact runOutput_eval 20 20 _ _ _ _ hprog hrun

/-- C1 (amended): all binary operators are compiled right-associatively:
for every numeric operands `a`, `b`, `c`, the chained same-precedence
expression `print a - b - c;` evaluates as `a - (b - c)` — the Pratt
loop consumes an infix operator when its binding power is at least
`min_bp`, and the infix parselet compiles its right operand at the
operator's own binding power, so same-precedence chains group to the
right. -/
theorem chain_compiles_and_runs (a b c : ℚ) :
    runOutput 20 20 (chainTokens a b c) = some [.num (a - (b - c))] :=
  chain_right_assoc a b c

/-- C1 (counterexample): `print 1 - 2 - 3;` prints `2`, not the
left-associated value `(1 - 2) - 3 = -4`; binary chains are not compiled
left-associatively. -/
theorem chain_not_left_assoc :
    runOutput 20 20 (chainTokens 1 2 3) = some [.num 2] ∧
      ((1 : ℚ) - 2) - 3 ≠ 2 := by
  refine ⟨?_, by norm_num⟩
  have h := chain_right_assoc 1 2 3
  norm_num at h
  exact h

theorem infixLoop_nil (f : Nat) (minBp : BindingPower)
    (acc : List CompileError) (σ : CompSt) (h : σ.tokens = []) :
    infixLoop (f + 1) minBp acc σ = some (.ok acc, σ) := by
  simp only [infixLoop, compM_bind_def, getSt_def, h, compM_pure_def]

theorem expressionBp_noPrefix (f : Nat) (minBp : BindingPower)
    (σ σ₂ : CompSt) (t : Token) (rest : List (Except ScanError Token))
    (acc₂ : List CompileError)
    (h1 : σ.tokens = .ok t :: rest)
    (h2 : getRule t.contents .prefixOp = Option.none)
    (hloop : infixLoop f minBp
      (perr (.noPrefixRule t.line t.contents.display))
      { σ with tokens := rest } = some (.ok acc₂, σ₂))
    (hne : acc₂ ≠ []) :
    expressionBp (f + 1) minBp σ = some (.error acc₂, σ₂) := by
  simp only [expressionBp, compM_bind_def, getSt_def, setSt_def, tryC_run,
    h1, h2, hloop, compM_pure_def]
  simp [hne, throwC_def]

theorem expressionStatement_err (f L : Nat) (σ σ₁ : CompSt)
    (E : List CompileError)
    (hex : expression f σ = some (.error E, σ₁)) :
    expressionStatement (f + 1) L σ = some (.error E, σ₁) := by
  simp only [expressionStatement, compM_bind_def, hex]

theorem declaration_sync (f : Nat) (σ σ₁ : CompSt) (t : Token)
    (rest : List (Except ScanError Token)) (E : List CompileError)
    (h1 : σ.tokens = .ok t :: rest)
    (h2 : t.contents ≠ .kVar)
    (h3 : statement f σ = some (.error E, σ₁)) :
    declaration (f + 1) σ = some (.ok (),
      { σ₁ with errors := σ₁.errors ++ E, tokens := syncLoop σ₁.tokens }) := by
  simp only [declaration, compM_bind_def, getSt_def, tryC_run, h1]
  simp [h2, h3, modifySt_def, compM_pure_def]

theorem compileLoop_nil (f : Nat) (σ : CompSt) (h : σ.tokens = []) :
    compileLoop (f + 1) σ = some (.ok (), σ) := by
  simp only [compileLoop, compM_bind_def, getSt_def, h, compM_pure_def]

theorem compileLoop_decl (f : Nat) (σ σ₁ σ₂ : CompSt) (t : Token)
    (rest : List (Except ScanError Token))
    (r : Except (List CompileError) Unit)
    (h1 : σ.tokens = .ok t :: rest)
    (h2 : declaration f σ = some (.ok (), σ₁))
    (h3 : compileLoop f σ₁ = some (r, σ₂)) :
    compileLoop (f + 1) σ = some (r, σ₂) := by
  simp only [compileLoop, compM_bind_def, getSt_def, h1, h2, h3]

theorem compileProgram_err (F : Nat) (toks : List (Except ScanError Token))
    (heap : HeapManager) (σ' : CompSt) (E : List CompileError)
    (hcl : compileLoop F ⟨toks, Chunk.new ("main"), heap, [], [], 0⟩ =
      some (.ok (), σ'))
    (herr : σ'.errors = E)
    (hne : E ≠ []) :
    compileProgram F toks heap = some (.error E) := by
  simp only [compileProgram, compM_bind_def, getSt_def, hcl, herr,
    compM_pure_def]
  simp [hne, throwC_def]

/-- Compiling the program `;` fails with exactly one error: the
`NoPrefixParser` ("Expect expression") error for the semicolon. -/
theorem semicolon_expect_expression :
    compileProgram 20 semicolonOnlyTokens HeapManager.fresh =
      some (.error [.parseErr (.noPrefixRule 1 (";"))]) := by
  have h1 : infixLoop 14 .none (perr (.noPrefixRule 1 (";")))
      ⟨[], Chunk.new ("main"), HeapManager.fresh, [], [], 0⟩ =
      some (.ok (perr (.noPrefixRule 1 (";"))),
        ⟨[], Chunk.new ("main"), HeapManager.fresh, [], [], 0⟩) :=
    infixLoop_nil 13 _ _ _ rfl
  have h2 : expressionBp 15 .none
      ⟨[.ok ⟨.semicolon, 1⟩], Chunk.new ("main"), HeapManager.fresh, [],
        [], 0⟩ =
      some (.error (perr (.noPrefixRule 1 (";"))),
        ⟨[], Chunk.new ("main"), HeapManager.fresh, [], [], 0⟩) :=
    expressionBp_noPrefix 14 .none _ _ ⟨.semicolon, 1⟩ [] _ rfl rfl h1
      (by simp [perr])
  have h3 : expressionStatement 17 1
      ⟨[.ok ⟨.semicolon, 1⟩], Chunk.new ("main"), HeapManager.fresh, [],
        [], 0⟩ =
      some (.error (perr (.noPrefixRule 1 (";"))),
        ⟨[], Chunk.new ("main"), HeapManager.fresh, [], [], 0⟩) :=
    expressionStatement_err 16 1 _ _ _ h2
  have h4 : statement 18
      ⟨[.ok ⟨.semicolon, 1⟩], Chunk.new ("main"), HeapManager.fresh, [],
        [], 0⟩ =
      some (.error (perr (.noPrefixRule 1 (";"))),
        ⟨[], Chunk.new ("main"), HeapManager.fresh, [], [], 0⟩) := by
    simp only [statement, peekToken, compM_bind_def, getSt_def,
      compM_pure_def, h3]
  have h5 : declaration 19
      ⟨[.ok ⟨.semicolon, 1⟩], Chunk.new ("main"), HeapManager.fresh, [],
        [], 0⟩ =
      some (.ok (),
        ⟨[], Chunk.new ("main"), HeapManager.fresh,
          perr (.noPrefixRule 1 (";")), [], 0⟩) := by
    have := declaration_sync 18 _ _ ⟨.semicolon, 1⟩ [] _ rfl (by decide) h4
    simpa [syncLoop, perr] using this
  have h6 : compileLoop 20
      ⟨[.ok ⟨.semicolon, 1⟩], Chunk.new ("main"), HeapManager.fresh, [],
        [], 0⟩ =
      some (.ok (),
        ⟨[], Chunk.new ("main"), HeapManager.fresh,
          perr (.noPrefixRule 1 (";")), [], 0⟩) :=
    compileLoop_decl 19 _ _ _ ⟨.semicolon, 1⟩ [] _ rfl h5
      (compileLoop_nil 18 _ rfl)
  exact compileProgram_err 20 _ _ _ _ h6 rfl (by simp [perr])

/-- C9 (counterexample): the program `;` produces the NoPrefixParser
error, but its rendered message is not exactly
`[line 1] Error at ';': Expect expression.` — the code appends extra
text after the mandatory phrasing. -/
theorem noprefix_message_not_exact :
    compileProgram 20 semicolonOnlyTokens HeapManager.fresh =
      some (.error [.parseErr (.noPrefixRule 1 (";"))]) ∧
    renderParseError (.noPrefixRule 1 (";")) ≠
      "[line 1] Error at ';': Expect expression." :=
  ⟨semicolon_expect_expression, by decide⟩

/-- C9 (amended): for every parse error caused by a token with no prefix
rule, the reported message is
`[line N] Error at 'T': Expect expression. (prefix)` — the line/lexeme
prefix and the mandatory phrasing, followed by the literal suffix
` (prefix)`; the program `;` produces exactly this error. -/
theorem noprefix_message_has_suffix :
    (∀ (l : Nat) (lex : String),
      renderParseError (.noPrefixRule l lex) =
        "[line " ++ toString l ++ "] Error at '" ++ lex ++
          "': Expect expression. (prefix)") ∧
    compileProgram 20 semicolonOnlyTokens HeapManager.fresh =
      some (.error [.parseErr (.noPrefixRule 1 (";"))]) ∧
    renderParseError (.noPrefixRule 1 (";")) =
      "[line 1] Error at ';': Expect expression. (prefix)" :=
  ⟨fun l lex => rfl, semicolon_expect_expression, by decide⟩

theorem parseVariable_local (f : Nat) (σ σ₁ : CompSt) (id : String)
    (L : Nat) (rest : List (Except ScanError Token))
    (h1 : σ.tokens = .ok ⟨.identifier id, L⟩ :: rest)
    (h2 : declareVariable id L { σ with tokens := rest } =
      some (.ok (), σ₁))
    (h3 : 0 < σ₁.scopeDepth) :
    parseVariable (f + 1) σ = some (.ok Option.none, σ₁) := by
  simp only [parseVariable, compM_bind_def, getSt_def, setSt_def, h1, h2]
  simp [h3, compM_pure_def]

theorem varDeclaration_init (f : Nat) (σ σ₁ σ₂ σ₃ : CompSt)
    (idx : Option Nat) (L L₂ : Nat)
    (rest₁ rest₂ : List (Except ScanError Token))
    (h1 : parseVariable f σ = some (.ok idx, σ₁))
    (h2 : σ₁.tokens = .ok ⟨.equal, L⟩ :: rest₁)
    (h3 : expression f { σ₁ with tokens := rest₁ } = some (.ok (), σ₂))
    (h4 : σ₂.tokens = .ok ⟨.semicolon, L₂⟩ :: rest₂)
    (h5 : defineVariable idx L₂ { σ₂ with tokens := rest₂ } =
      some (.ok (), σ₃)) :
    varDeclaration (f + 1) σ = some (.ok (), σ₃) := by
  simp only [varDeclaration, compM_bind_def, getSt_def, setSt_def, h1, h2]
  simp [compM_bind_def, setSt_def, getSt_def, h3, h4, h5]

theorem varDeclaration_init_err (f : Nat) (σ σ₁ σ₂ : CompSt)
    (idx : Option Nat) (L : Nat) (E : List CompileError)
    (rest₁ : List (Except ScanError Token))
    (h1 : parseVariable f σ = some (.ok idx, σ₁))
    (h2 : σ₁.tokens = .ok ⟨.equal, L⟩ :: rest₁)
    (h3 : expression f { σ₁ with tokens := rest₁ } =
      some (.error E, σ₂)) :
    varDeclaration (f + 1) σ = some (.error E, σ₂) := by
  simp only [varDeclaration, compM_bind_def, getSt_def, setSt_def, h1, h2]
  simp [compM_bind_def, setSt_def, h3]

theorem defineVariable_local (L : Nat) (σ : CompSt) (l : Local)
    (hd : 0 < σ.scopeDepth)
    (hl : σ.locals.getLast? = some l) :
    defineVariable Option.none L σ = some (.ok (),
      { σ with
        locals := σ.locals.dropLast ++ [⟨l.name, some σ.scopeDepth⟩] }) := by
  simp only [defineVariable, compM_bind_def, getSt_def, hl, setSt_def]
  simp [hd, hl, setSt_def]

theorem declaration_var (f : Nat) (σ σ' : CompSt) (t : Token)
    (rest : List (Except ScanError Token))
    (h1 : σ.tokens = .ok t :: rest)
    (h2 : t.contents = .kVar)
    (h3 : varDeclaration f { σ with tokens := rest } = some (.ok (), σ')) :
    declaration (f + 1) σ = some (.ok (), σ') := by
  simp only [declaration, compM_bind_def, getSt_def, setSt_def, tryC_run, h1]
  simp [h2, h3, compM_pure_def, compM_bind_def, setSt_def]

theorem declaration_var_sync (f : Nat) (σ σ₁ : CompSt) (t : Token)
    (rest : List (Except ScanError Token)) (E : List CompileError)
    (h1 : σ.tokens = .ok t :: rest)
    (h2 : t.contents = .kVar)
    (h3 : varDeclaration f { σ with tokens := rest } =
      some (.error E, σ₁)) :
    declaration (f + 1) σ = some (.ok (),
      { σ₁ with errors := σ₁.errors ++ E, tokens := syncLoop σ₁.tokens }) := by
  simp only [declaration, compM_bind_def, getSt_def, setSt_def, tryC_run, h1]
  simp [h2, h3, modifySt_def, compM_pure_def, compM_bind_def, setSt_def]

theorem statement_block (f : Nat) (σ σ' : CompSt) (L : Nat)
    (rest : List (Except ScanError Token))
    (r : Except (List CompileError) Unit)
    (h1 : σ.tokens = .ok ⟨.leftBrace, L⟩ :: rest)
    (h2 : scopedC f (block f) { σ with tokens := rest } = some (r, σ')) :
    statement (f + 1) σ = some (r, σ') := by
  simp only [statement, peekToken, nextToken, compM_bind_def, getSt_def,
    setSt_def, compM_pure_def, h1, h2]

theorem scopedC_eval (f : Nat) (body : CompM Unit) (σ σ₁ : CompSt)
    (h : body { σ with scopeDepth := σ.scopeDepth + 1 } =
      some (.ok (), σ₁)) :
    scopedC (f + 1) body σ =
      some (.ok (), popLocalsLoop
        ({ σ₁ with scopeDepth := σ₁.scopeDepth - 1 }).locals.length
        { σ₁ with scopeDepth := σ₁.scopeDepth - 1 }) := by
  simp only [scopedC, compM_bind_def, modifySt_def, tryC_run, h,
    compM_pure_def]

theorem blockLoop_stop (f : Nat) (σ : CompSt) (t : Token)
    (rest : List (Except ScanError Token))
    (h1 : σ.tokens = .ok t :: rest)
    (h2 : t.contents = .rightBrace) :
    blockLoop (f + 1) σ = some (.ok (), σ) := by
  simp only [blockLoop, compM_bind_def, getSt_def, h1]
  simp [h2, compM_pure_def]

theorem blockLoop_decl (f : Nat) (σ σ₁ σ₂ : CompSt) (t : Token)
    (rest : List (Except ScanError Token))
    (r : Except (List CompileError) Unit)
    (h1 : σ.tokens = .ok t :: rest)
    (h2 : t.contents ≠ .rightBrace)
    (h3 : declaration f σ = some (.ok (), σ₁))
    (h4 : blockLoop f σ₁ = some (r, σ₂)) :
    blockLoop (f + 1) σ = some (r, σ₂) := by
  simp only [blockLoop, compM_bind_def, getSt_def, h1]
  simp [h2, h3, h4, compM_pure_def, compM_bind_def]

theorem block_eval (f : Nat) (σ σ₁ : CompSt) (L : Nat)
    (rest : List (Except ScanError Token))
    (h1 : blockLoop f σ = some (.ok (), σ₁))
    (h2 : σ₁.tokens = .ok ⟨.rightBrace, L⟩ :: rest) :
    block (f + 1) σ = some (.ok (), { σ₁ with tokens := rest }) := by
  simp only [block, compM_bind_def, h1, tryC_run, nextToken, getSt_def,
    setSt_def, h2]
  simp [compM_pure_def]

theorem expressionBp_prefix_err (f : Nat) (minBp : BindingPower)
    (σ σ₁ σ₂ : CompSt) (t : Token)
    (rest : List (Except ScanError Token)) (p : Parselet)
    (bp : BindingPower) (E acc₂ : List CompileError)
    (h1 : σ.tokens = .ok t :: rest)
    (h2 : getRule t.contents .prefixOp = some (p, bp))
    (h3 : runParselet f p t (bpLe minBp .assignment)
      { σ with tokens := rest } = some (.error E, σ₁))
    (h4 : infixLoop f minBp E σ₁ = some (.ok acc₂, σ₂))
    (h5 : acc₂ ≠ []) :
    expressionBp (f + 1) minBp σ = some (.error acc₂, σ₂) := by
  simp only [expressionBp, compM_bind_def, getSt_def, setSt_def, tryC_run,
    h1, h2, h3, h4, compM_pure_def]
  simp [h5, throwC_def]

theorem parseIdentifier_resErr (f : Nat) (id : String) (L : Nat)
    (ca : Bool) (σ σ' : CompSt) (E : List CompileError)
    (h : resolveLocal id L σ = some (.error E, σ')) :
    parseIdentifier (f + 1) ⟨.identifier id, L⟩ ca σ =
      some (.error E, σ') := by
  simp only [parseIdentifier, compM_bind_def, h]

theorem runParselet_identifier (f : Nat) (t : Token) (ca : Bool) :
    runParselet (f + 1) .identifier t ca = parseIdentifier f t ca := rfl

/-- C6: compiling `{ var a = 1; { var a = a; } }` — a read of a local
variable inside its own initializer at inner scope, with an outer
variable of the same name in scope — fails with exactly the
`LocalInOwnInitializer` compile error for line 2: `resolve_local`,
scanning the locals stack from top to bottom, errors on the matching
local whose depth is `None` instead of resolving to the outer
binding. -/
theorem local_in_own_initializer_error :
    compileProgram 30 localsTokens HeapManager.fresh =
      some (.error [.parseErr (.localInOwnInitializer 2 ("a"))]) := by
  have hpv1 : parseVariable 23
      ⟨localsTokens.drop 2, Chunk.new ("main"), HeapManager.fresh, [],
          [], 1⟩ =
      some (.ok Option.none,
        ⟨localsTokens.drop 3, Chunk.new ("main"), HeapManager.fresh, [],
          [⟨("a"), Option.none⟩], 1⟩) :=
    parseVariable_local 22 _ _ ("a") 1 (localsTokens.drop 3) rfl rfl Nat.one_pos
  obtain ⟨i, P, hexp, hget, -, -, -⟩ :=
    expressionBp_single 19 .none 1 1 ⟨.semicolon, 1⟩ (localsTokens.drop 6)
      ⟨localsTokens.drop 4, Chunk.new ("main"), HeapManager.fresh, [],
          [⟨("a"), Option.none⟩], 1⟩ rfl rfl (by decide) (by decide)
  have hexp1 : expression 23
      ⟨localsTokens.drop 4, Chunk.new ("main"), HeapManager.fresh, [],
          [⟨("a"), Option.none⟩], 1⟩ =
      some (.ok (),
        ⟨localsTokens.drop 5, ⟨[Opcode.constant.asByte, i], P, ("main"), [1, 1]⟩, HeapManager.fresh, [],
          [⟨("a"), Option.none⟩], 1⟩) := hexp
  have hvd1 : varDeclaration 24
      ⟨localsTokens.drop 2, Chunk.new ("main"), HeapManager.fresh, [],
          [], 1⟩ =
      some (.ok (),
        ⟨localsTokens.drop 6, ⟨[Opcode.constant.asByte, i], P, ("main"), [1, 1]⟩, HeapManager.fresh, [],
          [⟨("a"), some 1⟩], 1⟩) :=
    varDeclaration_init 23 _ _ _ _ Option.none 1 1 (localsTokens.drop 4)
      (localsTokens.drop 6) hpv1 rfl hexp1 rfl
      (defineVariable_local 1 _ ⟨("a"), Option.none⟩ Nat.one_pos rfl)
  have hdecl1 : declaration 25
      ⟨localsTokens.drop 1, Chunk.new ("main"), HeapManager.fresh, [],
          [], 1⟩ =
      some (.ok (),
        ⟨localsTokens.drop 6, ⟨[Opcode.constant.asByte, i], P, ("main"), [1, 1]⟩, HeapManager.fresh, [],
          [⟨("a"), some 1⟩], 1⟩) :=
    declaration_var 24 _ _ ⟨.kVar, 1⟩ (localsTokens.drop 2) rfl rfl hvd1
  have hpv2 : parseVariable 18
      ⟨localsTokens.drop 8, ⟨[Opcode.constant.asByte, i], P, ("main"), [1, 1]⟩, HeapManager.fresh, [],
          [⟨("a"), some 1⟩], 2⟩ =
      some (.ok Option.none,
        ⟨localsTokens.drop 9, ⟨[Opcode.constant.asByte, i], P, ("main"), [1, 1]⟩, HeapManager.fresh, [],
          [⟨("a"), some 1⟩, ⟨("a"), Option.none⟩], 2⟩) :=
    parseVariable_local 17 _ _ ("a") 2 (localsTokens.drop 9) rfl rfl (Nat.succ_pos 1)
  have hres : resolveLocal ("a") 2
      ⟨localsTokens.drop 11, ⟨[Opcode.constant.asByte, i], P, ("main"), [1, 1]⟩, HeapManager.fresh, [],
          [⟨("a"), some 1⟩, ⟨("a"), Option.none⟩], 2⟩ =
      some (.error [.parseErr (.localInOwnInitializer 2 ("a"))],
        ⟨localsTokens.drop 11, ⟨[Opcode.constant.asByte, i], P, ("main"), [1, 1]⟩, HeapManager.fresh, [],
          [⟨("a"), some 1⟩, ⟨("a"), Option.none⟩], 2⟩) := rfl
  have hpid : runParselet 16 .identifier ⟨.identifier ("a"), 2⟩
      (bpLe .none .assignment)
      ⟨localsTokens.drop 11, ⟨[Opcode.constant.asByte, i], P, ("main"), [1, 1]⟩, HeapManager.fresh, [],
          [⟨("a"), some 1⟩, ⟨("a"), Option.none⟩], 2⟩ =
      some (.error [.parseErr (.localInOwnInitializer 2 ("a"))],
        ⟨localsTokens.drop 11, ⟨[Opcode.constant.asByte, i], P, ("main"), [1, 1]⟩, HeapManager.fresh, [],
          [⟨("a"), some 1⟩, ⟨("a"), Option.none⟩], 2⟩) :=
    parseIdentifier_resErr 14 ("a") 2 _ _ _ _ hres
  have hil : infixLoop 16 .none
      [.parseErr (.localInOwnInitializer 2 ("a"))]
      ⟨localsTokens.drop 11, ⟨[Opcode.constant.asByte, i], P, ("main"), [1, 1]⟩, HeapManager.fresh, [],
          [⟨("a"), some 1⟩, ⟨("a"), Option.none⟩], 2⟩ =
      some (.ok [.parseErr (.localInOwnInitializer 2 ("a"))],
        ⟨localsTokens.drop 11, ⟨[Opcode.constant.asByte, i], P, ("main"), [1, 1]⟩, HeapManager.fresh, [],
          [⟨("a"), some 1⟩, ⟨("a"), Option.none⟩], 2⟩) :=
    infixLoop_stop 15 .none _ _ ⟨.semicolon, 2⟩ (localsTokens.drop 12)
      rfl rfl (by decide)
  have hexp2 : expression 18
      ⟨localsTokens.drop 10, ⟨[Opcode.constant.asByte, i], P, ("main"), [1, 1]⟩, HeapManager.fresh, [],
          [⟨("a"), some 1⟩, ⟨("a"), Option.none⟩], 2⟩ =
      some (.error [.parseErr (.localInOwnInitializer 2 ("a"))],
        ⟨localsTokens.drop 11, ⟨[Opcode.constant.asByte, i], P, ("main"), [1, 1]⟩, HeapManager.fresh, [],
          [⟨("a"), some 1⟩, ⟨("a"), Option.none⟩], 2⟩) :=
    expressionBp_prefix_err 16 .none _ _ _ ⟨.identifier ("a"), 2⟩
      (localsTokens.drop 11) .identifier _ _ _ rfl rfl hpid hil (by simp)
  have hvd2 : varDeclaration 19
      ⟨localsTokens.drop 8, ⟨[Opcode.constant.asByte, i], P, ("main"), [1, 1]⟩, HeapManager.fresh, [],
          [⟨("a"), some 1⟩], 2⟩ =
      some (.error [.parseErr (.localInOwnInitializer 2 ("a"))],
        ⟨localsTokens.drop 11, ⟨[Opcode.constant.asByte, i], P, ("main"), [1, 1]⟩, HeapManager.fresh, [],
          [⟨("a"), some 1⟩, ⟨("a"), Option.none⟩], 2⟩) :=
    varDeclaration_init_err 18 _ _ _ Option.none 2 _
      (localsTokens.drop 10) hpv2 rfl hexp2
  have hdecl2 : declaration 20
      ⟨localsTokens.drop 7, ⟨[Opcode.constant.asByte, i], P, ("main"), [1, 1]⟩, HeapManager.fresh, [],
          [⟨("a"), some 1⟩], 2⟩ =
      some (.ok (),
        ⟨localsTokens.drop 12, ⟨[Opcode.constant.asByte, i], P, ("main"), [1, 1]⟩, HeapManager.fresh, [.parseErr (.localInOwnInitializer 2 ("a"))],
          [⟨("a"), some 1⟩, ⟨("a"), Option.none⟩], 2⟩) :=
    declaration_var_sync 19 _
      ⟨localsTokens.drop 11, ⟨[Opcode.constant.asByte, i], P, ("main"), [1, 1]⟩, HeapManager.fresh, [],
          [⟨("a"), some 1⟩, ⟨("a"), Option.none⟩], 2⟩
      ⟨.kVar, 2⟩ (localsTokens.drop 8) [.parseErr (.localInOwnInitializer 2 ("a"))] rfl rfl hvd2
  have hbl20 : blockLoop 20
      ⟨localsTokens.drop 12, ⟨[Opcode.constant.asByte, i], P, ("main"), [1, 1]⟩, HeapManager.fresh, [.parseErr (.localInOwnInitializer 2 ("a"))],
          [⟨("a"), some 1⟩, ⟨("a"), Option.none⟩], 2⟩ =
      some (.ok (),
        ⟨localsTokens.drop 12, ⟨[Opcode.constant.asByte, i], P, ("main"), [1, 1]⟩, HeapManager.fresh, [.parseErr (.localInOwnInitializer 2 ("a"))],
          [⟨("a"), some 1⟩, ⟨("a"), Option.none⟩], 2⟩) :=
    blockLoop_stop 19 _ ⟨.rightBrace, 3⟩ (localsTokens.drop 13) rfl rfl
  have hbl21 : blockLoop 21
      ⟨localsTokens.drop 7, ⟨[Opcode.constant.asByte, i], P, ("main"), [1, 1]⟩, HeapManager.fresh, [],
          [⟨("a"), some 1⟩], 2⟩ =
      some (.ok (),
        ⟨localsTokens.drop 12, ⟨[Opcode.constant.asByte, i], P, ("main"), [1, 1]⟩, HeapManager.fresh, [.parseErr (.localInOwnInitializer 2 ("a"))],
          [⟨("a"), some 1⟩, ⟨("a"), Option.none⟩], 2⟩) :=
    blockLoop_decl 20 _ _ _ ⟨.kVar, 2⟩ (localsTokens.drop 8) _ rfl
      (by decide) hdecl2 hbl20
  have hblock22 : block 22
      ⟨localsTokens.drop 7, ⟨[Opcode.constant.asByte, i], P, ("main"), [1, 1]⟩, HeapManager.fresh, [],
          [⟨("a"), some 1⟩], 2⟩ =
      some (.ok (),
        ⟨localsTokens.drop 13, ⟨[Opcode.constant.asByte, i], P, ("main"), [1, 1]⟩, HeapManager.fresh, [.parseErr (.localInOwnInitializer 2 ("a"))],
          [⟨("a"), some 1⟩, ⟨("a"), Option.none⟩], 2⟩) :=
    block_eval 21 _
      ⟨localsTokens.drop 12, ⟨[Opcode.constant.asByte, i], P, ("main"), [1, 1]⟩, HeapManager.fresh, [.parseErr (.localInOwnInitializer 2 ("a"))],
          [⟨("a"), some 1⟩, ⟨("a"), Option.none⟩], 2⟩
      3 (localsTokens.drop 13) hbl21 rfl
  have hscoped22 : scopedC 22 (block 22)
      ⟨localsTokens.drop 7, ⟨[Opcode.constant.asByte, i], P, ("main"), [1, 1]⟩, HeapManager.fresh, [],
          [⟨("a"), some 1⟩], 1⟩ =
      some (.ok (),
        ⟨localsTokens.drop 13, ⟨[Opcode.constant.asByte, i], P, ("main"), [1, 1]⟩, HeapManager.fresh, [.parseErr (.localInOwnInitializer 2 ("a"))],
          [⟨("a"), some 1⟩, ⟨("a"), Option.none⟩], 1⟩) :=
    scopedC_eval 21 (block 22) _
      ⟨localsTokens.drop 13, ⟨[Opcode.constant.asByte, i], P, ("main"), [1, 1]⟩, HeapManager.fresh, [.parseErr (.localInOwnInitializer 2 ("a"))],
          [⟨("a"), some 1⟩, ⟨("a"), Option.none⟩], 2⟩
      hblock22
  have hstmt23 : statement 23
      ⟨localsTokens.drop 6, ⟨[Opcode.constant.asByte, i], P, ("main"), [1, 1]⟩, HeapManager.fresh, [],
          [⟨("a"), some 1⟩], 1⟩ =
      some (.ok (),
        ⟨localsTokens.drop 13, ⟨[Opcode.constant.asByte, i], P, ("main"), [1, 1]⟩, HeapManager.fresh, [.parseErr (.localInOwnInitializer 2 ("a"))],
          [⟨("a"), some 1⟩, ⟨("a"), Option.none⟩], 1⟩) :=
    statement_block 22 _ _ 2 (localsTokens.drop 7) _ rfl hscoped22
  have hdecl24 : declaration 24
      ⟨localsTokens.drop 6, ⟨[Opcode.constant.asByte, i], P, ("main"), [1, 1]⟩, HeapManager.fresh, [],
          [⟨("a"), some 1⟩], 1⟩ =
      some (.ok (),
        ⟨localsTokens.drop 13, ⟨[Opcode.constant.asByte, i], P, ("main"), [1, 1]⟩, HeapManager.fresh, [.parseErr (.localInOwnInitializer 2 ("a"))],
          [⟨("a"), some 1⟩, ⟨("a"), Option.none⟩], 1⟩) :=
    declaration_stmt 23 _ _ ⟨.leftBrace, 2⟩ (localsTokens.drop 7) rfl
      (by decide) hstmt23
  have hbl24 : blockLoop 24
      ⟨localsTokens.drop 13, ⟨[Opcode.constant.asByte, i], P, ("main"), [1, 1]⟩, HeapManager.fresh, [.parseErr (.localInOwnInitializer 2 ("a"))],
          [⟨("a"), some 1⟩, ⟨("a"), Option.none⟩], 1⟩ =
      some (.ok (),
        ⟨localsTokens.drop 13, ⟨[Opcode.constant.asByte, i], P, ("main"), [1, 1]⟩, HeapManager.fresh, [.parseErr (.localInOwnInitializer 2 ("a"))],
          [⟨("a"), some 1⟩, ⟨("a"), Option.none⟩], 1⟩) :=
    blockLoop_stop 23 _ ⟨.rightBrace, 3⟩ (localsTokens.drop 14) rfl rfl
  have hbl25 : blockLoop 25
      ⟨localsTokens.drop 6, ⟨[Opcode.constant.asByte, i], P, ("main"), [1, 1]⟩, HeapManager.fresh, [],
          [⟨("a"), some 1⟩], 1⟩ =
      some (.ok (),
        ⟨localsTokens.drop 13, ⟨[Opcode.constant.asByte, i], P, ("main"), [1, 1]⟩, HeapManager.fresh, [.parseErr (.localInOwnInitializer 2 ("a"))],
          [⟨("a"), some 1⟩, ⟨("a"), Option.none⟩], 1⟩) :=
    blockLoop_decl 24 _ _ _ ⟨.leftBrace, 2⟩ (localsTokens.drop 7) _ rfl
      (by decide) hdecl24 hbl24
  have hbl26 : blockLoop 26
      ⟨localsTokens.drop 1, Chunk.new ("main"), HeapManager.fresh, [],
          [], 1⟩ =
      some (.ok (),
        ⟨localsTokens.drop 13, ⟨[Opcode.constant.asByte, i], P, ("main"), [1, 1]⟩, HeapManager.fresh, [.parseErr (.localInOwnInitializer 2 ("a"))],
          [⟨("a"), some 1⟩, ⟨("a"), Option.none⟩], 1⟩) :=
    blockLoop_decl 25 _ _ _ ⟨.kVar, 1⟩ (localsTokens.drop 2) _ rfl
      (by decide) hdecl1 hbl25
  have hblock27 : block 27
      ⟨localsTokens.drop 1, Chunk.new ("main"), HeapManager.fresh, [],
          [], 1⟩ =
      some (.ok (),
        ⟨[], ⟨[Opcode.constant.asByte, i], P, ("main"), [1, 1]⟩, HeapManager.fresh, [.parseErr (.localInOwnInitializer 2 ("a"))],
          [⟨("a"), some 1⟩, ⟨("a"), Option.none⟩], 1⟩) :=
    block_eval 26 _
      ⟨localsTokens.drop 13, ⟨[Opcode.constant.asByte, i], P, ("main"), [1, 1]⟩, HeapManager.fresh, [.parseErr (.localInOwnInitializer 2 ("a"))],
          [⟨("a"), some 1⟩, ⟨("a"), Option.none⟩], 1⟩
      3 [] hbl26 rfl
  have hscoped27 : scopedC 27 (block 27)
      ⟨localsTokens.drop 1, Chunk.new ("main"), HeapManager.fresh, [],
          [], 0⟩ =
      some (.ok (),
        ⟨[], ⟨[Opcode.constant.asByte, i], P, ("main"), [1, 1]⟩, HeapManager.fresh, [.parseErr (.localInOwnInitializer 2 ("a"))],
          [⟨("a"), some 1⟩, ⟨("a"), Option.none⟩], 0⟩) :=
    scopedC_eval 26 (block 27) _
      ⟨[], ⟨[Opcode.constant.asByte, i], P, ("main"), [1, 1]⟩, HeapManager.fresh, [.parseErr (.localInOwnInitializer 2 ("a"))],
          [⟨("a"), some 1⟩, ⟨("a"), Option.none⟩], 1⟩
      hblock27
  have hstmt28 : statement 28
      ⟨localsTokens, Chunk.new ("main"), HeapManager.fresh, [],
          [], 0⟩ =
      some (.ok (),
        ⟨[], ⟨[Opcode.constant.asByte, i], P, ("main"), [1, 1]⟩, HeapManager.fresh, [.parseErr (.localInOwnInitializer 2 ("a"))],
          [⟨("a"), some 1⟩, ⟨("a"), Option.none⟩], 0⟩) :=
    statement_block 27 _ _ 1 (localsTokens.drop 1) _ rfl hscoped27
  have hdecl29 : declaration 29
      ⟨localsTokens, Chunk.new ("main"), HeapManager.fresh, [],
          [], 0⟩ =
      some (.ok (),
        ⟨[], ⟨[Opcode.constant.asByte, i], P, ("main"), [1, 1]⟩, HeapManager.fresh, [.parseErr (.localInOwnInitializer 2 ("a"))],
          [⟨("a"), some 1⟩, ⟨("a"), Option.none⟩], 0⟩) :=
    declaration_stmt 28 _ _ ⟨.leftBrace, 1⟩ (localsTokens.drop 1) rfl
      (by decide) hstmt28
  have hcl : compileLoop 30
      ⟨localsTokens, Chunk.new ("main"), HeapManager.fresh, [],
          [], 0⟩ =
      some (.ok (),
        ⟨[], ⟨[Opcode.constant.asByte, i], P, ("main"), [1, 1]⟩, HeapManager.fresh, [.parseErr (.localInOwnInitializer 2 ("a"))],
          [⟨("a"), some 1⟩, ⟨("a"), Option.none⟩], 0⟩) :=
    compileLoop_decl 29 _ _ _ ⟨.leftBrace, 1⟩ (localsTokens.drop 1) _ rfl
      hdecl29 (compileLoop_nil 28 _ rfl)
  exact compileProgram_err 30 localsTokens HeapManager.fresh _ _ hcl rfl
    (by simp)

theorem valueEq_refl (deref : Nat → String) (v : Value) :
    valueEq deref v v = true := by
  cases v <;> simp [valueEq]

theorem findConstant_none_of {deref : Nat → String} {v : Value}
    {ws : List Value} (h : ∀ w ∈ ws, valueEq deref w v = false) :
    ∀ i, findConstant deref v ws i = Option.none := by
  induction ws with
  | nil => intro i; rfl
  | cons w ws ih =>
    intro i
    rw [findConstant, if_neg (by simp [h w (List.mem_cons_self w ws)])]
    exact ih (fun w' hw' => h w' (List.mem_cons_of_mem w hw')) (i + 1)

theorem findConstant_append {deref : Nat → String} {v : Value}
    (P ws : List Value) (i : Nat)
    (h : ∀ w ∈ P, valueEq deref w v = false) :
    findConstant deref v (P ++ ws) i =
      findConstant deref v ws (i + P.length) := by
  induction P generalizing i with
  | nil => simp
  | cons w P ih =>
    rw [List.cons_append, findConstant,
      if_neg (by simp [h w (List.mem_cons_self w P)])]
    rw [ih (i + 1) (fun w' hw' => h w' (List.mem_cons_of_mem w hw'))]
    simp only [List.length_cons]
    congr 1
    omega

/-- C3 (counterexample): `add_constant` checks the capacity limit
before deduplicating, so a repeated `add_constant(v)` does not return
the first call's index at the boundary: with 255 distinct constants in
the pool, adding `Number(255)` returns index 255 and fills the pool,
and the repeated call returns `None` instead of index 255. -/
theorem addConstant_boundary_counterexample :
    boundaryChunk.addConstant (fun _ => ("")) (.number 255) =
        some (boundaryChunk', 255) ∧
    boundaryChunk'.addConstant (fun _ => ("")) (.number 255) =
        Option.none := by
  have hlen : boundaryPool.length = 255 := by
    rw [boundaryPool, List.length_map, List.length_range]
  have hnot : ∀ w ∈ boundaryPool,
      valueEq (fun _ => ("")) w (.number 255) = false := by
    intro w hw
    simp only [boundaryPool, List.mem_map, List.mem_range] at hw
    obtain ⟨n, hn, rfl⟩ := hw
    have hne : (n : ℚ) ≠ 255 := by
      exact_mod_cast Nat.ne_of_lt hn
    simp [valueEq, hne]
  constructor
  · show Chunk.addConstant _ _ _ = _
    unfold Chunk.addConstant
    rw [if_pos (by simp [boundaryChunk, hlen])]
    rw [show boundaryChunk.constants = boundaryPool from rfl,
      findConstant_none_of hnot 0]
    simp [boundaryChunk, boundaryChunk', hlen]
  · show Chunk.addConstant _ _ _ = _
    unfold Chunk.addConstant
    rw [if_neg (by simp [boundaryChunk', hlen])]

/-- C3 (amended): `add_constant` deduplicates by `==`-equality, but
only below the capacity limit: a successful `add_constant(v)` stores a
`==`-equal value at the returned index, a repeated call returns the
same index provided the pool is still below 256 entries, successful
calls preserve pairwise distinctness of the pool, and `None` is
returned exactly when the pool already holds 256 (necessarily
distinct, given distinctness) values. -/
theorem addConstant_dedup_spec (deref : Nat → String) (ch : Chunk)
    (v : Value) :
    (∀ ch' i, ch.addConstant deref v = some (ch', i) →
      (∃ w, ch'.getConstant i = some w ∧ valueEq deref w v = true) ∧
      (ch'.constants.length < 256 →
        ch'.addConstant deref v = some (ch', i)) ∧
      (pairwiseDistinct deref ch.constants →
        pairwiseDistinct deref ch'.constants)) ∧
    (ch.addConstant deref v = Option.none ↔
      256 ≤ ch.constants.length) := by
  constructor
  · intro ch' i hadd
    unfold Chunk.addConstant at hadd
    by_cases h256 : ch.constants.length < 256
    · rw [if_pos h256] at hadd
      cases hf : findConstant deref v ch.constants 0 with
      | some idx =>
        rw [hf] at hadd
        have hpair := Option.some.inj hadd
        obtain ⟨rfl, rfl⟩ : ch = ch' ∧ idx = i :=
          ⟨congrArg Prod.fst hpair, congrArg Prod.snd hpair⟩
        refine ⟨?_, ?_, fun h => h⟩
        · obtain ⟨-, w, hget, heq⟩ := findConstant_some hf
          exact ⟨w, by simpa [Chunk.getConstant] using hget, heq⟩
        · intro h'
          unfold Chunk.addConstant
          rw [if_pos h', hf]
      | none =>
        rw [hf] at hadd
        have hpair := Option.some.inj hadd
        obtain ⟨rfl, rfl⟩ :
            ({ ch with constants := ch.constants ++ [v] } = ch' ∧
              ch.constants.length = i) :=
          ⟨congrArg Prod.fst hpair, congrArg Prod.snd hpair⟩
        have hmiss := findConstant_none hf
        refine ⟨?_, ?_, ?_⟩
        · refine ⟨v, ?_, valueEq_refl deref v⟩
          simp [Chunk.getConstant, List.get?_eq_getElem?,
            List.getElem?_concat_length]
        · intro h'
          unfold Chunk.addConstant
          rw [if_pos h']
          rw [show ({ ch with constants := ch.constants ++ [v] } :
              Chunk).constants = ch.constants ++ [v] from rfl,
            findConstant_append _ _ 0 hmiss]
          simp [findConstant, valueEq_refl]
        · intro hp
          refine List.pairwise_append.mpr ⟨hp, List.pairwise_singleton _ _,
            ?_⟩
          intro a ha b hb
          rcases List.mem_singleton.mp hb with rfl
          exact hmiss a ha
    · rw [if_neg h256] at hadd
      exact absurd hadd (by simp)
  · unfold Chunk.addConstant
    by_cases h256 : ch.constants.length < 256
    · rw [if_pos h256]
      cases hf : findConstant deref v ch.constants 0 <;>
        simp [hf] <;> omega
    · rw [if_neg h256]
      simp
      omega

/-- Witness for the C3 amended theorem at a concrete input: adding
`Number(7)` to an empty pool stores it at index 0, and repeating the
call returns the same chunk and index. -/
theorem addConstant_dedup_spec_witness :
    (∃ w, Chunk.getConstant ⟨[], [.number 7], ("c"), []⟩ 0 = some w ∧
        valueEq (fun _ => ("")) w (.number 7) = true) ∧
    Chunk.addConstant (fun _ => ("")) ⟨[], [.number 7], ("c"), []⟩
        (.number 7) = some (⟨[], [.number 7], ("c"), []⟩, 0) := by
  have h := (addConstant_dedup_spec (fun _ => ("")) (Chunk.new ("c"))
      (.number 7)).1 ⟨[], [.number 7], ("c"), []⟩ 0 rfl
  exact ⟨h.1, h.2.1 (by simp)⟩

/-- Executing a `Jump` instruction: add the big-endian operand to the
instruction pointer. -/
theorem step_jump {c : Chunk} {s : VMState} {hi lo : Nat}
    (hb : c.code.get? s.ip = some Opcode.jump.asByte)
    (hh : c.code.get? (s.ip + 1) = some hi)
    (hl : c.code.get? (s.ip + 1 + 1) = some lo) :
    step c s =
      .next { s with ip := s.ip + 1 + 1 + 1 + (hi * 256 + lo) } := by
  simp only [step, readByte, readShort, hb, hh, hl, Opcode.asByte,
    decodeOpcode]

/-- C4: a successful `patch_jump(at)` on a jump emitted by
`add_dummy_jump` stores the big-endian 16-bit offset
`code.len() - at - 2` at `at`, `at + 1`; patching fails exactly when
that offset exceeds 65535; and executing the patched `Jump` opcode at
position `at - 1` lands the instruction pointer exactly at the code
position where `patch_jump` was called. -/
theorem patch_jump_spec (c0 : Chunk) (line : Nat)
    (extra extraLines : List Nat) (c1 : Chunk) (tgt : Nat)
    (hdj : c0.addDummyJump .jump line = (c1, tgt)) (c2 : Chunk)
    (hc2 : c2 = ⟨c1.code ++ extra, c1.constants, c1.name,
      c1.lines ++ extraLines⟩) :
    (c2.code.length - tgt - 2 ≤ 65535 →
      ∃ c3, c2.patchJump tgt = .ok c3 ∧
        c3.code.get? tgt = some ((c2.code.length - tgt - 2) / 256) ∧
        c3.code.get? (tgt + 1) = some ((c2.code.length - tgt - 2) % 256) ∧
        c3.code.length = c2.code.length ∧
        ∀ stack heap globals out,
          step c3 ⟨tgt - 1, stack, heap, globals, out⟩ =
            .next ⟨c2.code.length, stack, heap, globals, out⟩) ∧
    (65535 < c2.code.length - tgt - 2 →
      c2.patchJump tgt = .error ("Too much code to jump over.")) := by
  have hc1 : c1 = (c0.addDummyJump .jump line).1 := by rw [hdj]
  have htgt : tgt = (c0.addDummyJump .jump line).2 := by rw [hdj]
  simp only [Chunk.addDummyJump, Chunk.addOpcode, Chunk.addByte,
    List.append_assoc, List.singleton_append, List.cons_append,
    List.nil_append, List.length_append, List.length_cons,
    List.length_nil, Nat.zero_add, Nat.add_zero] at hc1 htgt
  subst hc1 htgt hc2
  simp only [List.append_assoc, List.cons_append, List.nil_append]
  have hlen2 : (c0.code ++
      Opcode.jump.asByte :: 255 :: 255 :: extra).length =
      c0.code.length + 3 + extra.length := by
    simp only [List.length_append, List.length_cons]
    omega
  have hjump : (c0.code ++
      Opcode.jump.asByte :: 255 :: 255 :: extra).length -
      (c0.code.length + 1) - 2 = extra.length := by
    simp only [hlen2]
    omega
  constructor
  · intro hle
    rw [hjump] at hle
    refine ⟨⟨((c0.code ++ Opcode.jump.asByte :: 255 :: 255 :: extra).set
        (c0.code.length + 1)
        (((c0.code ++ Opcode.jump.asByte :: 255 :: 255 :: extra).length
          - (c0.code.length + 1) - 2) / 256 % 256)).set
        (c0.code.length + 1 + 1)
        (((c0.code ++ Opcode.jump.asByte :: 255 :: 255 :: extra).length
          - (c0.code.length + 1) - 2) % 256),
      c0.constants, c0.name, c0.lines ++ line :: line :: line ::
        extraLines⟩, ?_, ?_, ?_, ?_, ?_⟩
    · show Chunk.patchJump _ _ = _
      simp only [Chunk.patchJump]
      rw [if_neg (by simp only [hlen2]; omega),
        if_neg (by simp only [hjump]; omega)]
    · show List.get? (List.set (List.set _ _ _) _ _) _ = _
      rw [List.get?_eq_getElem?,
        List.getElem?_set_ne (by omega),
        List.getElem?_set_self (by simp only [hlen2]; omega)]
      simp only [hjump]
      have h256 : extra.length / 256 % 256 = extra.length / 256 := by
        omega
      rw [h256]
    · show List.get? (List.set (List.set _ _ _) _ _) _ = _
      rw [List.get?_eq_getElem?,
        List.getElem?_set_self
          (by simp only [List.length_set, hlen2]; omega)]
    · show (List.set (List.set _ _ _) _ _).length = _
      simp only [List.length_set]
    · intro stack heap globals out
      have hb : (((c0.code ++
          Opcode.jump.asByte :: 255 :: 255 :: extra).set
          (c0.code.length + 1)
          (((c0.code ++ Opcode.jump.asByte :: 255 :: 255 :: extra).length
            - (c0.code.length + 1) - 2) / 256 % 256)).set
          (c0.code.length + 1 + 1)
          (((c0.code ++ Opcode.jump.asByte :: 255 :: 255 :: extra).length
            - (c0.code.length + 1) - 2) % 256)).get?
          (c0.code.length + 1 - 1) = some Opcode.jump.asByte := by
        rw [List.get?_eq_getElem?,
          List.getElem?_set_ne (by omega),
          List.getElem?_set_ne (by omega)]
        have h1 : c0.code.length + 1 - 1 = c0.code.length := by omega
        rw [h1, List.getElem?_append_right (le_refl _)]
        simp
      have hh : (((c0.code ++
          Opcode.jump.asByte :: 255 :: 255 :: extra).set
          (c0.code.length + 1)
          (((c0.code ++ Opcode.jump.asByte :: 255 :: 255 :: extra).length
            - (c0.code.length + 1) - 2) / 256 % 256)).set
          (c0.code.length + 1 + 1)
          (((c0.code ++ Opcode.jump.asByte :: 255 :: 255 :: extra).length
            - (c0.code.length + 1) - 2) % 256)).get?
          (c0.code.length + 1 - 1 + 1) =
          some (extra.length / 256 % 256) := by
        have h1 : c0.code.length + 1 - 1 + 1 = c0.code.length + 1 := by
          omega
        rw [h1, List.get?_eq_getElem?,
          List.getElem?_set_ne (by omega),
          List.getElem?_set_self (by simp only [hlen2]; omega), hjump]
      have hl : (((c0.code ++
          Opcode.jump.asByte :: 255 :: 255 :: extra).set
          (c0.code.length + 1)
          (((c0.code ++ Opcode.jump.asByte :: 255 :: 255 :: extra).length
            - (c0.code.length + 1) - 2) / 256 % 256)).set
          (c0.code.length + 1 + 1)
          (((c0.code ++ Opcode.jump.asByte :: 255 :: 255 :: extra).length
            - (c0.code.length + 1) - 2) % 256)).get?
          (c0.code.length + 1 - 1 + 1 + 1) =
          some (extra.length % 256) := by
        have h1 : c0.code.length + 1 - 1 + 1 + 1 =
            c0.code.length + 1 + 1 := by omega
        rw [h1, List.get?_eq_getElem?,
          List.getElem?_set_self
            (by simp only [List.length_set, hlen2]; omega), hjump]
      rw [step_jump hb hh hl]
      have hip : c0.code.length + 1 - 1 + 1 + 1 + 1 +
          (extra.length / 256 % 256 * 256 + extra.length % 256) =
          (c0.code ++ Opcode.jump.asByte :: 255 :: 255 :: extra).length
          := by
        simp only [hlen2]
        omega
      simp only [hip]
  · intro hgt
    show Chunk.patchJump _ _ = _
    simp only [Chunk.patchJump]
    rw [if_neg (by simp only [hlen2]; omega),
      if_pos (by simp only [hjump]; omega)]

/-- Witness for the C4 theorem at a concrete input: a `Jump` emitted at
code position 0 (operand at 1), followed by one extra byte, patched to
offset 1; executing the patched jump from ip 0 lands at position 4,
where `patch_jump` was called. -/
theorem patch_jump_spec_witness :
    Chunk.patchJump ⟨[Opcode.jump.asByte, 255, 255, 0], [], ("c"),
        [1, 1, 1, 1]⟩ 1 =
      .ok ⟨[Opcode.jump.asByte, 0, 1, 0], [], ("c"), [1, 1, 1, 1]⟩ ∧
    step ⟨[Opcode.jump.asByte, 0, 1, 0], [], ("c"), [1, 1, 1, 1]⟩
        ⟨0, [], HeapManager.fresh, HashTable.fresh, []⟩ =
      .next ⟨4, [], HeapManager.fresh, HashTable.fresh, []⟩ := by
  obtain ⟨c3, hok, h1, h2, h3, hstep⟩ :=
    (patch_jump_spec (Chunk.new ("c")) 1 [0] [1]
      ⟨[Opcode.jump.asByte, 255, 255], [], ("c"), [1, 1, 1]⟩ 1 rfl
      ⟨[Opcode.jump.asByte, 255, 255, 0], [], ("c"), [1, 1, 1, 1]⟩
      rfl).1 (by decide)
  have hok2 : Chunk.patchJump ⟨[Opcode.jump.asByte, 255, 255, 0], [],
      ("c"), [1, 1, 1, 1]⟩ 1 =
      .ok ⟨[Opcode.jump.asByte, 0, 1, 0], [], ("c"), [1, 1, 1, 1]⟩ :=
    rfl
  have hc3 : c3 = ⟨[Opcode.jump.asByte, 0, 1, 0], [], ("c"),
      [1, 1, 1, 1]⟩ := by
    rw [hok2] at hok
    exact (Except.ok.inj hok).symm
  subst hc3
  exact ⟨hok2, hstep [] HeapManager.fresh HashTable.fresh []⟩

/-- One full loop iteration of the `while (true) { }` chunk returns
the VM to its initial state: four steps consume `True`, `JumpIfFalse`,
`Pop` and `Loop`. -/
theorem run_while_plus4 (m : Nat) :
    run whileChunk (m + 4) (initState HeapManager.fresh) =
      run whileChunk m (initState HeapManager.fresh) := by
  have e0 : step whileChunk
      ⟨0, [], HeapManager.fresh, HashTable.fresh, []⟩ =
      .next ⟨1, [.boolean true], HeapManager.fresh, HashTable.fresh,
        []⟩ := rfl
  have e1 : step whileChunk
      ⟨1, [.boolean true], HeapManager.fresh, HashTable.fresh, []⟩ =
      .next ⟨4, [.boolean true], HeapManager.fresh, HashTable.fresh,
        []⟩ := rfl
  have e2 : step whileChunk
      ⟨4, [.boolean true], HeapManager.fresh, HashTable.fresh, []⟩ =
      .next ⟨5, [], HeapManager.fresh, HashTable.fresh, []⟩ := rfl
  have e3 : step whileChunk
      ⟨5, [], HeapManager.fresh, HashTable.fresh, []⟩ =
      .next ⟨0, [], HeapManager.fresh, HashTable.fresh, []⟩ := rfl
  show run whileChunk (m + 3 + 1)
      ⟨0, [], HeapManager.fresh, HashTable.fresh, []⟩ = _
  rw [run_next (m + 3) e0, run_next (m + 2) e1, run_next (m + 1) e2,
    run_next m e3]
  rfl

set_option maxHeartbeats 4000000 in
/-- C2 (counterexample): the source program `while (true) { }`
compiles successfully (to `whileChunk`, which does end in `Return`),
but running the resulting chunk from ip 0 neither reaches `Return` nor
raises an error: for every fuel bound the VM is still running, so
execution of a successfully compiled chunk need not terminate. -/
theorem while_true_never_halts :
    compileProgram 30 whileTrueTokens HeapManager.fresh =
        some (.ok (whileChunk, HeapManager.fresh)) ∧
    ∀ n, ∃ s, run whileChunk n (initState HeapManager.fresh) =
      .more s := by
  constructor
  · rfl
  · intro n
    induction n using Nat.strong_induction_on with
    | _ n ih =>
      rcases n with _ | (_ | (_ | (_ | m)))
      · exact ⟨_, rfl⟩
      · exact ⟨_, rfl⟩
      · exact ⟨_, rfl⟩
      · exact ⟨_, rfl⟩
      · obtain ⟨s, hs⟩ := ih m (by omega)
        refine ⟨s, ?_⟩
        show run whileChunk (m + 4) (initState HeapManager.fresh) =
          .more s
        rw [run_while_plus4 m]
        exact hs

/-- C2 (amended): every chunk produced by a successful compile ends in
the `Return` opcode, and the VM never reads the code array out of
bounds: fetching an instruction pointer outside the chunk yields the
defined `InvalidInstructionPointer` error (execution itself need not
terminate). -/
theorem compile_ret_and_ip_safety :
    (∀ (F : Nat) (toks : List (Except ScanError Token))
        (heap : HeapManager) (c : Chunk) (h : HeapManager),
      compileProgram F toks heap = some (.ok (c, h)) →
        c.code.getLast? = some (Opcode.ret.asByte)) ∧
    (∀ (c : Chunk) (s : VMState), c.code.get? s.ip = Option.none →
      step c s = .err (.runtime (.invalidInstructionPointer s.ip
        c.code.length)) s) := by
  constructor
  · intro F toks heap c h hc
    simp only [compileProgram] at hc
    split at hc
    · exact absurd hc (by simp)
    · exact absurd hc (by simp)
    · simp only [Option.some.injEq, Except.ok.injEq, Prod.mk.injEq]
        at hc
      obtain ⟨⟨rfl, rfl⟩⟩ := hc
      simp [Chunk.addOpcode, Chunk.addByte, List.getLast?_concat]
  · intro c s h
    simp only [step, readByte, h]

/-- Witness for the C2 amended theorem at concrete inputs: compiling
the empty program yields the one-byte chunk `[Return]`, whose last
byte is `Return`, and stepping it at the out-of-range ip 5 yields the
`InvalidInstructionPointer` error. -/
theorem compile_ret_and_ip_safety_witness :
    (Chunk.code ⟨[Opcode.ret.asByte], [], ("main"), [0]⟩).getLast? =
        some (Opcode.ret.asByte) ∧
    step ⟨[Opcode.ret.asByte], [], ("main"), [0]⟩
        ⟨5, [], HeapManager.fresh, HashTable.fresh, []⟩ =
      .err (.runtime (.invalidInstructionPointer 5 1))
        ⟨5, [], HeapManager.fresh, HashTable.fresh, []⟩ := by
  refine ⟨compile_ret_and_ip_safety.1 1 [] HeapManager.fresh
    ⟨[Opcode.ret.asByte], [], ("main"), [0]⟩ HeapManager.fresh rfl, ?_⟩
  exact compile_ret_and_ip_safety.2
    ⟨[Opcode.ret.asByte], [], ("main"), [0]⟩
    ⟨5, [], HeapManager.fresh, HashTable.fresh, []⟩ rfl

/-- C8 (counterexample): starting from a fresh table, `insert 0`,
`delete 0`, `insert 1` (all addresses dereferencing to `"a"`, so both
keys probe slot 4 of the grown 8-slot table): the delete leaves a
tombstone and keeps `count = 1`; the second insert reuses that
tombstone slot — no key 1 is stored anywhere and no truly-free slot is
consumed — yet it increments `count` to 2 and returns `true`. -/
theorem insert_tombstone_counterexample :
    HashTable.fresh.insert (fun _ => ("a")) 0 Value.nil =
      some (⟨1, 8, [⟨Option.none, Value.nil⟩, ⟨Option.none, Value.nil⟩,
        ⟨Option.none, Value.nil⟩, ⟨Option.none, Value.nil⟩,
        ⟨some 0, Value.nil⟩, ⟨Option.none, Value.nil⟩,
        ⟨Option.none, Value.nil⟩, ⟨Option.none, Value.nil⟩]⟩, true) ∧
    HashTable.delete (fun _ => ("a"))
      ⟨1, 8, [⟨Option.none, Value.nil⟩, ⟨Option.none, Value.nil⟩,
        ⟨Option.none, Value.nil⟩, ⟨Option.none, Value.nil⟩,
        ⟨some 0, Value.nil⟩, ⟨Option.none, Value.nil⟩,
        ⟨Option.none, Value.nil⟩, ⟨Option.none, Value.nil⟩]⟩ 0 =
      some (⟨1, 8, [⟨Option.none, Value.nil⟩, ⟨Option.none, Value.nil⟩,
        ⟨Option.none, Value.nil⟩, ⟨Option.none, Value.nil⟩,
        ⟨Option.none, Value.boolean true⟩, ⟨Option.none, Value.nil⟩,
        ⟨Option.none, Value.nil⟩, ⟨Option.none, Value.nil⟩]⟩, true) ∧
    HashTable.insert (fun _ => ("a"))
      ⟨1, 8, [⟨Option.none, Value.nil⟩, ⟨Option.none, Value.nil⟩,
        ⟨Option.none, Value.nil⟩, ⟨Option.none, Value.nil⟩,
        ⟨Option.none, Value.boolean true⟩, ⟨Option.none, Value.nil⟩,
        ⟨Option.none, Value.nil⟩, ⟨Option.none, Value.nil⟩]⟩ 1
      Value.nil =
      some (⟨2, 8, [⟨Option.none, Value.nil⟩, ⟨Option.none, Value.nil⟩,
        ⟨Option.none, Value.nil⟩, ⟨Option.none, Value.nil⟩,
        ⟨some 1, Value.nil⟩, ⟨Option.none, Value.nil⟩,
        ⟨Option.none, Value.nil⟩, ⟨Option.none, Value.nil⟩]⟩, true) :=
  ⟨rfl, rfl, rfl⟩

/-- C8 (amended): after the optional capacity adjustment, `insert`
writes the key/value at the probed slot, returns `is_new_key` — true
exactly when that slot's key was null, which holds both for truly-free
slots and for tombstones — and increments `count` exactly in that
case, so tombstone reuse does increment `count`. -/
theorem insert_count_spec (deref : Nat → String) (t tg : HashTable)
    (k j : Nat) (v : Value)
    (hg : (if 4 * (t.count + 1) > 3 * t.capacity then
        t.adjustCapacity deref t.growCapacity else some t) = some tg)
    (hj : findEntry deref tg.entries tg.capacity k = some j) :
    t.insert deref k v = some
      ({ tg with
         count := if (tg.entries.getD j emptyEntry).key.isNone
           then tg.count + 1 else tg.count
         entries := tg.entries.set j ⟨some k, v⟩ },
       (tg.entries.getD j emptyEntry).key.isNone) := by
  by_cases hcond : 4 * (t.count + 1) > 3 * t.capacity
  · rw [if_pos hcond] at hg
    simp [HashTable.insert, hcond, hg, hj]
  · rw [if_neg hcond] at hg
    obtain rfl : t = tg := Option.some.inj hg
    simp [HashTable.insert, hcond, hj]

/-- Witness for the C8 amended theorem at a concrete input: inserting
key 0 into a fresh table grows it to 8 slots and stores the key at the
probed slot 4 (a null-key slot), returning `true` and count 1. -/
theorem insert_count_spec_witness :
    HashTable.fresh.insert (fun _ => ("a")) 0 Value.nil =
      some (⟨1, 8, [⟨Option.none, Value.nil⟩, ⟨Option.none, Value.nil⟩,
        ⟨Option.none, Value.nil⟩, ⟨Option.none, Value.nil⟩,
        ⟨some 0, Value.nil⟩, ⟨Option.none, Value.nil⟩,
        ⟨Option.none, Value.nil⟩, ⟨Option.none, Value.nil⟩]⟩, true) :=
  insert_count_spec (fun _ => ("a")) HashTable.fresh
    ⟨0, 8, List.replicate 8 emptyEntry⟩ 0 4 Value.nil rfl rfl

theorem getD_set {α : Type} (l : List α) (i j : Nat) (a d : α) :
    (l.set i a).getD j d =
      if i = j ∧ i < l.length then a else l.getD j d := by
  simp only [List.getD, List.get?_eq_getElem?, List.getElem?_set]
  by_cases h1 : i = j
  · subst h1
    by_cases h2 : i < l.length
    · simp [h2]
    · simp [h2, List.getElem?_eq_none (Nat.le_of_not_lt h2)]
  · simp [h1]

theorem getD_replicate {α : Type} (n i : Nat) (a : α) :
    (List.replicate n a).getD i a = a := by
  simp only [List.getD, List.get?_eq_getElem?, List.getElem?_replicate]
  by_cases h : i < n <;> simp [h]

theorem findEntryAux_key (es : List Entry) (cap h k : Nat) :
    ∀ (r : Nat), ∀ (i : Nat) (tomb : Option Nat) (j : Nat),
      (∀ jt, tomb = some jt →
        (es.getD jt emptyEntry).key = Option.none) →
      findEntryAux es cap h k r i tomb = some j →
      (es.getD j emptyEntry).key = some k ∨
        (es.getD j emptyEntry).key = Option.none := by
  intro r
  induction r with
  | zero =>
    intro i tomb j _ hfa
    exact absurd hfa (by simp [findEntryAux])
  | succ r ih =>
    intro i tomb j htomb hfa
    simp only [findEntryAux] at hfa
    cases hkey : (es.getD ((h + i) % cap) emptyEntry).key with
    | some kp =>
      simp only [hkey] at hfa
      by_cases hkk : kp = k
      · rw [if_pos hkk] at hfa
        obtain rfl : (h + i) % cap = j := Option.some.inj hfa
        subst hkk
        exact Or.inl hkey
      · rw [if_neg hkk] at hfa
        exact ih (i + 1) tomb j htomb hfa
    | none =>
      simp only [hkey] at hfa
      by_cases hnil : isNilV (es.getD ((h + i) % cap) emptyEntry).value
      · rw [if_pos hnil] at hfa
        obtain rfl : tomb.getD ((h + i) % cap) = j := Option.some.inj hfa
        cases htombc : tomb with
        | none => subst htombc; exact Or.inr (by simpa using hkey)
        | some jt =>
          subst htombc
          exact Or.inr (by simpa using htomb jt rfl)
      · rw [if_neg hnil] at hfa
        refine ih (i + 1) (some (tomb.getD ((h + i) % cap))) j ?_ hfa
        intro jt hjt
        cases htombc : tomb with
        | none =>
          subst htombc
          simp only [Option.getD_none] at hjt
          obtain rfl := Option.some.inj hjt
          exact hkey
        | some jt0 =>
          subst htombc
          simp only [Option.getD_some] at hjt
          obtain rfl := Option.some.inj hjt
          exact htomb jt0 rfl

/-- The core interning lemma: if a probe for key `k` (whose contents
are `s`) over a table with no live `s`-slot lands on slot `j`, then
after writing `⟨k, v⟩` at `j` the contents-lookup probe from the same
start finds exactly `k` — unless `j` is the tombstone carried in by the
accumulator. -/
theorem findEntryAux_getString_set (deref : Nat → String)
    (es : List Entry) (cap h k : Nat) (s : String) (v : Value)
    (hcap : 0 < cap) (hlen : es.length = cap) (hk : deref k = s)
    (hnos : ∀ jx kx, (es.getD jx emptyEntry).key = some kx →
      deref kx ≠ s) :
    ∀ (r : Nat), ∀ (i : Nat) (tomb : Option Nat) (j : Nat),
      (∀ jt, tomb = some jt →
        (es.getD jt emptyEntry).key = Option.none ∧
        isNilV (es.getD jt emptyEntry).value = false) →
      findEntryAux es cap h k r i tomb = some j →
      tomb = some j ∨
        getStringAux deref (es.set j ⟨some k, v⟩) cap h s r i =
          some (some k) := by
  intro r
  induction r with
  | zero =>
    intro i tomb j _ hfa
    exact absurd hfa (by simp [findEntryAux])
  | succ r ih =>
    intro i tomb j htomb hfa
    have hjnone : (es.getD j emptyEntry).key = Option.none := by
      rcases findEntryAux_key es cap h k (r + 1) i tomb j
          (fun jt hjt => (htomb jt hjt).1) hfa with hsome | hnone
      · exact absurd hk (hnos j k hsome)
      · exact hnone
    simp only [findEntryAux] at hfa
    cases hkey : (es.getD ((h + i) % cap) emptyEntry).key with
    | some kp =>
      simp only [hkey] at hfa
      have hkk : ¬ kp = k := fun he => absurd hk (he ▸ hnos _ _ hkey)
      rw [if_neg hkk] at hfa
      refine (ih (i + 1) tomb j htomb hfa).imp id (fun hgs => ?_)
      have hne : j ≠ (h + i) % cap := fun he => by
        rw [he, hkey] at hjnone
        exact Option.noConfusion hjnone
      simp only [getStringAux]
      rw [getD_set, if_neg (fun hand => hne hand.1)]
      simp only [hkey]
      rw [if_neg (hnos _ _ hkey)]
      exact hgs
    | none =>
      simp only [hkey] at hfa
      by_cases hnil : isNilV (es.getD ((h + i) % cap) emptyEntry).value
      · rw [if_pos hnil] at hfa
        obtain rfl : tomb.getD ((h + i) % cap) = j := Option.some.inj hfa
        cases htombc : tomb with
        | none =>
          subst htombc
          right
          simp only [Option.getD_none]
          simp only [getStringAux]
          rw [getD_set,
            if_pos ⟨rfl, by rw [hlen]; exact Nat.mod_lt _ hcap⟩]
          simp [hk]
        | some jt =>
          subst htombc
          left
          simp
      · rw [if_neg hnil] at hfa
        have htomb' : ∀ jt, some (tomb.getD ((h + i) % cap)) = some jt →
            (es.getD jt emptyEntry).key = Option.none ∧
            isNilV (es.getD jt emptyEntry).value = false := by
          intro jt hjt
          obtain rfl := Option.some.inj hjt
          cases htombc : tomb with
          | none =>
            subst htombc
            simp only [Option.getD_none]
            exact ⟨hkey, by simpa using hnil⟩
          | some jt0 =>
            subst htombc
            simpa using htomb jt0 rfl
        rcases ih (i + 1) (some (tomb.getD ((h + i) % cap))) j htomb' hfa
            with heq | hgs
        · obtain rfl := Option.some.inj heq
          cases htombc : tomb with
          | none =>
            subst htombc
            right
            simp only [Option.getD_none]
            simp only [getStringAux]
            rw [getD_set,
              if_pos ⟨rfl, by rw [hlen]; exact Nat.mod_lt _ hcap⟩]
            simp [hk]
          | some jt =>
            subst htombc
            left
            simp
        · right
          by_cases hj : j = (h + i) % cap
          · subst hj
            simp only [getStringAux]
            rw [getD_set,
              if_pos ⟨rfl, by rw [hlen]; exact Nat.mod_lt _ hcap⟩]
            simp [hk]
          · simp only [getStringAux]
            rw [getD_set, if_neg (fun hand => hj hand.1)]
            simp only [hkey]
            rw [if_neg hnil]
            exact hgs

theorem growCapacity_pos (t : HashTable) : 0 < t.growCapacity := by
  unfold HashTable.growCapacity
  split <;> omega

theorem foldl_none_fixed {α β : Type} (f : Option β → α → Option β)
    (hf : ∀ a, f Option.none a = Option.none) :
    ∀ l : List α, l.foldl f Option.none = Option.none := by
  intro l
  induction l with
  | nil => rfl
  | cons a l ih =>
    simp only [List.foldl_cons, hf]
    exact ih

theorem rebuild_fold_spec (deref : Nat → String) (newCap : Nat)
    (l0 : List Entry) :
    ∀ (l : List Entry) (es0 : List Entry) (cnt0 : Nat),
      (∀ e ∈ l, e ∈ l0) →
      es0.length = newCap →
      (∀ jx kx, (es0.getD jx emptyEntry).key = some kx →
        ∃ e ∈ l0, e.key = some kx) →
      ∀ es1 cnt1,
        l.foldl
          (fun acc e =>
            match acc, e.key with
            | Option.none, _ => Option.none
            | some (es, cnt), Option.none => some (es, cnt)
            | some (es, cnt), some k =>
              match findEntry deref es newCap k with
              | Option.none => Option.none
              | some j => some (es.set j e, cnt + 1))
          (some (es0, cnt0)) = some (es1, cnt1) →
        es1.length = newCap ∧
        (∀ jx kx, (es1.getD jx emptyEntry).key = some kx →
          ∃ e ∈ l0, e.key = some kx) := by
  intro l
  induction l with
  | nil =>
    intro es0 cnt0 _ hlen hkeys es1 cnt1 hf
    simp only [List.foldl_nil] at hf
    obtain ⟨h1, h2⟩ := Prod.mk.inj (Option.some.inj hf)
    subst h1
    exact ⟨hlen, hkeys⟩
  | cons e l ihl =>
    intro es0 cnt0 hsub hlen hkeys es1 cnt1 hf
    simp only [List.foldl_cons] at hf
    cases hekey : e.key with
    | none =>
      simp only [hekey] at hf
      exact ihl es0 cnt0 (fun e' he' => hsub e' (List.mem_cons_of_mem e he'))
        hlen hkeys es1 cnt1 hf
    | some k =>
      simp only [hekey] at hf
      cases hfe : findEntry deref es0 newCap k with
      | none =>
        simp only [hfe] at hf
        rw [foldl_none_fixed _ (fun a => rfl) l] at hf
        exact Option.noConfusion hf
      | some j =>
        simp only [hfe] at hf
        refine ihl _ _ (fun e' he' => hsub e' (List.mem_cons_of_mem e he'))
          (by rw [List.length_set]; exact hlen) ?_ es1 cnt1 hf
        intro jx kx hkx
        rw [getD_set] at hkx
        by_cases hc : j = jx ∧ j < es0.length
        · rw [if_pos hc] at hkx
          exact ⟨e, hsub e (List.mem_cons_self e l), hkx⟩
        · rw [if_neg hc] at hkx
          exact hkeys jx kx hkx

/-- `adjust_capacity` produces a table of the new capacity whose live
keys all come from the old table. -/
theorem adjustCapacity_spec (deref : Nat → String) (t : HashTable)
    (newCap : Nat) (t' : HashTable)
    (hadj : t.adjustCapacity deref newCap = some t') :
    t'.capacity = newCap ∧ t'.entries.length = newCap ∧
    (∀ jx kx, (t'.entries.getD jx emptyEntry).key = some kx →
      ∃ jy, (t.entries.getD jy emptyEntry).key = some kx) := by
  simp only [HashTable.adjustCapacity] at hadj
  split at hadj
  · exact absurd hadj (by simp)
  · rename_i es cnt heq
    obtain rfl := Option.some.inj hadj
    obtain ⟨hl, hk⟩ := rebuild_fold_spec deref newCap t.entries t.entries
      (List.replicate newCap emptyEntry) 0 (fun e he => he)
      (List.length_replicate newCap emptyEntry)
      (by
        intro jx kx h
        rw [getD_replicate] at h
        exact absurd h (by simp [emptyEntry]))
      es cnt heq
    refine ⟨rfl, hl, ?_⟩
    intro jx kx h
    obtain ⟨e, hmem, hek⟩ := hk jx kx h
    obtain ⟨jy, hjy⟩ := List.mem_iff_get?.mp hmem
    exact ⟨jy, by simp [List.getD, ← List.get?_eq_getElem?, hjy, hek]⟩

/-- After probing a key `addr` (with contents `s`) into a table with no
live `s`-slot, the probed slot has a null key, and the contents-lookup
on the updated table finds exactly `addr`. -/
theorem intern_probe_getString (deref : Nat → String) (tg : HashTable)
    (addr j : Nat) (s : String)
    (hlen : tg.entries.length = tg.capacity)
    (hds : deref addr = s)
    (hnos : ∀ jx kx, (tg.entries.getD jx emptyEntry).key = some kx →
      deref kx ≠ s)
    (hfe : findEntry deref tg.entries tg.capacity addr = some j) :
    (tg.entries.getD j emptyEntry).key = Option.none ∧
    HashTable.getString deref
      ⟨tg.count + 1, tg.capacity,
        tg.entries.set j ⟨some addr, Value.nil⟩⟩ s = some (some addr) := by
  have hcap : 0 < tg.capacity := by
    by_contra hc
    have hz : tg.capacity = 0 := by omega
    rw [findEntry, if_pos hz] at hfe
    exact Option.noConfusion hfe
  have hfa : findEntryAux tg.entries tg.capacity (fnv s % tg.capacity)
      addr tg.capacity 0 Option.none = some j := by
    rw [findEntry, if_neg (by omega)] at hfe
    rwa [hds] at hfe
  have hjnone : (tg.entries.getD j emptyEntry).key = Option.none := by
    rcases findEntryAux_key tg.entries tg.capacity (fnv s % tg.capacity)
        addr tg.capacity 0 Option.none j (by simp) hfa with hs | hn
    · exact absurd hds (hnos j addr hs)
    · exact hn
  refine ⟨hjnone, ?_⟩
  rcases findEntryAux_getString_set deref tg.entries tg.capacity
      (fnv s % tg.capacity) addr s Value.nil hcap hlen hds hnos
      tg.capacity 0 Option.none j (by simp) hfa with habs | hgs
  · exact Option.noConfusion habs
  · rw [HashTable.getString]
    rw [if_neg (by simp), if_neg (by simp; omega)]
    exact hgs

/-- Inserting a fresh interned address (whose contents are `s`) into a
table with no live `s`-slot makes the contents-lookup find exactly that
address. -/
theorem intern_insert_getString (d : Nat → String) (t0 : HashTable)
    (addr : Nat) (s : String) (tbl : HashTable) (flag : Bool)
    (hds : d addr = s)
    (hwlen : t0.entries.length = t0.capacity)
    (hnos0 : ∀ jx kx, (t0.entries.getD jx emptyEntry).key = some kx →
      d kx ≠ s)
    (hins : t0.insert d addr Value.nil = some (tbl, flag)) :
    tbl.getString d s = some (some addr) := by
  simp only [HashTable.insert] at hins
  by_cases hgrow : 4 * (t0.count + 1) > 3 * t0.capacity
  · rw [if_pos hgrow] at hins
    cases hadj : t0.adjustCapacity d t0.growCapacity with
    | none =>
      rw [hadj] at hins
      exact absurd hins (by simp)
    | some tg =>
      rw [hadj] at hins
      obtain ⟨hcap', hlen', hkeys'⟩ := adjustCapacity_spec d t0 _ tg hadj
      have hnos : ∀ jx kx, (tg.entries.getD jx emptyEntry).key = some kx →
          d kx ≠ s := by
        intro jx kx hk
        obtain ⟨jy, hjy⟩ := hkeys' jx kx hk
        exact hnos0 jy kx hjy
      cases hfe : findEntry d tg.entries tg.capacity addr with
      | none => simp [hfe] at hins
      | some j =>
        simp only [Option.bind_eq_bind, Option.some_bind, hfe] at hins
        obtain ⟨hjnone, hget⟩ := intern_probe_getString d tg addr j s
          (hlen'.trans hcap'.symm) hds hnos hfe
        simp only [hjnone, Option.isNone_none, if_true] at hins
        obtain ⟨h1, h2⟩ := Prod.mk.inj (Option.some.inj hins)
        subst h1
        exact hget
  · rw [if_neg hgrow] at hins
    have hnos := hnos0
    cases hfe : findEntry d t0.entries t0.capacity addr with
    | none => simp [hfe] at hins
    | some j =>
      simp only [Option.bind_eq_bind, Option.some_bind, hfe] at hins
      obtain ⟨hjnone, hget⟩ := intern_probe_getString d t0 addr j s
        hwlen hds hnos hfe
      simp only [hjnone, Option.isNone_none, if_true] at hins
      obtain ⟨h1, h2⟩ := Prod.mk.inj (Option.some.inj hins)
      subst h1
      exact hget

theorem deref_cons_self (n a0 : Nat) (s : String)
    (ar : List (Nat × String)) (t : HashTable) :
    HeapManager.deref ⟨n, (a0, s) :: ar, t⟩ a0 = s := by
  simp [HeapManager.deref, List.lookup]

theorem deref_cons_ne (n n2 a0 : Nat) (s : String)
    (ar : List (Nat × String)) (t t2 : HashTable) (kx : Nat)
    (h : kx ≠ a0) :
    HeapManager.deref ⟨n, (a0, s) :: ar, t⟩ kx =
      HeapManager.deref ⟨n2, ar, t2⟩ kx := by
  simp [HeapManager.deref, List.lookup, beq_eq_false_iff_ne.mpr h]

/-- C7: string creation is canonicalizing on a well-formed heap: a
repeated `new_str_copied` with equal contents returns the identical
heap reference (and the identical heap), and `new_str_concat` is the
same operation as `new_str_copied` of the concatenated contents, so
two `ObjString`s with equal content share one heap address. -/
theorem interning_canonical (m : HeapManager) (s : String)
    (hwf : heapWF m) :
    (∀ m1 r, m.newStrCopied s = some (m1, r) →
      m1.newStrCopied s = some (m1, r)) ∧
    (∀ a b, m.newStrConcat a b =
      m.newStrCopied (m.deref a ++ m.deref b)) := by
  obtain ⟨hwlen, harena, hlive⟩ := hwf
  constructor
  · intro m1 r h
    simp only [HeapManager.newStrCopied] at h
    cases hgs : m.strings.getString m.deref s with
    | none =>
      simp only [hgs, Option.bind_eq_bind, Option.none_bind] at h
      exact Option.noConfusion h
    | some o =>
      cases o with
      | some r0 =>
        simp only [hgs, Option.bind_eq_bind, Option.some_bind] at h
        obtain ⟨h1, h2⟩ := Prod.mk.inj (Option.some.inj h)
        subst h1
        subst h2
        simp only [HeapManager.newStrCopied, hgs, Option.bind_eq_bind,
          Option.some_bind]
      | none =>
        simp only [hgs, Option.bind_eq_bind, Option.some_bind] at h
        cases hins : HashTable.insert (HeapManager.deref
            ⟨m.nextAddr + 1, (m.nextAddr, s) :: m.arena, m.strings⟩)
            m.strings m.nextAddr Value.nil with
        | none =>
          simp only [hins, Option.bind_eq_bind, Option.none_bind] at h
          exact Option.noConfusion h
        | some p =>
          obtain ⟨tbl, flag⟩ := p
          simp only [hins, Option.bind_eq_bind, Option.some_bind] at h
          obtain ⟨h1, h2⟩ := Prod.mk.inj (Option.some.inj h)
          subst h1
          subst h2
          have hds : HeapManager.deref ⟨m.nextAddr + 1,
              (m.nextAddr, s) :: m.arena, m.strings⟩ m.nextAddr = s :=
            deref_cons_self _ _ _ _ _
          have hnos0 : ∀ jx kx,
              (m.strings.entries.getD jx emptyEntry).key = some kx →
              HeapManager.deref ⟨m.nextAddr + 1, (m.nextAddr, s) ::
                m.arena, m.strings⟩ kx ≠ s := by
            intro jx kx hk hcontra
            obtain ⟨hklt, rr, hrr⟩ := hlive jx kx hk
            rw [deref_cons_ne (m.nextAddr + 1) m.nextAddr m.nextAddr s
              m.arena m.strings m.strings kx (Nat.ne_of_lt hklt)]
              at hcontra
            have hcontra2 : m.deref kx = s := hcontra
            rw [hcontra2, hgs] at hrr
            simp at hrr
          have hget := intern_insert_getString _ m.strings m.nextAddr s
            tbl flag hds hwlen hnos0 hins
          have hget2 : HashTable.getString (HeapManager.deref
              ⟨m.nextAddr + 1, (m.nextAddr, s) :: m.arena, tbl⟩) tbl s =
              some (some m.nextAddr) := hget
          simp only [HeapManager.newStrCopied, hget2, Option.bind_eq_bind,
            Option.some_bind]
  · intro a b
    rfl

/-- Witness for C7 at a concrete input: the fresh heap is well-formed,
and interning `"ab"` twice yields the same address 0 and the same
heap. -/
theorem interning_canonical_witness :
    heapWF HeapManager.fresh ∧
    HeapManager.newStrCopied
      ⟨1, [(0, ("ab"))], ⟨1, 8, [⟨Option.none, Value.nil⟩,
        ⟨Option.none, Value.nil⟩, ⟨some 0, Value.nil⟩,
        ⟨Option.none, Value.nil⟩, ⟨Option.none, Value.nil⟩,
        ⟨Option.none, Value.nil⟩, ⟨Option.none, Value.nil⟩,
        ⟨Option.none, Value.nil⟩]⟩⟩ ("ab") =
      some (⟨1, [(0, ("ab"))], ⟨1, 8, [⟨Option.none, Value.nil⟩,
        ⟨Option.none, Value.nil⟩, ⟨some 0, Value.nil⟩,
        ⟨Option.none, Value.nil⟩, ⟨Option.none, Value.nil⟩,
        ⟨Option.none, Value.nil⟩, ⟨Option.none, Value.nil⟩,
        ⟨Option.none, Value.nil⟩]⟩⟩, 0) := by
  have hwf : heapWF HeapManager.fresh := by
    refine ⟨rfl, ?_, ?_⟩
    · intro p hp
      simp [HeapManager.fresh] at hp
    · intro jx kx h
      simp [HeapManager.fresh, HashTable.fresh, List.getD, emptyEntry]
        at h
  exact ⟨hwf, (interning_canonical HeapManager.fresh ("ab") hwf).1 _ 0
    rfl⟩

theorem findEntryAux_tomb_fixed (es : List Entry) (cap h k : Nat)
    (hknot : ∀ jx, (es.getD jx emptyEntry).key ≠ some k) :
    ∀ (r : Nat), ∀ (i jt j : Nat),
      findEntryAux es cap h k r i (some jt) = some j → j = jt := by
  intro r
  induction r with
  | zero =>
    intro i jt j hfa
    exact absurd hfa (by simp [findEntryAux])
  | succ r ih =>
    intro i jt j hfa
    simp only [findEntryAux] at hfa
    cases hkey : (es.getD ((h + i) % cap) emptyEntry).key with
    | some kp =>
      simp only [hkey] at hfa
      have hkk : ¬ kp = k := fun he =>
        hknot ((h + i) % cap) (he ▸ hkey)
      rw [if_neg hkk] at hfa
      exact ih (i + 1) jt j hfa
    | none =>
      simp only [hkey] at hfa
      by_cases hnil : isNilV (es.getD ((h + i) % cap) emptyEntry).value
      · rw [if_pos hnil] at hfa
        simpa using (Option.some.inj hfa).symm
      · rw [if_neg hnil] at hfa
        simpa using ih (i + 1) jt j hfa

/-- Re-probing a freshly inserted key finds exactly the slot the
original probe chose. -/
theorem findEntryAux_refind_new (es : List Entry) (cap h k : Nat)
    (v : Value)
    (hknot : ∀ jx, (es.getD jx emptyEntry).key ≠ some k)
    (hcap : 0 < cap) (hlen : es.length = cap) :
    ∀ (r : Nat), ∀ (i j : Nat),
      findEntryAux es cap h k r i Option.none = some j →
      findEntryAux (es.set j ⟨some k, v⟩) cap h k r i Option.none =
        some j := by
  intro r
  induction r with
  | zero =>
    intro i j hfa
    exact absurd hfa (by simp [findEntryAux])
  | succ r ih =>
    intro i j hfa
    have hjnone : (es.getD j emptyEntry).key = Option.none := by
      rcases findEntryAux_key es cap h k (r + 1) i Option.none j
          (by simp) hfa with hs | hn
      · exact absurd hs (hknot j)
      · exact hn
    simp only [findEntryAux] at hfa ⊢
    cases hkey : (es.getD ((h + i) % cap) emptyEntry).key with
    | some kp =>
      simp only [hkey] at hfa
      have hkk : ¬ kp = k := fun he =>
        hknot ((h + i) % cap) (he ▸ hkey)
      rw [if_neg hkk] at hfa
      have hne : j ≠ (h + i) % cap := fun he => by
        rw [he, hkey] at hjnone
        exact Option.noConfusion hjnone
      rw [getD_set, if_neg (fun hand => hne hand.1)]
      simp only [hkey]
      rw [if_neg hkk]
      exact ih (i + 1) j hfa
    | none =>
      simp only [hkey] at hfa
      by_cases hnil : isNilV (es.getD ((h + i) % cap) emptyEntry).value
      · rw [if_pos hnil] at hfa
        obtain rfl : (h + i) % cap = j := by
          simpa using Option.some.inj hfa
        rw [getD_set,
          if_pos ⟨rfl, by rw [hlen]; exact Nat.mod_lt _ hcap⟩]
        simp
      · rw [if_neg hnil] at hfa
        obtain rfl : j = (h + i) % cap :=
          findEntryAux_tomb_fixed es cap h k hknot r (i + 1) _ j hfa
        rw [getD_set,
          if_pos ⟨rfl, by rw [hlen]; exact Nat.mod_lt _ hcap⟩]
        simp

/-- Re-probing a key after overwriting its matched slot (same key, new
value) finds the same slot, for any tombstone accumulator. -/
theorem findEntryAux_refind_match (es : List Entry) (cap h k : Nat)
    (v : Value) (hcap : 0 < cap) (hlen : es.length = cap) :
    ∀ (r : Nat), ∀ (i : Nat) (tomb tomb2 : Option Nat) (j : Nat),
      (∀ jt, tomb = some jt →
        (es.getD jt emptyEntry).key = Option.none) →
      findEntryAux es cap h k r i tomb = some j →
      (es.getD j emptyEntry).key = some k →
      findEntryAux (es.set j ⟨some k, v⟩) cap h k r i tomb2 =
        some j := by
  intro r
  induction r with
  | zero =>
    intro i tomb tomb2 j _ hfa _
    exact absurd hfa (by simp [findEntryAux])
  | succ r ih =>
    intro i tomb tomb2 j htomb hfa hjk
    simp only [findEntryAux] at hfa ⊢
    cases hkey : (es.getD ((h + i) % cap) emptyEntry).key with
    | some kp =>
      simp only [hkey] at hfa
      by_cases hkk : kp = k
      · rw [if_pos hkk] at hfa
        obtain rfl : (h + i) % cap = j := Option.some.inj hfa
        rw [getD_set,
          if_pos ⟨rfl, by rw [hlen]; exact Nat.mod_lt _ hcap⟩]
        simp
      · rw [if_neg hkk] at hfa
        have hne : j ≠ (h + i) % cap := fun he => by
          rw [he, hkey] at hjk
          exact hkk (Option.some.inj hjk)
        rw [getD_set, if_neg (fun hand => hne hand.1)]
        simp only [hkey]
        rw [if_neg hkk]
        exact ih (i + 1) tomb tomb2 j htomb hfa hjk
    | none =>
      simp only [hkey] at hfa
      by_cases hnil : isNilV (es.getD ((h + i) % cap) emptyEntry).value
      · rw [if_pos hnil] at hfa
        obtain rfl : tomb.getD ((h + i) % cap) = j := Option.some.inj hfa
        cases htombc : tomb with
        | none =>
          subst htombc
          simp only [Option.getD_none] at hjk
          rw [hkey] at hjk
          exact Option.noConfusion hjk
        | some jt =>
          subst htombc
          simp only [Option.getD_some] at hjk
          rw [htomb jt rfl] at hjk
          exact Option.noConfusion hjk
      · rw [if_neg hnil] at hfa
        have hne : j ≠ (h + i) % cap := fun he => by
          rw [he, hkey] at hjk
          exact Option.noConfusion hjk
        rw [getD_set, if_neg (fun hand => hne hand.1)]
        simp only [hkey]
        rw [if_neg hnil]
        refine ih (i + 1) (some (tomb.getD ((h + i) % cap))) _ j ?_ hfa
          hjk
        intro jt hjt
        obtain rfl := Option.some.inj hjt
        cases htombc : tomb with
        | none =>
          subst htombc
          simpa using hkey
        | some jt0 =>
          subst htombc
          simpa using htomb jt0 rfl

/-- Decompose a successful `insert` into the growth step, the probe,
the new-key flag and the written table. -/
theorem insert_probe_decompose (d : Nat → String) (t0 : HashTable)
    (k : Nat) (v : Value) (g1 : HashTable) (flag : Bool)
    (hins : t0.insert d k v = some (g1, flag)) :
    ∃ tg j,
      (if 4 * (t0.count + 1) > 3 * t0.capacity then
        t0.adjustCapacity d t0.growCapacity else some t0) = some tg ∧
      findEntry d tg.entries tg.capacity k = some j ∧
      flag = (tg.entries.getD j emptyEntry).key.isNone ∧
      g1 = { tg with
        count := if flag then tg.count + 1 else tg.count
        entries := tg.entries.set j ⟨some k, v⟩ } := by
  simp only [HashTable.insert] at hins
  by_cases hgrow : 4 * (t0.count + 1) > 3 * t0.capacity
  · rw [if_pos hgrow] at hins
    cases hadj : t0.adjustCapacity d t0.growCapacity with
    | none =>
      rw [hadj] at hins
      exact absurd hins (by simp)
    | some tg =>
      rw [hadj] at hins
      cases hfe : findEntry d tg.entries tg.capacity k with
      | none => simp [hfe] at hins
      | some j =>
        simp only [Option.bind_eq_bind, Option.some_bind, hfe] at hins
        obtain ⟨h1, h2⟩ := Prod.mk.inj (Option.some.inj hins)
        subst h2
        refine ⟨tg, j, by rw [if_pos hgrow], hfe, rfl, h1.symm⟩
  · rw [if_neg hgrow] at hins
    cases hfe : findEntry d t0.entries t0.capacity k with
    | none => simp [hfe] at hins
    | some j =>
      simp only [Option.bind_eq_bind, Option.some_bind, hfe] at hins
      obtain ⟨h1, h2⟩ := Prod.mk.inj (Option.some.inj hins)
      subst h2
      refine ⟨t0, j, by rw [if_neg hgrow], hfe, rfl, h1.symm⟩

theorem findEntryAux_lt (es : List Entry) (cap h k : Nat)
    (hcap : 0 < cap) :
    ∀ (r : Nat), ∀ (i : Nat) (tomb : Option Nat) (j : Nat),
      (∀ jt, tomb = some jt → jt < cap) →
      findEntryAux es cap h k r i tomb = some j → j < cap := by
  intro r
  induction r with
  | zero =>
    intro i tomb j _ hfa
    exact absurd hfa (by simp [findEntryAux])
  | succ r ih =>
    intro i tomb j htomb hfa
    simp only [findEntryAux] at hfa
    cases hkey : (es.getD ((h + i) % cap) emptyEntry).key with
    | some kp =>
      simp only [hkey] at hfa
      by_cases hkk : kp = k
      · rw [if_pos hkk] at hfa
        obtain rfl := Option.some.inj hfa
        exact Nat.mod_lt _ hcap
      · rw [if_neg hkk] at hfa
        exact ih (i + 1) tomb j htomb hfa
    | none =>
      simp only [hkey] at hfa
      by_cases hnil : isNilV (es.getD ((h + i) % cap) emptyEntry).value
      · rw [if_pos hnil] at hfa
        obtain rfl := Option.some.inj hfa
        cases htombc : tomb with
        | none => subst htombc; simpa using Nat.mod_lt (h + i) hcap
        | some jt =>
          subst htombc
          simpa using htomb jt rfl
      · rw [if_neg hnil] at hfa
        refine ih (i + 1) (some (tomb.getD ((h + i) % cap))) j ?_ hfa
        intro jt hjt
        obtain rfl := Option.some.inj hjt
        cases htombc : tomb with
        | none => subst htombc; simpa using Nat.mod_lt (h + i) hcap
        | some jt0 =>
          subst htombc
          simpa using htomb jt0 rfl

/-- C5: executing `SetGlobal` with a name absent from the globals
table raises `UndefinedVariable` and does not create the variable —
the insert is immediately undone by a delete and a lookup of the name
still fails — while `SetGlobal` on a present name (one the probe
finds, i.e. the insert reports it is not new) updates its value to the
top of stack; in both cases the operand stack is only peeked, never
popped, so it is left unchanged. -/
theorem setGlobal_spec (c : Chunk) (s : VMState) (ci a : Nat) (v : Value)
    (hb : c.code.get? s.ip = some Opcode.setGlobal.asByte)
    (hci : c.code.get? (s.ip + 1) = some ci)
    (hcv : c.getConstant ci = some (.obj a))
    (hpeek : peekStack s.stack 0 = some v)
    (hglen : s.globals.entries.length = s.globals.capacity) :
    (∀ g1 g2 rdel,
      (∀ jx, (s.globals.entries.getD jx emptyEntry).key ≠ some a) →
      s.globals.insert s.heap.deref a v = some (g1, true) →
      g1.delete s.heap.deref a = some (g2, rdel) →
      step c s = .err (.runtime (.undefinedVariable (s.heap.deref a)))
        { s with ip := s.ip + 1 + 1, globals := g2 } ∧
      (∀ w, g2.get s.heap.deref a = some w → w = Option.none)) ∧
    (∀ g1,
      s.globals.insert s.heap.deref a v = some (g1, false) →
      step c s = .next { s with ip := s.ip + 1 + 1, globals := g1 } ∧
      g1.get s.heap.deref a = some (some v)) := by
  constructor
  · intro g1 g2 rdel habs hins hdel
    have hdel0 := hdel
    obtain ⟨tg, j, hg, hfe, hflag, hg1⟩ :=
      insert_probe_decompose _ _ _ _ _ _ hins
    have hcap0 : 0 < tg.capacity := by
      by_contra hc
      rw [findEntry, if_pos (by omega)] at hfe
      exact Option.noConfusion hfe
    have htglen : tg.entries.length = tg.capacity := by
      by_cases hgrow : 4 * (s.globals.count + 1) > 3 * s.globals.capacity
      · rw [if_pos hgrow] at hg
        obtain ⟨hc', hl', _⟩ := adjustCapacity_spec _ _ _ _ hg
        exact hl'.trans hc'.symm
      · rw [if_neg hgrow] at hg
        rw [← Option.some.inj hg]
        exact hglen
    have habs2 : ∀ jx, (tg.entries.getD jx emptyEntry).key ≠ some a := by
      by_cases hgrow : 4 * (s.globals.count + 1) > 3 * s.globals.capacity
      · rw [if_pos hgrow] at hg
        obtain ⟨_, _, hkeys⟩ := adjustCapacity_spec _ _ _ _ hg
        intro jx hk
        obtain ⟨jy, hjy⟩ := hkeys jx a hk
        exact habs jy hjy
      · rw [if_neg hgrow] at hg
        intro jx
        rw [← Option.some.inj hg]
        exact habs jx
    have hfa : findEntryAux tg.entries tg.capacity
        (fnv (s.heap.deref a) % tg.capacity) a tg.capacity 0
        Option.none = some j := by
      rw [findEntry, if_neg (by omega)] at hfe
      exact hfe
    have hjlt : j < tg.capacity :=
      findEntryAux_lt tg.entries tg.capacity _ a hcap0 tg.capacity 0
        Option.none j (by simp) hfa
    have hg1c : g1.count = tg.count + 1 := by
      rw [hg1]
      simp [← hflag]
    have hfe1 : findEntry s.heap.deref g1.entries g1.capacity a =
        some j := by
      rw [hg1]
      rw [findEntry, if_neg (by simp; omega)]
      exact findEntryAux_refind_new tg.entries tg.capacity _ a v
        habs2 hcap0 htglen tg.capacity 0 j hfa
    have hgetDg1 : g1.entries.getD j emptyEntry = ⟨some a, v⟩ := by
      rw [hg1]
      show (tg.entries.set j ⟨some a, v⟩).getD j emptyEntry = _
      rw [getD_set, if_pos ⟨rfl, by rw [htglen]; exact hjlt⟩]
    rw [HashTable.delete, if_neg (by omega), hfe1] at hdel
    simp only [hgetDg1] at hdel
    obtain ⟨h1, h2⟩ := Prod.mk.inj (Option.some.inj hdel)
    have hg2 : g2 = { g1 with
        entries := g1.entries.set j ⟨Option.none, Value.boolean true⟩ } :=
      h1.symm
    have hg2abs : ∀ jx, (g2.entries.getD jx emptyEntry).key ≠ some a := by
      intro jx
      rw [hg2]
      show ((g1.entries.set j ⟨Option.none, Value.boolean true⟩).getD jx
        emptyEntry).key ≠ some a
      rw [getD_set]
      by_cases hc : j = jx ∧ j < g1.entries.length
      · rw [if_pos hc]
        simp
      · rw [if_neg hc]
        rw [hg1]
        show ((tg.entries.set j ⟨some a, v⟩).getD jx emptyEntry).key ≠
          some a
        rw [getD_set]
        by_cases hc2 : j = jx ∧ j < tg.entries.length
        · exact absurd hc (by
            rw [hg1]
            simpa [List.length_set] using hc2)
        · rw [if_neg hc2]
          exact habs2 jx
    constructor
    · simp only [step, readByte, readConstant, hb, hci, hcv,
        Opcode.asByte, decodeOpcode, hpeek, hins, hdel0, if_true]
    · intro w hw
      rw [HashTable.get] at hw
      by_cases hc : g2.capacity = 0
      · rw [if_pos hc] at hw
        exact (Option.some.inj hw).symm
      · rw [if_neg hc] at hw
        cases hfg : findEntry s.heap.deref g2.entries g2.capacity a with
        | none =>
          rw [hfg] at hw
          exact absurd hw (by simp)
        | some j2 =>
          rw [hfg] at hw
          have hk2 : (g2.entries.getD j2 emptyEntry).key = Option.none := by
            have hfa2 : findEntryAux g2.entries g2.capacity
                (fnv (s.heap.deref a) % g2.capacity) a g2.capacity 0
                Option.none = some j2 := by
              rw [findEntry, if_neg hc] at hfg
              exact hfg
            rcases findEntryAux_key g2.entries g2.capacity _ a
                g2.capacity 0 Option.none j2 (by simp) hfa2 with hs | hn
            · exact absurd hs (hg2abs j2)
            · exact hn
          simp only [hk2] at hw
          exact (Option.some.inj hw).symm
  · intro g1 hins
    obtain ⟨tg, j, hg, hfe, hflag, hg1⟩ :=
      insert_probe_decompose _ _ _ _ _ _ hins
    have hcap0 : 0 < tg.capacity := by
      by_contra hc
      rw [findEntry, if_pos (by omega)] at hfe
      exact Option.noConfusion hfe
    have htglen : tg.entries.length = tg.capacity := by
      by_cases hgrow : 4 * (s.globals.count + 1) > 3 * s.globals.capacity
      · rw [if_pos hgrow] at hg
        obtain ⟨hc', hl', _⟩ := adjustCapacity_spec _ _ _ _ hg
        exact hl'.trans hc'.symm
      · rw [if_neg hgrow] at hg
        rw [← Option.some.inj hg]
        exact hglen
    have hfa : findEntryAux tg.entries tg.capacity
        (fnv (s.heap.deref a) % tg.capacity) a tg.capacity 0
        Option.none = some j := by
      rw [findEntry, if_neg (by omega)] at hfe
      exact hfe
    have hjlt : j < tg.capacity :=
      findEntryAux_lt tg.entries tg.capacity _ a hcap0 tg.capacity 0
        Option.none j (by simp) hfa
    have hjk : (tg.entries.getD j emptyEntry).key = some a := by
      rcases findEntryAux_key tg.entries tg.capacity _ a tg.capacity 0
          Option.none j (by simp) hfa with hs | hn
      · exact hs
      · rw [hn] at hflag
        exact absurd hflag.symm (by simp)
    constructor
    · simp only [step, readByte, readConstant, hb, hci, hcv,
        Opcode.asByte, decodeOpcode, hpeek, hins, if_false,
        Bool.false_eq_true]
    · rw [HashTable.get]
      rw [hg1]
      rw [if_neg (by simp; omega)]
      have hfe1 : findEntry s.heap.deref
          (tg.entries.set j ⟨some a, v⟩) tg.capacity a = some j := by
        rw [findEntry, if_neg (by omega)]
        exact findEntryAux_refind_match tg.entries tg.capacity _ a v
          hcap0 htglen tg.capacity 0 Option.none Option.none j (by simp)
          hfa hjk
      simp only [hfe1]
      rw [getD_set, if_pos ⟨rfl, by rw [htglen]; exact hjlt⟩]

/-- Witness for the C5 theorem at a concrete input: `SetGlobal` of the
name `"x"` (absent from the empty globals table) with `7` on the stack
raises `UndefinedVariable "x"`, leaves the stack untouched and leaves
only a tombstone behind. -/
theorem setGlobal_spec_witness :
    step ⟨[Opcode.setGlobal.asByte, 0], [.obj 0], ("c"), [1, 1]⟩
        ⟨0, [.number 7], ⟨1, [(0, ("x"))], HashTable.fresh⟩,
          HashTable.fresh, []⟩ =
      .err (.runtime (.undefinedVariable ("x")))
        ⟨2, [.number 7], ⟨1, [(0, ("x"))], HashTable.fresh⟩,
          ⟨1, 8, [⟨Option.none, Value.nil⟩, ⟨Option.none, Value.nil⟩, ⟨Option.none, Value.nil⟩, ⟨Option.none, Value.nil⟩, ⟨Option.none, Value.nil⟩, ⟨Option.none, Value.nil⟩, ⟨Option.none, Value.nil⟩,
            ⟨Option.none, Value.boolean true⟩]⟩, []⟩ := by
  have h := (setGlobal_spec
      ⟨[Opcode.setGlobal.asByte, 0], [.obj 0], ("c"), [1, 1]⟩
      ⟨0, [.number 7], ⟨1, [(0, ("x"))], HashTable.fresh⟩,
        HashTable.fresh, []⟩ 0 0 (.number 7) rfl rfl rfl rfl rfl).1
      ⟨1, 8, [⟨Option.none, Value.nil⟩, ⟨Option.none, Value.nil⟩, ⟨Option.none, Value.nil⟩, ⟨Option.none, Value.nil⟩, ⟨Option.none, Value.nil⟩, ⟨Option.none, Value.nil⟩, ⟨Option.none, Value.nil⟩,
        ⟨some 0, Value.number 7⟩]⟩
      ⟨1, 8, [⟨Option.none, Value.nil⟩, ⟨Option.none, Value.nil⟩, ⟨Option.none, Value.nil⟩, ⟨Option.none, Value.nil⟩, ⟨Option.none, Value.nil⟩, ⟨Option.none, Value.nil⟩, ⟨Option.none, Value.nil⟩,
        ⟨Option.none, Value.boolean true⟩]⟩ true
      (by intro jx; simp [HashTable.fresh, List.getD, emptyEntry])
      rfl rfl
  exact h.1

end Lox
